import Mathlib

/-!
# csread: axis-indexed tables and their interpolation

A shallow embedding of the table engine of `csread` (`clamp.h`, `table/*.h`,
`table/*.inl`, `imfp_table.h`, `ionization_table.h` and the resampling code of
`material.cpp`) and of its unit strings (`units/unit_system.h`,
`units/unit_parser.h`), together with theorems about them.

Conventions of the embedding.

* Real numbers (`double`, `float`) are an arbitrary linearly ordered field `α`
  with a floor function: arithmetic is exact.  `std::exp` and `std::log` are
  passed to the definitions that call them as the parameters `exp` and `log`;
  theorems that need their laws instantiate them with `Real.exp`, `Real.log`.
* Where the program departs from exact arithmetic, the rounding of `double`
  and `float` is `fl_round 53` and `fl_round 24` (round to nearest, ties to
  even, exponent range unbounded).  A definition whose name ends in `_rnd`
  repeats a source function with every operation and conversion followed by
  the rounding `rnd`; the logarithm of `double` arithmetic is `Real.log`
  followed by `fl_round 53`.  Theorems stated with the exact definitions are
  statements about exact arithmetic.
* `size_t` values are natural numbers below `SIZE_T_MOD = 2 ^ 64`; the
  arithmetic the source performs on them is written with `size_sub`,
  `size_add`, `size_mul`, which reduce modulo `2 ^ 64`.  The conversion of a
  real number to `size_t` is the floor; where the source converts a number that
  it has not clamped first (`ionization_table::get`), the conversion is
  `to_size_t_checked`, which has no value from `2 ^ 64` on.  The product of two
  `int` values is `int_mul`, which wraps around.
* A `std::vector` or an owned buffer is a `List`.  An unchecked read is `vec_at`;
  the source leaves a read outside the buffer undefined and the embedding reads
  `0` there.  An unchecked write is `vec_write`, which has no value outside the
  buffer.  A theorem that speaks of a stored value states that the position
  read is inside the buffer (`data[i]? = some v`) or assumes that the buffer is
  as long as the axis.
* Division is that of the field; the theorems assume what keeps every divisor
  different from zero (a strictly increasing list axis, at least two points on a
  uniform axis, `K_min < K_max`).
* A thrown `std::runtime_error` is `Except.error` carrying the message; where
  the code can throw exceptions of several classes (`parse_unit`), the error is
  a value of the type `exception`, which records the class as well.
* A `std::string` under a cursor is the list of the characters from the cursor
  to the end; `std::stoi` is the function `stoi` with the behaviour the C++
  standard gives it.  The header `units/quantity.h` is not among the sources:
  `dimension` and `quantity` are modelled as a vector of six integer exponents
  and a value tagged with it, with the product and the integer power that
  `parse_unit` calls.
* The template parameter `ax` of the table classes is the record `axis_ops` of
  the three members the table code calls (`size`, `operator[]`, `find`).
* Where a claim is about stored values that are not finite, the value type is
  `fp α` (a number, a signed infinity or not-a-number) with the floating-point
  product and sum; `at_linear_fp` is `at_linear` computed on such values, and on
  finite values it is `at_linear`.
* A `std::map` is the list of its entries, read with `List.lookup`; its member
  `at` raises `std::out_of_range` for a key that has no entry.
-/

namespace csread

/-! ## `size_t` arithmetic -/

/-- Number of values of `size_t`. -/
def SIZE_T_MOD : Nat := 2 ^ 64

/-- Subtraction `a - b` of two `size_t` values, wrapping around below zero. -/
def size_sub (a b : Nat) : Nat := (a + SIZE_T_MOD - b % SIZE_T_MOD) % SIZE_T_MOD

/-- Addition `a + b` of two `size_t` values. -/
def size_add (a b : Nat) : Nat := (a + b) % SIZE_T_MOD

/-- Multiplication `a * b` of two `size_t` values. -/
def size_mul (a b : Nat) : Nat := (a * b) % SIZE_T_MOD

/-- Conversion `static_cast<size_t>(x)` of a real number: truncation, which for
the non-negative arguments the source passes is the floor.  (The source's
conversion is undefined for arguments outside the range of `size_t`.) -/
def to_size_t {α : Type} [LinearOrderedField α] [FloorRing α] (x : α) : Nat := ⌊x⌋₊

/-- Conversion `static_cast<size_t>(x)` of a non-negative real number that was
not clamped first: the floor when `x` is below `2 ^ 64`.  From `2 ^ 64` on the
source's conversion is undefined, which is `none`. -/
def to_size_t_checked {α : Type} [LinearOrderedField α] [FloorRing α] (x : α) : Option Nat :=
  if x < (SIZE_T_MOD : α) then some ⌊x⌋₊ else none

/-! ## `clamp.h` -/

/-- The function `_clamp(value, lower, upper)` of clamp.h:
`std::max(lower, std::min(value, upper))`. -/
def _clamp {T : Type} [LinearOrder T] (value lower upper : T) : T :=
  max lower (min value upper)

/-! ## Vectors -/

/-- Unchecked element read `data[pos]`. -/
def vec_at {β : Type} [Zero β] (data : List β) (pos : Nat) : β := data.getD pos 0

/-- The result of `std::lower_bound(begin, end, x)` as a distance from `begin`:
the position of the first element that is not less than `x`, the length when
there is none. -/
def lower_bound {α : Type} [LinearOrder α] : List α → α → Nat
  | [], _ => 0
  | a :: rest, x => if a < x then lower_bound rest x + 1 else 0

/-! ## Axes -/

/-- The members of an axis class that the table classes use. -/
structure axis_ops (A α : Type) where
  /-- Member `size()`. -/
  size : A → Nat
  /-- Member `operator[]`. -/
  index : A → Nat → α
  /-- Member `find`. -/
  find : A → α → α

/-- Class `ax_list` of ax_list.h: a vector of consecutive axis values. -/
structure ax_list (α : Type) where
  /-- The base class `std::vector<datatype>`. -/
  base : List α

namespace ax_list
variable {α : Type} [LinearOrderedField α]

/-- Member `size()`, inherited from the vector. -/
def size (ax : ax_list α) : Nat := ax.base.length

/-- Member `operator[]`, inherited from the vector. -/
def index (ax : ax_list α) (pos : Nat) : α := vec_at ax.base pos

/-- The local `high_index` of `ax_list::find`: the lower bound of `x`, clamped
into `[1, size() - 1]`. -/
def high_index (ax : ax_list α) (x : α) : Nat :=
  _clamp (lower_bound ax.base x) 1 (size_sub ax.size 1)

/-- Member `ax_list::find`: the true index of `x`, found by linear inversion
between the two values that bracket it. -/
def find (ax : ax_list α) (x : α) : α :=
  let high_index := ax.high_index x
  let high_value := ax.index high_index
  let low_value := ax.index (size_sub high_index 1)
  (high_index : α) + (x - high_value) / (high_value - low_value)

/-- The list axis as a template argument. -/
def ops : axis_ops (ax_list α) α := ⟨size, index, find⟩

end ax_list

/-- Class `ax_linspace` of ax_linspace.h. -/
structure ax_linspace (α : Type) where
  /-- Field `_low`. -/
  _low : α
  /-- Field `_step`. -/
  _step : α
  /-- Field `_N`. -/
  _N : Nat

namespace ax_linspace
variable {α : Type} [LinearOrderedField α]

/-- Constructor `ax_linspace(low, high, N)`. -/
def ctor (low high : α) (N : Nat) : ax_linspace α :=
  ⟨low, (high - low) / ((size_sub N 1 : Nat) : α), N⟩

/-- Member `operator[]`. -/
def index (ax : ax_linspace α) (pos : Nat) : α := ax._low + ax._step * (pos : α)

/-- Member `size()`. -/
def size (ax : ax_linspace α) : Nat := ax._N

/-- Member `find`. -/
def find (ax : ax_linspace α) (x : α) : α := (x - ax._low) / ax._step

/-- The linear axis as a template argument. -/
def ops : axis_ops (ax_linspace α) α := ⟨size, index, find⟩

end ax_linspace

/-- Class `ax_logspace` of ax_logspace.h. -/
structure ax_logspace (α : Type) where
  /-- Field `_llow`. -/
  _llow : α
  /-- Field `_lstep`. -/
  _lstep : α
  /-- Field `_N`. -/
  _N : Nat

namespace ax_logspace
variable {α : Type} [LinearOrderedField α]

/-- Constructor `ax_logspace(low, high, N)`. -/
def ctor (log : α → α) (low high : α) (N : Nat) : ax_logspace α :=
  ⟨log low, log (high / low) / ((size_sub N 1 : Nat) : α), N⟩

/-- Member `operator[]`. -/
def index (exp : α → α) (ax : ax_logspace α) (pos : Nat) : α :=
  exp (ax._llow + ax._lstep * (pos : α))

/-- Member `size()`. -/
def size (ax : ax_logspace α) : Nat := ax._N

/-- Member `find`. -/
def find (log : α → α) (ax : ax_logspace α) (x : α) : α := (log x - ax._llow) / ax._lstep

/-- The logarithmic axis as a template argument. -/
def ops (exp log : α → α) : axis_ops (ax_logspace α) α := ⟨size, index exp, find log⟩

end ax_logspace

/-! ## `array1D_ax` -/

/-- Class `array1D_ax<datatype, ax>`: a buffer and its axis. -/
structure array1D_ax (β A : Type) where
  /-- Field `_data`. -/
  _data : List β
  /-- Field `_x_axis`. -/
  _x_axis : A

namespace array1D_ax
variable {α β A : Type} [LinearOrderedField α] [FloorRing α] [Zero β]

/-- Constructor `array1D_ax(x_axis, values)`. -/
def ctor (ax : axis_ops A α) (x_axis : A) (values : List β) :
    Except String (array1D_ax β A) :=
  if ax.size x_axis ≠ values.length then
    Except.error "Unmatched dimensions between axis and values."
  else
    Except.ok ⟨values, x_axis⟩

/-- Member `size()`. -/
def size (ax : axis_ops A α) (t : array1D_ax β A) : Nat := ax.size t._x_axis

/-- Member `operator()(pos)`: direct access, unchecked. -/
def call (t : array1D_ax β A) (pos : Nat) : β := vec_at t._data pos

/-- Member `get_x`. -/
def get_x (ax : axis_ops A α) (t : array1D_ax β A) (pos : Nat) : α := ax.index t._x_axis pos

/-- Member `find_index`. -/
def find_index (ax : axis_ops A α) (t : array1D_ax β A) (x : α) : α := ax.find t._x_axis x

/-- The local `low_index` of `at_linear` and `at_loglog`. -/
def low_index (ax : axis_ops A α) (t : array1D_ax β A) (x : α) : Nat :=
  to_size_t (_clamp (ax.find t._x_axis x) 0 ((size_sub (ax.size t._x_axis) 2 : Nat) : α))

/-- Member `at_linear`. -/
def at_linear (ax : axis_ops A α) (t : array1D_ax α A) (x : α) : α :=
  let true_index := ax.find t._x_axis x
  let low_index := low_index ax t x
  let frac_index := true_index - (low_index : α)
  let low_value := vec_at t._data low_index
  let high_value := vec_at t._data (size_add low_index 1)
  (1 - frac_index) * low_value + frac_index * high_value

/-- Member `at_loglog`. -/
def at_loglog (ax : axis_ops A α) (exp log : α → α) (t : array1D_ax α A) (x : α) : α :=
  let low_index := low_index ax t x
  let frac_index := log (x / ax.index t._x_axis low_index) /
    log (ax.index t._x_axis (size_add low_index 1) / ax.index t._x_axis low_index)
  let low_value := log (vec_at t._data low_index)
  let high_value := log (vec_at t._data (size_add low_index 1))
  exp ((1 - frac_index) * low_value + frac_index * high_value)

/-- The local `rounded_index` of `at_rounddown`. -/
def rounded_index (ax : axis_ops A α) (t : array1D_ax β A) (x : α) : Nat :=
  to_size_t (_clamp (ax.find t._x_axis x) 0 ((size_sub (ax.size t._x_axis) 1 : Nat) : α))

/-- Member `at_rounddown`. -/
def at_rounddown (ax : axis_ops A α) (t : array1D_ax β A) (x : α) : β :=
  vec_at t._data (rounded_index ax t x)

end array1D_ax

/-! ## `array2D_ax` -/

/-- Class `array2D_ax<datatype, ax_x, ax_y>`: a buffer and its two axes. -/
structure array2D_ax (β Ax Ay : Type) where
  /-- Field `_x_axis`. -/
  _x_axis : Ax
  /-- Field `_y_axis`. -/
  _y_axis : Ay
  /-- Field `_data`. -/
  _data : List β

namespace array2D_ax
variable {α β Ax Ay : Type} [LinearOrderedField α] [FloorRing α] [Zero β]

/-- Constructor `array2D_ax(x_axis, y_axis, values)`. -/
def ctor (ax : axis_ops Ax α) (ay : axis_ops Ay α) (x_axis : Ax) (y_axis : Ay)
    (values : List β) : Except String (array2D_ax β Ax Ay) :=
  if size_mul (ax.size x_axis) (ay.size y_axis) ≠ values.length then
    Except.error "Unmatched dimensions between axes and values."
  else
    Except.ok ⟨x_axis, y_axis, values⟩

/-- Member `width()`. -/
def width (ax : axis_ops Ax α) (t : array2D_ax β Ax Ay) : Nat := ax.size t._x_axis

/-- Member `height()`. -/
def height (ay : axis_ops Ay α) (t : array2D_ax β Ax Ay) : Nat := ay.size t._y_axis

/-- Member `size()`. -/
def size (ax : axis_ops Ax α) (ay : axis_ops Ay α) (t : array2D_ax β Ax Ay) : Nat :=
  size_mul (width ax t) (height ay t)

/-- The buffer position `pos_x*height() + pos_y` that `operator()` reads. -/
def position (ay : axis_ops Ay α) (t : array2D_ax β Ax Ay) (pos_x pos_y : Nat) : Nat :=
  size_add (size_mul pos_x (height ay t)) pos_y

/-- Member `operator()(pos_x, pos_y)`: direct access, unchecked. -/
def call (ay : axis_ops Ay α) (t : array2D_ax β Ax Ay) (pos_x pos_y : Nat) : β :=
  vec_at t._data (position ay t pos_x pos_y)

/-- Member `get_x`. -/
def get_x (ax : axis_ops Ax α) (t : array2D_ax β Ax Ay) (pos_x : Nat) : α :=
  ax.index t._x_axis pos_x

/-- Member `get_y`. -/
def get_y (ay : axis_ops Ay α) (t : array2D_ax β Ax Ay) (pos_y : Nat) : α :=
  ay.index t._y_axis pos_y

/-- The local `low_x` of `at_linear`. -/
def low_x (ax : axis_ops Ax α) (t : array2D_ax β Ax Ay) (x : α) : Nat :=
  to_size_t (_clamp (ax.find t._x_axis x) 0 ((size_sub (ax.size t._x_axis) 2 : Nat) : α))

/-- The local `low_y` of `at_linear`. -/
def low_y (ay : axis_ops Ay α) (t : array2D_ax β Ax Ay) (y : α) : Nat :=
  to_size_t (_clamp (ay.find t._y_axis y) 0 ((size_sub (ay.size t._y_axis) 2 : Nat) : α))

/-- Member `at_linear`. -/
def at_linear (ax : axis_ops Ax α) (ay : axis_ops Ay α) (t : array2D_ax α Ax Ay) (x y : α) : α :=
  let true_x := ax.find t._x_axis x
  let true_y := ay.find t._y_axis y
  let low_x := low_x ax t x
  let frac_x := true_x - (low_x : α)
  let low_y := low_y ay t y
  let frac_y := true_y - (low_y : α)
  let v00 := call ay t low_x low_y
  let v10 := call ay t (size_add low_x 1) low_y
  let v01 := call ay t low_x (size_add low_y 1)
  let v11 := call ay t (size_add low_x 1) (size_add low_y 1)
  (1 - frac_x) * (1 - frac_y) * v00
    + frac_x * (1 - frac_y) * v10
    + (1 - frac_x) * frac_y * v01
    + frac_x * frac_y * v11

/-- The local `rounded_x` of `at_rounddown`. -/
def rounded_x (ax : axis_ops Ax α) (t : array2D_ax β Ax Ay) (x : α) : Nat :=
  to_size_t (_clamp (ax.find t._x_axis x) 0 ((size_sub (ax.size t._x_axis) 1 : Nat) : α))

/-- The local `rounded_y` of `at_rounddown`. -/
def rounded_y (ay : axis_ops Ay α) (t : array2D_ax β Ax Ay) (y : α) : Nat :=
  to_size_t (_clamp (ay.find t._y_axis y) 0 ((size_sub (ay.size t._y_axis) 1 : Nat) : α))

/-- Member `at_rounddown`. -/
def at_rounddown (ax : axis_ops Ax α) (ay : axis_ops Ay α) (t : array2D_ax β Ax Ay)
    (x y : α) : β :=
  call ay t (rounded_x ax t x) (rounded_y ay t y)

end array2D_ax

/-! ## Stored values that need not be finite -/

/-- A stored floating-point value: a number, an infinity (with its sign), or
not-a-number. -/
inductive fp (α : Type) where
  /-- A finite value. -/
  | finite (a : α)
  /-- Plus or minus infinity. -/
  | inf (negative : Bool)
  /-- Not a number. -/
  | nan
  deriving DecidableEq

instance {α : Type} [Zero α] : Zero (fp α) := ⟨fp.finite 0⟩

instance {α : Type} [One α] : One (fp α) := ⟨fp.finite 1⟩

instance {α : Type} [Neg α] : Neg (fp α) :=
  ⟨fun v => match v with
    | fp.finite a => fp.finite (-a)
    | fp.inf negative => fp.inf (!negative)
    | fp.nan => fp.nan⟩

/-- Value types on which `std::isfinite` is available. -/
class has_isfinite (β : Type) where
  /-- The test `std::isfinite`. -/
  isfinite : β → Bool

instance {α : Type} : has_isfinite (fp α) :=
  ⟨fun v => match v with
    | fp.finite _ => true
    | _ => false⟩

/-! ## The specialised tables -/

/-- Class `imfp_table` of imfp_table.h, derived from
`array1D_ax<real_type, ax_logspace<real_type>>`. -/
structure imfp_table (α : Type) where
  /-- The base class object. -/
  base : array1D_ax α (ax_logspace α)

/-- Member `imfp_table::get`. -/
def imfp_table.get {α : Type} [LinearOrderedField α] [FloorRing α] (exp log : α → α)
    (t : imfp_table α) (K : α) : α :=
  exp (array1D_ax.at_linear (ax_logspace.ops exp log) t.base K)

/-- Class `ionization_table` of ionization_table.h, derived from
`array2D_ax<real_type, ax_logspace<real_type>, ax_linspace<real_type>>`.  The
type `β` of the stored values is kept apart from the type `α` of the axis
values, so that a table can hold values that are not finite. -/
structure ionization_table (α β : Type) where
  /-- The base class object. -/
  base : array2D_ax β (ax_logspace α) (ax_linspace α)

namespace ionization_table
variable {α β : Type} [LinearOrderedField α] [FloorRing α] [Zero β] [One β] [Neg β]

/-- The local `K_index` of `get`:
`std::min(static_cast<size_t>(true_x), width() - 1)`, the conversion first. -/
def K_index (exp log : α → α) (t : ionization_table α β) (K : α) : Option Nat :=
  (to_size_t_checked (ax_logspace.find log t.base._x_axis K)).map
    (fun i => min i (size_sub (array2D_ax.width (ax_logspace.ops exp log) t.base) 1))

/-- The local `P_index` of `get`:
`std::min(static_cast<size_t>(true_y), height() - 1)`, the conversion first. -/
def P_index (t : ionization_table α β) (P : α) : Option Nat :=
  (to_size_t_checked (ax_linspace.find t.base._y_axis P)).map
    (fun i => min i (size_sub (array2D_ax.height ax_linspace.ops t.base) 1))

/-- Member `ionization_table::get`.  The result is `none` when one of the two
conversions to `size_t` is undefined. -/
def get (exp log : α → α) (t : ionization_table α β) (K P : α) : Option β :=
  let true_x := ax_logspace.find log t.base._x_axis K
  let true_y := ax_linspace.find t.base._y_axis P
  if true_x < 0 ∨ true_y < 0 then
    some (-1)
  else
    (K_index exp log t K).bind (fun k =>
      (P_index t P).map (fun p => array2D_ax.call ax_linspace.ops t.base k p))

end ionization_table

/-! ## Resampling (`material.cpp`) -/

namespace material
variable {α β γ : Type} [LinearOrderedField α] [FloorRing α] [Zero β] [Zero γ]

/-- The loop `for (i = 0; i < N; ++i) values[i] = g(i)` over a vector. -/
def fill_loop (N : Nat) (g : Nat → β) (values : List β) : List β :=
  (List.range N).foldl (fun vals i => vals.set i (g i)) values

/-- The 1-D overload of `material::to_fast_table`. -/
def to_fast_table_1D (exp log : α → α) (intern : array1D_ax γ (ax_list α))
    (K_min K_max : α) (N : Nat) (f : array1D_ax γ (ax_list α) → α → β) :
    Except String (array1D_ax β (ax_logspace α)) :=
  let K_axis := ax_logspace.ctor log K_min K_max N
  let values := fill_loop N (fun i => f intern (ax_logspace.index exp K_axis i))
    (List.replicate N 0)
  array1D_ax.ctor (ax_logspace.ops exp log) K_axis values

/-- Unchecked element write `values[pos] = v`: inside the vector the element is
replaced; outside it the source writes past the end of the buffer, which is
undefined and is `none`. -/
def vec_write (values : List β) (pos : Nat) (v : β) : Option (List β) :=
  if pos < values.length then some (values.set pos v) else none

/-- The nested loop of the 2-D overload: for every `ik < N_K` and `ip < N_P`,
`values[ik*N_P + ip] = g(ik, ip)`, each write unchecked. -/
def fill_loop_2D (N_K N_P : Nat) (g : Nat → Nat → β) (values : List β) : Option (List β) :=
  (List.range N_K).foldlM
    (fun vals ik =>
      (List.range N_P).foldlM
        (fun vals ip => vec_write vals (size_add (size_mul ik N_P) ip) (g ik ip)) vals)
    values

/-- The 2-D overload of `material::to_fast_table`.  The result is `none` when
the loop writes outside the buffer of `N_K*N_P` values, `some` of what the
constructor of the table returns otherwise. -/
def to_fast_table_2D (exp log : α → α) (intern : array2D_ax γ (ax_list α) (ax_linspace α))
    (K_min K_max : α) (N_K N_P : Nat)
    (f : array2D_ax γ (ax_list α) (ax_linspace α) → α → α → β) :
    Option (Except String (array2D_ax β (ax_logspace α) (ax_linspace α))) :=
  let K_axis := ax_logspace.ctor log K_min K_max N_K
  let P_axis : ax_linspace α := ax_linspace.ctor 0 1 N_P
  (fill_loop_2D N_K N_P
    (fun ik ip => f intern (ax_logspace.index exp K_axis ik) (ax_linspace.index P_axis ip))
    (List.replicate (size_mul N_K N_P) 0)).map
    (fun values =>
      array2D_ax.ctor (ax_logspace.ops exp log) ax_linspace.ops K_axis P_axis values)

/-- The conversion function of `material::get_ionization_icdf`: the binding
energy found by rounding down, replaced by `-1` when it is not finite. -/
def ionization_conversion [One β] [Neg β] [has_isfinite β]
    (table : array2D_ax β (ax_list α) (ax_linspace α)) (K P : α) : β :=
  let binding := array2D_ax.at_rounddown ax_list.ops ax_linspace.ops table K P
  if !has_isfinite.isfinite binding then -1 else binding

/-- Member `material::get_ionization_icdf`; the field `ionization_dE_icdf` of the
material, the only one it reads, is its first argument. -/
def get_ionization_icdf [One β] [Neg β] [has_isfinite β] (exp log : α → α)
    (ionization_dE_icdf : array2D_ax β (ax_list α) (ax_linspace α))
    (K_min K_max : α) (N_K N_P : Nat) : Option (Except String (ionization_table α β)) :=
  (to_fast_table_2D exp log ionization_dE_icdf K_min K_max N_K N_P ionization_conversion).map
    (fun r => r.map ionization_table.mk)

end material

/-! ## Concrete tables -/

/-- The list axis with the values `1, 2, 4`. -/
def example_axis : ax_list ℚ := ⟨[1, 2, 4]⟩

/-- The 1-D table with axis values `1, 2, 4` and data `10, 20, 40`. -/
def example_table : array1D_ax ℚ (ax_list ℚ) := ⟨[10, 20, 40], example_axis⟩

/-- An ionization table over the logarithmic energy axis `(1, 2, 2)` and the
probability axis `(0, 1, 2)` whose stored value at the first node is `+∞`. -/
def example_ionization {α : Type} [LinearOrderedField α] (log : α → α) :
    ionization_table α (fp ℚ) :=
  ⟨⟨ax_logspace.ctor log 1 2 2, ax_linspace.ctor 0 1 2,
    [fp.inf false, fp.finite 3, fp.finite 4, fp.finite 5]⟩⟩

/-- An inverse-mean-free-path table over the logarithmic axis `(1, exp 2, 2)`
storing the values `1` and `3`. -/
def example_imfp {α : Type} [LinearOrderedField α] (exp log : α → α) : imfp_table α :=
  ⟨⟨[1, 3], ax_logspace.ctor log 1 (exp 2) 2⟩⟩

/-- A source table of ionization energies over the energy list axis `1, 2` and
the probability axis `(0, 1, 2)` whose stored value at the first node is `+∞`. -/
def example_ionization_source {α : Type} [LinearOrderedField α] :
    array2D_ax (fp ℚ) (ax_list α) (ax_linspace α) :=
  ⟨⟨[1, 2]⟩, ax_linspace.ctor 0 1 2, [fp.inf false, fp.finite 3, fp.finite 4, fp.finite 5]⟩

/-! ## Physical quantities (`units/quantity.h`, `units/unit_system.h`) -/

/-- Modelled from the spec: the dimension vector of `units/quantity.h`, which is
not among the sources: one integer exponent for each of the base dimensions
energy, length, time, mass, charge and temperature. -/
structure dimension where
  /-- Exponent of energy. -/
  energy : Int
  /-- Exponent of length. -/
  length : Int
  /-- Exponent of time. -/
  time : Int
  /-- Exponent of mass. -/
  mass : Int
  /-- Exponent of charge. -/
  charge : Int
  /-- Exponent of temperature. -/
  temperature : Int
  deriving DecidableEq

/-- Modelled from the spec: the product of two dimensions adds their exponent
vectors. -/
instance : Mul dimension :=
  ⟨fun a b => ⟨a.energy + b.energy, a.length + b.length, a.time + b.time, a.mass + b.mass,
    a.charge + b.charge, a.temperature + b.temperature⟩⟩

/-- Modelled from the spec: a dimension raised to an integer power multiplies
its exponent vector by the power. -/
def dimension.pow (d : dimension) (power : Int) : dimension :=
  ⟨d.energy * power, d.length * power, d.time * power, d.mass * power, d.charge * power,
    d.temperature * power⟩

namespace dimensions

/-- Modelled from the spec: the constant `dimensions::dimensionless`. -/
def dimensionless : dimension := ⟨0, 0, 0, 0, 0, 0⟩

/-- Modelled from the spec: the constant `dimensions::energy`. -/
def energy : dimension := ⟨1, 0, 0, 0, 0, 0⟩

/-- Modelled from the spec: the constant `dimensions::length`. -/
def length : dimension := ⟨0, 1, 0, 0, 0, 0⟩

/-- Modelled from the spec: the constant `dimensions::time`. -/
def time : dimension := ⟨0, 0, 1, 0, 0, 0⟩

/-- Modelled from the spec: the constant `dimensions::mass`. -/
def mass : dimension := ⟨0, 0, 0, 1, 0, 0⟩

/-- Modelled from the spec: the constant `dimensions::charge`. -/
def charge : dimension := ⟨0, 0, 0, 0, 1, 0⟩

/-- Modelled from the spec: the constant `dimensions::temperature`. -/
def temperature : dimension := ⟨0, 0, 0, 0, 0, 1⟩

end dimensions

/-- Modelled from the spec: the class `quantity<T>` of `units/quantity.h`, which
is not among the sources: a value tagged with its dimension. -/
structure quantity (α : Type) where
  /-- Field `value`. -/
  value : α
  /-- Field `units`. -/
  units : dimension

/-- Modelled from the spec: the product of two quantities multiplies the values
and combines the dimensions. -/
instance {α : Type} [Mul α] : Mul (quantity α) :=
  ⟨fun a b => ⟨a.value * b.value, a.units * b.units⟩⟩

/-- Modelled from the spec: the function `pow(quantity, int)` of
`units/quantity.h`: the value and the dimension raised to an integer power. -/
def quantity.pow {α : Type} [DivisionRing α] (q : quantity α) (power : Int) : quantity α :=
  ⟨q.value ^ power, q.units.pow power⟩

namespace units
variable {α : Type} [DivisionRing α]

/-- The constant `units::dimensionless`. -/
def dimensionless : quantity α := ⟨1, dimensions.dimensionless⟩

/-- The constant `units::eV`, electronvolts. -/
def eV : quantity α := ⟨1, dimensions.energy⟩

/-- The constant `units::nm`, nanometers. -/
def nm : quantity α := ⟨1, dimensions.length⟩

/-- The constant `units::ns`, nanoseconds. -/
def ns : quantity α := ⟨1, dimensions.time⟩

/-- The constant `units::K`, Kelvin. -/
def K : quantity α := ⟨1, dimensions.temperature⟩

/-- The constant `units::e`, electron charge. -/
def e : quantity α := ⟨1, dimensions.charge⟩

/-- The constant `units::s`, second (`1e9`). -/
def s : quantity α := ⟨10 ^ 9, dimensions.time⟩

/-- The constant `units::m`, meter (`1e9`). -/
def m : quantity α := ⟨10 ^ 9, dimensions.length⟩

/-- The constant `units::cm`, centimeter (`1e7`). -/
def cm : quantity α := ⟨10 ^ 7, dimensions.length⟩

/-- The constant `units::Clb`, Coulomb (`6.2415e18`). -/
def Clb : quantity α := ⟨62415 * 10 ^ 14, dimensions.charge⟩

/-- The constant `units::g`, gram (`6.2415e15`). -/
def g : quantity α := ⟨62415 * 10 ^ 11, dimensions.mass⟩

end units

/-! ## `units/unit_parser.h` -/

/-- The exceptions that parsing a unit string can throw. -/
inductive exception where
  /-- The class `std::runtime_error` with its message. -/
  | runtime_error (what : String)
  /-- The class `std::invalid_argument` with its message. -/
  | invalid_argument (what : String)
  /-- The class `std::out_of_range` with its message. -/
  | out_of_range (what : String)
  deriving DecidableEq

/-- The test `std::isspace` in the default locale. -/
def isspace (c : Char) : Bool :=
  c == ' ' || c == '\t' || c == '\n' || c == '\x0b' || c == '\x0c' || c == '\r'

/-- The value of a run of decimal digits. -/
def digits_value (digits : List Char) : Nat :=
  digits.foldl (fun acc c => 10 * acc + (c.toNat - '0'.toNat)) 0

/-- The result of `std::stoi(str)`: leading white space is skipped, an optional
sign and the decimal digits that follow are read and whatever comes after them
is ignored; `std::invalid_argument` when there is no digit, `std::out_of_range`
when the value is not an `int`. -/
def stoi (str : List Char) : Except exception Int :=
  let after_space := str.dropWhile isspace
  let negative := after_space.head? == some '-'
  let after_sign :=
    if after_space.head? == some '-' || after_space.head? == some '+' then after_space.tail
    else after_space
  let digits := after_sign.takeWhile Char.isDigit
  if digits.isEmpty then
    Except.error (exception.invalid_argument "stoi")
  else
    let value : Int := if negative then -(digits_value digits : Int) else digits_value digits
    if value < -(2 ^ 31) ∨ 2 ^ 31 - 1 < value then
      Except.error (exception.out_of_range "stoi")
    else
      Except.ok value

/-- Class `unit_parser` of `units/unit_parser.h`, here `unit_parser_t`. -/
structure unit_parser_t (α : Type) where
  /-- Field `unit_map`: the registered units; for a name that occurs twice the
  first entry is the one of the map. -/
  unit_map : List (String × quantity α)

namespace unit_parser_t
variable {α : Type} [DivisionRing α]

/-- Member `unit_map.find(name)`. -/
def find (p : unit_parser_t α) (name : String) : Option (quantity α) := p.unit_map.lookup name

/-- Member `add_unit`: `std::map::insert`, which keeps an entry that is already
there. -/
def add_unit (p : unit_parser_t α) (unit_name : String) (unit_value : quantity α) :
    unit_parser_t α :=
  match p.find unit_name with
  | some _ => p
  | none => ⟨p.unit_map ++ [(unit_name, unit_value)]⟩

/-- Member `add_default_units`. -/
def add_default_units (p : unit_parser_t α) : unit_parser_t α :=
  ((((((((p.add_unit "eV" units.eV).add_unit "nm" units.nm).add_unit "K" units.K).add_unit
    "s" units.s).add_unit "m" units.m).add_unit "cm" units.cm).add_unit "g" units.g).add_unit
    "C" units.Clb).add_unit "radian" units.dimensionless

/-- Static member `is_new_unit`. -/
def is_new_unit (c : Char) : Bool := c == '*' || c == '/'

/-- Static member `is_power`. -/
def is_power (c : Char) : Bool := c == '^'

/-- The inner loops of `parse_unit`: the characters from the current position up
to the first one at which `stop` holds, and the position of that character. -/
def read_until (stop : Char → Bool) : List Char → List Char × List Char
  | [] => ([], [])
  | c :: rest =>
    if stop c then ([], c :: rest)
    else ((read_until stop rest).1.cons c, (read_until stop rest).2)

/-- The product `a * b` of two `int` values, as `power *= std::stoi(buffer)`
computes it: the product of the integers reduced to the range of `int` (two's
complement), which is the product itself unless it overflows. -/
def int_mul (a b : Int) : Int := (a * b + 2 ^ 31) % 2 ^ 32 - 2 ^ 31

/-- Whether the position is not the end and holds the power sign. -/
def at_power (position : List Char) : Bool :=
  match position with
  | [] => false
  | c :: _ => is_power c

end unit_parser_t

namespace unit_parser_t
variable {α : Type} [DivisionRing α]

/-- The loop of the private member `parse_unit(current_position, end)`, from the
position `current` with the product `final_unit` of the units read so far. -/
def parse_unit_loop (p : unit_parser_t α) (final_unit : quantity α) (current : List Char) :
    Except exception (quantity α) :=
  match current with
  | [] => Except.ok final_unit
  | c :: rest =>
    let power : Int := if c == '/' then -1 else 1
    let after_operator := if is_new_unit c then rest else c :: rest
    let name := read_until (fun c => is_power c || is_new_unit c) after_operator
    match p.find (String.mk name.1) with
    | none => Except.error (exception.runtime_error ("Unknown unit '" ++ String.mk name.1 ++ "'."))
    | some this_unit =>
      if _h : at_power name.2 then
        let exponent := read_until is_new_unit name.2.tail
        match stoi exponent.1 with
        | Except.error e => Except.error e
        | Except.ok n =>
          parse_unit_loop p (final_unit * quantity.pow this_unit (int_mul power n)) exponent.2
      else
        parse_unit_loop p (final_unit * quantity.pow this_unit power) name.2
termination_by current.length
decreasing_by
  all_goals simp_wf
  all_goals
    have key : ∀ (stop : Char → Bool) (l : List Char),
        (read_until stop l).2.length ≤ l.length := by
      intro stop l
      induction l with
      | nil => simp [read_until]
      | cons a l ih =>
        unfold read_until
        split
        · simp
        · simp only [List.length_cons]
          omega
    have hafter : (if is_new_unit c then rest else c :: rest).length ≤ rest.length + 1 := by
      split <;> simp
    have hname := key (fun c => is_power c || is_new_unit c)
      (if is_new_unit c then rest else c :: rest)
  · have h' : at_power (read_until (fun c => is_power c || is_new_unit c)
        (if is_new_unit c then rest else c :: rest)).2 = true := _h
    have h2 := key is_new_unit
      (read_until (fun c => is_power c || is_new_unit c)
        (if is_new_unit c then rest else c :: rest)).2.tail
    have h3 : (read_until (fun c => is_power c || is_new_unit c)
        (if is_new_unit c then rest else c :: rest)).2.tail.length
        < (read_until (fun c => is_power c || is_new_unit c)
        (if is_new_unit c then rest else c :: rest)).2.length := by
      generalize (read_until (fun c => is_power c || is_new_unit c)
        (if is_new_unit c then rest else c :: rest)).2 = q at h'
      cases q with
      | nil => simp [at_power] at h'
      | cons a q => simp
    omega
  · have h' : ¬ at_power (read_until (fun c => is_power c || is_new_unit c)
        (if is_new_unit c then rest else c :: rest)).2 = true := _h
    by_cases hc : is_new_unit c = true
    · simp only [hc, if_true] at hname ⊢
      omega
    · simp only [hc, Bool.false_eq_true, if_false] at hname h' ⊢
      by_cases hp : is_power c = true
      · exfalso
        apply h'
        simp [read_until, hp, at_power]
      · have hstep : read_until (fun c => is_power c || is_new_unit c) (c :: rest)
            = ((read_until (fun c => is_power c || is_new_unit c) rest).1.cons c,
                (read_until (fun c => is_power c || is_new_unit c) rest).2) := by
          rw [read_until]
          simp [hc, hp]
        rw [hstep]
        have := key (fun c => is_power c || is_new_unit c) rest
        simp only
        omega

/-- One unit of a unit string as `parse_unit` reads it: the sign of its operator
(`-1` after `/`, else `1`), its name, and the text of its power if it has one. -/
structure unit_item where
  /-- The local `power` before the trailing power is read. -/
  power : Int
  /-- The unit string. -/
  name : List Char
  /-- The text after `^`. -/
  exponent : Option (List Char)
  deriving DecidableEq

/-- The units that the loop of `parse_unit` reads from the position `current`
when no exception stops it: the loop without its look-ups and conversions. -/
def unit_items (current : List Char) : List unit_item :=
  match current with
  | [] => []
  | c :: rest =>
    let power : Int := if c == '/' then -1 else 1
    let after_operator := if is_new_unit c then rest else c :: rest
    let name := read_until (fun c => is_power c || is_new_unit c) after_operator
    if _h : at_power name.2 then
      let exponent := read_until is_new_unit name.2.tail
      ⟨power, name.1, some exponent.1⟩ :: unit_items exponent.2
    else
      ⟨power, name.1, none⟩ :: unit_items name.2
termination_by current.length
decreasing_by
  all_goals simp_wf
  all_goals
    have key : ∀ (stop : Char → Bool) (l : List Char),
        (read_until stop l).2.length ≤ l.length := by
      intro stop l
      induction l with
      | nil => simp [read_until]
      | cons a l ih =>
        unfold read_until
        split
        · simp
        · simp only [List.length_cons]
          omega
    have hafter : (if is_new_unit c then rest else c :: rest).length ≤ rest.length + 1 := by
      split <;> simp
    have hname := key (fun c => is_power c || is_new_unit c)
      (if is_new_unit c then rest else c :: rest)
  · have h' : at_power (read_until (fun c => is_power c || is_new_unit c)
        (if is_new_unit c then rest else c :: rest)).2 = true := _h
    have h2 := key is_new_unit
      (read_until (fun c => is_power c || is_new_unit c)
        (if is_new_unit c then rest else c :: rest)).2.tail
    have h3 : (read_until (fun c => is_power c || is_new_unit c)
        (if is_new_unit c then rest else c :: rest)).2.tail.length
        < (read_until (fun c => is_power c || is_new_unit c)
        (if is_new_unit c then rest else c :: rest)).2.length := by
      generalize (read_until (fun c => is_power c || is_new_unit c)
        (if is_new_unit c then rest else c :: rest)).2 = q at h'
      cases q with
      | nil => simp [at_power] at h'
      | cons a q => simp
    omega
  · have h' : ¬ at_power (read_until (fun c => is_power c || is_new_unit c)
        (if is_new_unit c then rest else c :: rest)).2 = true := _h
    by_cases hc : is_new_unit c = true
    · simp only [hc, if_true] at hname ⊢
      omega
    · simp only [hc, Bool.false_eq_true, if_false] at hname h' ⊢
      by_cases hp : is_power c = true
      · exfalso
        apply h'
        simp [read_until, hp, at_power]
      · have hstep : read_until (fun c => is_power c || is_new_unit c) (c :: rest)
            = ((read_until (fun c => is_power c || is_new_unit c) rest).1.cons c,
                (read_until (fun c => is_power c || is_new_unit c) rest).2) := by
          rw [read_until]
          simp [hc, hp]
        rw [hstep]
        have := key (fun c => is_power c || is_new_unit c) rest
        simp only
        omega


/-- What one turn of the loop of `parse_unit` does with the unit it has read:
the look-up of the name, the conversion of the power and the product. -/
def apply_item (p : unit_parser_t α) (final_unit : quantity α) (item : unit_item) :
    Except exception (quantity α) :=
  match p.find (String.mk item.name) with
  | none =>
    Except.error (exception.runtime_error ("Unknown unit '" ++ String.mk item.name ++ "'."))
  | some this_unit =>
    match item.exponent with
    | none => Except.ok (final_unit * quantity.pow this_unit item.power)
    | some text =>
      match stoi text with
      | Except.error e => Except.error e
      | Except.ok n => Except.ok (final_unit * quantity.pow this_unit (int_mul item.power n))

/-- Member `parse_unit(text)`. -/
def parse_unit (p : unit_parser_t α) (text : String) : Except exception (quantity α) :=
  parse_unit_loop p ⟨1, dimensions.dimensionless⟩ text.data

end unit_parser_t

/-- The parser that `material.cpp` builds before it parses a unit string: a new
`unit_parser` on which `add_default_units` was called. -/
def parser_with_default_units {α : Type} [DivisionRing α] : unit_parser_t α :=
  unit_parser_t.add_default_units ⟨[]⟩

/-! ## Unit strings of the form described for `parse_unit` -/

/-- One factor of a unit string of the form `g/cm^3`: an optional operator `*` or
`/`, a unit name with the unit it is registered for, and an optional power,
given by its text and the integer the text stands for. -/
structure unit_factor (α : Type) where
  /-- The operator before the name, if any. -/
  operator : Option Char
  /-- The unit name. -/
  name : List Char
  /-- The unit registered under the name. -/
  unit_value : quantity α
  /-- The text after `^` and its integer value, if any. -/
  exponent : Option (List Char × Int)

namespace unit_factor
variable {α : Type} [DivisionRing α]

/-- The characters of a factor. -/
def text (f : unit_factor α) : List Char :=
  (match f.operator with
    | none => []
    | some op => [op]) ++ f.name ++
  (match f.exponent with
    | none => []
    | some digits => '^' :: digits.1)

/-- The sign `s` of a factor: `-1` after `/`, else `1`. -/
def sign (f : unit_factor α) : Int := if f.operator = some '/' then -1 else 1

/-- The power `p` of a factor, `1` when none is written. -/
def power (f : unit_factor α) : Int :=
  match f.exponent with
  | none => 1
  | some digits => digits.2

/-- A factor is well formed for a parser: its operator is `*` or `/`, its name is
not empty, holds none of `*`, `/`, `^` and is registered for its unit, and the
text of its power holds no operator and converts to its integer. -/
def well_formed (p : unit_parser_t α) (f : unit_factor α) : Prop :=
  (f.operator = none ∨ f.operator = some '*' ∨ f.operator = some '/') ∧
  f.name ≠ [] ∧
  (∀ ch ∈ f.name, (unit_parser_t.is_power ch || unit_parser_t.is_new_unit ch) = false) ∧
  p.find (String.mk f.name) = some f.unit_value ∧
  ∀ digits, f.exponent = some digits →
    (∀ ch ∈ digits.1, unit_parser_t.is_new_unit ch = false) ∧ stoi digits.1 = Except.ok digits.2

/-- The unit that the loop of `parse_unit` reads for a factor. -/
def item (f : unit_factor α) : unit_parser_t.unit_item :=
  ⟨f.sign, f.name, f.exponent.map Prod.fst⟩

end unit_factor

/-- The unit string made of the factors, one after the other. -/
def unit_string {α : Type} [DivisionRing α] : List (unit_factor α) → List Char
  | [] => []
  | f :: fs => f.text ++ unit_string fs

/-- The product of the units of the factors, each raised to its sign times its
power. -/
def unit_product {α : Type} [DivisionRing α] (fs : List (unit_factor α)) : quantity α :=
  fs.foldl (fun product f => product * quantity.pow f.unit_value (f.sign * f.power))
    ⟨1, dimensions.dimensionless⟩

/-- The unit string `g/cm^3` as two factors. -/
def g_per_cm3 {α : Type} [DivisionRing α] : List (unit_factor α) :=
  [⟨none, ['g'], units.g, none⟩, ⟨some '/', ['c', 'm'], units.cm, some (['3'], 3)⟩]

/-- The unit string `/cm^-2147483648` as one factor, whose power is the least
`int`. -/
def per_cm_least_int {α : Type} [DivisionRing α] : List (unit_factor α) :=
  [⟨some '/', ['c', 'm'], units.cm,
    some (['-', '2', '1', '4', '7', '4', '8', '3', '6', '4', '8'], -2147483648)⟩]

/-- The two factors `eV` and `nm`, written one after the other with no operator
between them. -/
def eV_nm {α : Type} [DivisionRing α] : List (unit_factor α) :=
  [⟨none, ['e', 'V'], units.eV, none⟩, ⟨none, ['n', 'm'], units.nm, none⟩]

/-! ## `material.h`, `material.cpp`: the properties of a material -/

/-- The enumeration `material::conductor_type_t`. -/
inductive conductor_type_t where
  /-- Enumerator `CND_METAL`. -/
  | CND_METAL
  /-- Enumerator `CND_SEMICONDUCTOR`. -/
  | CND_SEMICONDUCTOR
  /-- Enumerator `CND_INSULATOR`. -/
  | CND_INSULATOR
  deriving DecidableEq

namespace material
variable {α : Type} [LinearOrderedField α] [FloorRing α]

/-- The statement of the constructor `material::material` that sets
`conductor_type` from the attribute `conductor_type` read from the file. -/
def ctor_conductor_type (cnd_type_str : String) : Except exception conductor_type_t :=
  if cnd_type_str == "metal" then
    Except.ok conductor_type_t.CND_METAL
  else if cnd_type_str == "insulator" then
    Except.ok conductor_type_t.CND_INSULATOR
  else if cnd_type_str == "semiconductor" then
    Except.ok conductor_type_t.CND_SEMICONDUCTOR
  else
    Except.error (exception.runtime_error ("Unknown conductor_type " ++ cnd_type_str))

/-- Member `material::get_elastic_imfp`, as a function of the fields `density`
and `elastic_cross_section` that it reads. -/
def get_elastic_imfp (exp log : α → α) (density : quantity α)
    (elastic_cross_section : array1D_ax α (ax_list α)) (K_min K_max : α) (N : Nat) :
    Except String (imfp_table α) :=
  let number_density := density.value
  (to_fast_table_1D exp log elastic_cross_section K_min K_max N
    (fun table K =>
      let cross_section := array1D_ax.at_loglog ax_list.ops exp log table K
      log (cross_section * number_density))).map imfp_table.mk

end material

/-- The elastic cross sections `1, 1, 1` at the energies `1, 10, 100`. -/
def example_cross_section {α : Type} [LinearOrderedField α] : array1D_ax α (ax_list α) :=
  ⟨[1, 1, 1], ⟨[1, 10, 100]⟩⟩

/-- The elastic cross sections `1, 100, 10000` at the energies `1, 10, 100`: the
cross section is the square of the energy at the three stored energies. -/
def example_cross_section_square {α : Type} [LinearOrderedField α] :
    array1D_ax α (ax_list α) :=
  ⟨[1, 100, 10000], ⟨[1, 10, 100]⟩⟩

/-! ## The bracket of a query on a list axis, as the specification words it -/

/-- The bracket index `l` of `x` on a list axis `v[0..N-1]` in the words of the
specification of `at_linear`: the `k` with `v[k] ≤ x < v[k+1]` when
`v[0] ≤ x < v[N-1]`, `0` when `x < v[0]`, and `N - 2` when `x ≥ v[N-1]`. -/
def ax_list.spec_bracket {α : Type} [LinearOrderedField α] (ax : ax_list α) (x : α)
    (l : Nat) : Prop :=
  l + 1 < ax.size ∧
  ((ax.index 0 ≤ x ∧ x < ax.index (ax.size - 1) ∧ ax.index l ≤ x ∧ x < ax.index (l + 1)) ∨
    (x < ax.index 0 ∧ l = 0) ∨
    (ax.index (ax.size - 1) ≤ x ∧ l = ax.size - 2))

/-- The table of the logarithms in the words of the specification of
`at_loglog`: the table with axis values `log v[i]` and data `log d[i]`. -/
def array1D_ax.spec_log_table {α : Type} (log : α → α) (t : array1D_ax α (ax_list α)) :
    array1D_ax α (ax_list α) :=
  ⟨t._data.map log, ⟨t._x_axis.base.map log⟩⟩

/-- The 1-D table with axis values `1, 2, 4` and data `10, 20, 40` over any
field. -/
def example_table_field {α : Type} [LinearOrderedField α] : array1D_ax α (ax_list α) :=
  ⟨[10, 20, 40], ⟨[1, 2, 4]⟩⟩

/-! ## Constructors from axes only -/

/-- Constructor `array1D_ax(x_axis)`: a new buffer of `size()` elements, each
value-initialised to zero. -/
def array1D_ax.ctor_axis {α β A : Type} [Zero β] (ax : axis_ops A α) (x_axis : A) :
    array1D_ax β A :=
  ⟨List.replicate (ax.size x_axis) 0, x_axis⟩

/-- Constructor `array2D_ax(x_axis, y_axis)`: a new buffer of
`x_axis.size()*y_axis.size()` elements, each value-initialised to zero. -/
def array2D_ax.ctor_axes {α β Ax Ay : Type} [Zero β] (ax : axis_ops Ax α) (ay : axis_ops Ay α)
    (x_axis : Ax) (y_axis : Ay) : array2D_ax β Ax Ay :=
  ⟨x_axis, y_axis, List.replicate (size_mul (ax.size x_axis) (ay.size y_axis)) 0⟩

/-! ## `icdf_table.h` -/

/-- Class `icdf_table` of icdf_table.h, derived from
`array2D_ax<real_type, ax_logspace<real_type>, ax_linspace<real_type>>`. -/
structure icdf_table (α : Type) where
  /-- The base class object. -/
  base : array2D_ax α (ax_logspace α) (ax_linspace α)

/-- Member `icdf_table::get`. -/
def icdf_table.get {α : Type} [LinearOrderedField α] [FloorRing α] (exp log : α → α)
    (t : icdf_table α) (K P : α) : α :=
  array2D_ax.at_linear (ax_logspace.ops exp log) ax_linspace.ops t.base K P

/-! ## Arithmetic on stored values that need not be finite -/

namespace fp
variable {α : Type} [LinearOrderedField α]

/-- The floating-point product: a zero times an infinity is not a number, any
other product with an infinity is the infinity with the product of the signs. -/
def mul : fp α → fp α → fp α
  | finite a, finite b => finite (a * b)
  | finite a, inf negative => if a = 0 then nan else inf (xor (decide (a < 0)) negative)
  | inf negative, finite b => if b = 0 then nan else inf (xor negative (decide (b < 0)))
  | inf negative, inf negative2 => inf (xor negative negative2)
  | nan, _ => nan
  | _, nan => nan

/-- The floating-point sum: an infinity plus the opposite infinity is not a
number, any other sum with an infinity is that infinity. -/
def add : fp α → fp α → fp α
  | finite a, finite b => finite (a + b)
  | finite _, inf negative => inf negative
  | inf negative, finite _ => inf negative
  | inf negative, inf negative2 => if negative = negative2 then inf negative else nan
  | nan, _ => nan
  | _, nan => nan

instance : Mul (fp α) := ⟨mul⟩

instance : Add (fp α) := ⟨add⟩

end fp

/-- Member `at_linear` of a table whose stored values need not be finite: the
statements of `at_linear`, with the products and the sum of the `return`
statement taken in floating-point values. -/
def array1D_ax.at_linear_fp {α A : Type} [LinearOrderedField α] [FloorRing α]
    (ax : axis_ops A α) (t : array1D_ax (fp α) A) (x : α) : fp α :=
  let true_index := ax.find t._x_axis x
  let low_index := array1D_ax.low_index ax t x
  let frac_index := true_index - (low_index : α)
  let low_value := vec_at t._data low_index
  let high_value := vec_at t._data (size_add low_index 1)
  fp.finite (1 - frac_index) * low_value + fp.finite frac_index * high_value

/-! ## The properties of a material (`material.cpp`) -/

/-- Modelled from the spec: the product `double * quantity` of
`units/quantity.h`, which scales the value and keeps the dimension. -/
def quantity.scale {α : Type} [Mul α] (c : α) (q : quantity α) : quantity α :=
  ⟨c * q.value, q.units⟩

/-- The scalar properties that the constructor `material::material` reads from
the property map. -/
structure material_properties (α : Type) where
  /-- Field `fermi`. -/
  fermi : quantity α
  /-- Field `density`. -/
  density : quantity α
  /-- Field `phonon_loss`. -/
  phonon_loss : quantity α
  /-- Field `barrier`. -/
  barrier : quantity α
  /-- Field `effective_A`. -/
  effective_A : quantity α
  /-- Field `band_gap`. -/
  band_gap : quantity α

namespace material
variable {α : Type} [DivisionRing α]

/-- Member `std::map::at` of the property map: the value stored for the key, or
the exception `std::out_of_range`. -/
def property_map_at (property_map : List (String × quantity α)) (key : String) :
    Except exception (quantity α) :=
  match property_map.lookup key with
  | some value => Except.ok value
  | none => Except.error (exception.out_of_range "map::at")

/-- The right-hand side of the assignment to `band_gap` in the constructor
`material::material`:
`conductor_type == CND_METAL ? -1.*units::eV : property_map.at("band_gap")`. -/
def ctor_band_gap (conductor_type : conductor_type_t)
    (property_map : List (String × quantity α)) : Except exception (quantity α) :=
  if conductor_type = conductor_type_t.CND_METAL then
    Except.ok (quantity.scale (-1) units.eV)
  else
    property_map_at property_map "band_gap"

/-- The statements of the constructor `material::material` that set the scalar
properties from the property map, after `conductor_type` was set. -/
def ctor_properties (conductor_type : conductor_type_t)
    (property_map : List (String × quantity α)) : Except exception (material_properties α) := do
  let fermi ← property_map_at property_map "fermi"
  let density ← property_map_at property_map "density"
  let phonon_loss ← property_map_at property_map "phonon_loss"
  let barrier ← property_map_at property_map "barrier"
  let effective_A ← property_map_at property_map "effective_A"
  let band_gap ← ctor_band_gap conductor_type property_map
  Except.ok ⟨fermi, density, phonon_loss, barrier, effective_A, band_gap⟩

/-- Member `material::get_band_gap`. -/
def get_band_gap (m : material_properties α) : quantity α := m.band_gap

end material

/-! ## Further concrete tables -/

/-- The 1-D table over the axis `1, 2, 4` that stores `10`, `+∞` and `40`. -/
def example_table_inf : array1D_ax (fp ℚ) (ax_list ℚ) :=
  ⟨[fp.finite 10, fp.inf false, fp.finite 40], example_axis⟩

/-- The property map of a material without the entry `band_gap`. -/
def example_property_map : List (String × quantity ℚ) :=
  [("fermi", ⟨5, dimensions.energy⟩), ("density", ⟨2, dimensions.dimensionless⟩),
    ("phonon_loss", ⟨3, dimensions.energy⟩), ("barrier", ⟨4, dimensions.energy⟩),
    ("effective_A", ⟨1, dimensions.dimensionless⟩)]

/-! ## Constant tables -/

/-- The integer nearest to `x`, the even one of the two when `x` is half-way
between two integers. -/
def round_half_even {α : Type} [LinearOrderedField α] [FloorRing α] (x : α) : Int :=
  if x - (⌊x⌋ : α) < 1 / 2 then ⌊x⌋
  else if 1 / 2 < x - (⌊x⌋ : α) then ⌊x⌋ + 1
  else if ⌊x⌋ % 2 = 0 then ⌊x⌋
  else ⌊x⌋ + 1

/-- Rounding to the binary floating-point format with `p` significand bits: for
`2 ^ e ≤ |x| < 2 ^ (e + 1)` the multiple of `2 ^ (e + 1 - p)` nearest to `x`,
ties to even. -/
def fl_round {α : Type} [LinearOrderedField α] [FloorRing α] (p : Nat) (x : α) : α :=
  if x = 0 then 0
  else (round_half_even (x / 2 ^ (Int.log 2 |x| + 1 - (p : Int))) : α)
    * 2 ^ (Int.log 2 |x| + 1 - (p : Int))

namespace ax_list
variable {α : Type} [LinearOrderedField α]

/-- Member `ax_list::find` in floating-point arithmetic: the conversion of
`high_index`, the two differences, the quotient and the sum are each rounded by
`rnd`. -/
def find_rnd (rnd : α → α) (ax : ax_list α) (x : α) : α :=
  let high_index := ax.high_index x
  let high_value := ax.index high_index
  let low_value := ax.index (size_sub high_index 1)
  rnd (rnd (high_index : α) + rnd (rnd (x - high_value) / rnd (high_value - low_value)))

/-- The list axis as a template argument, in floating-point arithmetic. -/
def ops_rnd (rnd : α → α) : axis_ops (ax_list α) α := ⟨size, index, find_rnd rnd⟩

end ax_list

namespace ax_linspace
variable {α : Type} [LinearOrderedField α]

/-- Constructor `ax_linspace(low, high, N)` in floating-point arithmetic: the
difference, the conversion of `N - 1` and the quotient are each rounded. -/
def ctor_rnd (rnd : α → α) (low high : α) (N : Nat) : ax_linspace α :=
  ⟨low, rnd (rnd (high - low) / rnd ((size_sub N 1 : Nat) : α)), N⟩

/-- Member `operator[]` in floating-point arithmetic: the conversion of `pos`,
the product and the sum are each rounded. -/
def index_rnd (rnd : α → α) (ax : ax_linspace α) (pos : Nat) : α :=
  rnd (ax._low + rnd (ax._step * rnd (pos : α)))

/-- Member `find` in floating-point arithmetic: the difference and the quotient
are each rounded. -/
def find_rnd (rnd : α → α) (ax : ax_linspace α) (x : α) : α :=
  rnd (rnd (x - ax._low) / ax._step)

/-- The linear axis as a template argument, in floating-point arithmetic. -/
def ops_rnd (rnd : α → α) : axis_ops (ax_linspace α) α :=
  ⟨size, index_rnd rnd, find_rnd rnd⟩

end ax_linspace

namespace array1D_ax
variable {α β A : Type} [LinearOrderedField α] [FloorRing α] [Zero β]

/-- The local `low_index` of `at_linear` and `at_loglog` in floating-point
arithmetic: the bounds `0` and `size() - 2` of the clamp are converted to the
floating-point type. -/
def low_index_rnd (rnd : α → α) (ax : axis_ops A α) (t : array1D_ax β A) (x : α) : Nat :=
  to_size_t (_clamp (ax.find t._x_axis x) (rnd 0)
    (rnd ((size_sub (ax.size t._x_axis) 2 : Nat) : α)))

/-- The local `rounded_index` of `at_rounddown` in floating-point arithmetic:
the bounds `0` and `size() - 1` of the clamp are converted to the
floating-point type. -/
def rounded_index_rnd (rnd : α → α) (ax : axis_ops A α) (t : array1D_ax β A) (x : α) : Nat :=
  to_size_t (_clamp (ax.find t._x_axis x) (rnd 0)
    (rnd ((size_sub (ax.size t._x_axis) 1 : Nat) : α)))

/-- Member `at_rounddown` in floating-point arithmetic. -/
def at_rounddown_rnd (rnd : α → α) (ax : axis_ops A α) (t : array1D_ax β A) (x : α) : β :=
  vec_at t._data (rounded_index_rnd rnd ax t x)

end array1D_ax

namespace array2D_ax
variable {α β Ax Ay : Type} [LinearOrderedField α] [FloorRing α] [Zero β]

/-- The local `low_x` of `at_linear` in floating-point arithmetic. -/
def low_x_rnd (rnd : α → α) (ax : axis_ops Ax α) (t : array2D_ax β Ax Ay) (x : α) : Nat :=
  to_size_t (_clamp (ax.find t._x_axis x) (rnd 0)
    (rnd ((size_sub (ax.size t._x_axis) 2 : Nat) : α)))

/-- The local `low_y` of `at_linear` in floating-point arithmetic. -/
def low_y_rnd (rnd : α → α) (ay : axis_ops Ay α) (t : array2D_ax β Ax Ay) (y : α) : Nat :=
  to_size_t (_clamp (ay.find t._y_axis y) (rnd 0)
    (rnd ((size_sub (ay.size t._y_axis) 2 : Nat) : α)))

/-- The local `rounded_x` of `at_rounddown` in floating-point arithmetic. -/
def rounded_x_rnd (rnd : α → α) (ax : axis_ops Ax α) (t : array2D_ax β Ax Ay) (x : α) : Nat :=
  to_size_t (_clamp (ax.find t._x_axis x) (rnd 0)
    (rnd ((size_sub (ax.size t._x_axis) 1 : Nat) : α)))

/-- The local `rounded_y` of `at_rounddown` in floating-point arithmetic. -/
def rounded_y_rnd (rnd : α → α) (ay : axis_ops Ay α) (t : array2D_ax β Ax Ay) (y : α) : Nat :=
  to_size_t (_clamp (ay.find t._y_axis y) (rnd 0)
    (rnd ((size_sub (ay.size t._y_axis) 1 : Nat) : α)))

end array2D_ax

/-- The table of `2 ^ 24 + 5` zeros over the `float` linear axis
`(0, 16777220, 16777221)`. -/
def example_large_table : array1D_ax ℚ (ax_linspace ℚ) :=
  ⟨List.replicate 16777221 0, ax_linspace.ctor_rnd (fl_round 24) 0 16777220 16777221⟩

/-! # Theorems -/

/-! ## Lemmas: floating-point rounding -/

section rounding
variable {α : Type} [LinearOrderedField α] [FloorRing α]

/-- An integer rounds to itself. -/
theorem round_half_even_intCast (n : Int) : round_half_even (n : α) = n := by
  unfold round_half_even
  simp

/-- A number less than a half away from an integer rounds to it. -/
theorem round_half_even_of_lt (x : α) (n : Int) (h1 : (n : α) - 1 / 2 < x)
    (h2 : x < (n : α) + 1 / 2) : round_half_even x = n := by
  unfold round_half_even
  by_cases hx : (n : α) ≤ x
  · have hf : ⌊x⌋ = n := by
      rw [Int.floor_eq_iff]
      exact ⟨hx, by linarith⟩
    rw [hf, if_pos (by linarith)]
  · have hx' : x < n := not_le.mp hx
    have hf : ⌊x⌋ = n - 1 := by
      rw [Int.floor_eq_iff]
      push_cast
      exact ⟨by linarith, by linarith⟩
    rw [hf]
    push_cast
    rw [if_neg (by linarith), if_pos (by linarith)]
    ring

/-- A number half-way between two integers rounds to the even one. -/
theorem round_half_even_tie (x : α) (n : Int) (hn : n % 2 = 0)
    (h : x = (n : α) + 1 / 2 ∨ x = (n : α) - 1 / 2) : round_half_even x = n := by
  unfold round_half_even
  rcases h with h | h
  · have hf : ⌊x⌋ = n := by
      rw [Int.floor_eq_iff]
      exact ⟨by linarith, by linarith⟩
    rw [hf, if_neg (by linarith), if_neg (by linarith), if_pos hn]
  · have hf : ⌊x⌋ = n - 1 := by
      rw [Int.floor_eq_iff]
      push_cast
      exact ⟨by linarith, by linarith⟩
    rw [hf]
    push_cast
    rw [if_neg (by linarith), if_neg (by linarith), if_neg (by omega)]
    ring

/-- The exponent of a number between two consecutive powers of two. -/
theorem int_log_two_eq (x : α) (e : Int) (hlo : (2 : α) ^ e ≤ x) (hhi : x < (2 : α) ^ (e + 1)) :
    Int.log 2 x = e := by
  have hpos : 0 < x := lt_of_lt_of_le (zpow_pos (by norm_num) e) hlo
  have h1 : e ≤ Int.log 2 x := (Int.zpow_le_iff_le_log (by norm_num) hpos).mp (by exact_mod_cast hlo)
  have h2 : Int.log 2 x < e + 1 :=
    (Int.lt_zpow_iff_log_lt (by norm_num) hpos).mp (by exact_mod_cast hhi)
  omega

/-- The rounding of a number whose exponent and rounded significand are known. -/
theorem fl_round_eq (p : Nat) (x : α) (e n : Int) (hlo : (2 : α) ^ e ≤ |x|)
    (hhi : |x| < (2 : α) ^ (e + 1))
    (hn : round_half_even (x / 2 ^ (e + 1 - (p : Int))) = n) :
    fl_round p x = (n : α) * 2 ^ (e + 1 - (p : Int)) := by
  have hpos : 0 < |x| := lt_of_lt_of_le (zpow_pos (by norm_num) e) hlo
  have hx : x ≠ 0 := abs_pos.mp hpos
  unfold fl_round
  rw [if_neg hx, int_log_two_eq |x| e hlo hhi, hn]

/-- A number with a significand of at most `p` bits is its own rounding. -/
theorem fl_round_rep (p : Nat) (m k : Int) (hm : |m| < 2 ^ p) :
    fl_round p ((m : α) * 2 ^ k) = (m : α) * 2 ^ k := by
  by_cases hm0 : m = 0
  · subst hm0
    simp [fl_round]
  have h2 : (0 : α) < 2 := by norm_num
  have hx : (m : α) * 2 ^ k ≠ 0 :=
    mul_ne_zero (by exact_mod_cast hm0) (ne_of_gt (zpow_pos h2 k))
  have hpos : 0 < |(m : α) * 2 ^ k| := abs_pos.mpr hx
  unfold fl_round
  rw [if_neg hx]
  generalize he : Int.log 2 |(m : α) * 2 ^ k| = e
  have hlo : (2 : α) ^ e ≤ |(m : α) * 2 ^ k| := by
    rw [← he]
    exact_mod_cast Int.zpow_log_le_self (by norm_num) hpos
  have habs : |(m : α) * 2 ^ k| = (|m| : α) * 2 ^ k := by
    rw [abs_mul, abs_of_pos (zpow_pos h2 k)]
  have hlt : (2 : α) ^ e < 2 ^ ((p : Int) + k) := by
    rw [habs] at hlo
    refine lt_of_le_of_lt hlo ?_
    rw [zpow_add₀ (ne_of_gt h2)]
    apply mul_lt_mul_of_pos_right _ (zpow_pos h2 k)
    rw [zpow_natCast]
    have : ((|m| : Int) : α) < ((2 ^ p : Int) : α) := by exact_mod_cast hm
    simpa using this
  have hek : e < (p : Int) + k := (zpow_lt_zpow_iff_right₀ (by norm_num : (1 : α) < 2)).mp hlt
  obtain ⟨j, hj⟩ : ∃ j : Nat, k = e + 1 - (p : Int) + j := ⟨(k - (e + 1 - (p : Int))).toNat, by omega⟩
  have hdiv : (m : α) * 2 ^ k / 2 ^ (e + 1 - (p : Int)) = ((m * 2 ^ j : Int) : α) := by
    rw [hj, zpow_add₀ (ne_of_gt h2), zpow_natCast]
    push_cast
    field_simp
    ring
  rw [hdiv, round_half_even_intCast, hj, zpow_add₀ (ne_of_gt h2), zpow_natCast]
  push_cast
  ring

/-- Zero is its own rounding. -/
theorem fl_round_zero (p : Nat) : fl_round p (0 : α) = 0 := by
  simp [fl_round]

/-- A natural number up to `2 ^ p` is its own rounding. -/
theorem fl_round_natCast (p n : Nat) (hn : n < 2 ^ p) : fl_round p (n : α) = n := by
  have h := fl_round_rep (α := α) p (n : Int) 0 (by
    rw [abs_of_nonneg (by omega)]
    exact_mod_cast hn)
  simpa using h

end rounding

section rounding_identity
variable {α β A : Type} [LinearOrderedField α] [FloorRing α] [Zero β]

omit [FloorRing α] in
/-- With no rounding, `find` on a list axis is the exact `find`. -/
theorem ax_list.find_rnd_id (ax : ax_list α) (x : α) : ax.find_rnd id x = ax.find x := rfl

omit [FloorRing α] in
/-- With no rounding, a linear axis, its nodes and its `find` are the exact
ones. -/
theorem ax_linspace.linspace_rnd_id (low high : α) (N : Nat) (ax : ax_linspace α) (pos : Nat)
    (x : α) :
    ax_linspace.ctor_rnd id low high N = ax_linspace.ctor low high N ∧
    ax_linspace.index_rnd id ax pos = ax_linspace.index ax pos ∧
    ax_linspace.find_rnd id ax x = ax_linspace.find ax x :=
  ⟨rfl, rfl, rfl⟩

/-- With no rounding, the clamped indices of a 1-D table are the exact ones. -/
theorem array1D_ax.indices_rnd_id (ax : axis_ops A α) (t : array1D_ax β A) (x : α) :
    array1D_ax.low_index_rnd id ax t x = array1D_ax.low_index ax t x ∧
    array1D_ax.rounded_index_rnd id ax t x = array1D_ax.rounded_index ax t x ∧
    array1D_ax.at_rounddown_rnd id ax t x = array1D_ax.at_rounddown ax t x :=
  ⟨rfl, rfl, rfl⟩

omit [Zero β] in
/-- With no rounding, the clamped indices of a 2-D table are the exact ones. -/
theorem array2D_ax.indices_2D_rnd_id {Ax Ay : Type} (ax : axis_ops Ax α) (ay : axis_ops Ay α)
    (t : array2D_ax β Ax Ay) (x y : α) :
    array2D_ax.low_x_rnd id ax t x = array2D_ax.low_x ax t x ∧
    array2D_ax.low_y_rnd id ay t y = array2D_ax.low_y ay t y ∧
    array2D_ax.rounded_x_rnd id ax t x = array2D_ax.rounded_x ax t x ∧
    array2D_ax.rounded_y_rnd id ay t y = array2D_ax.rounded_y ay t y :=
  ⟨rfl, rfl, rfl, rfl⟩

end rounding_identity

section list_axis_rounding

end list_axis_rounding

section linspace_rounding

theorem ax_linspace.ops_rnd_find {α : Type} [LinearOrderedField α] (rnd : α → α)
    (low step : α) (N : Nat) (x : α) :
    (ax_linspace.ops_rnd rnd).find ⟨low, step, N⟩ x = rnd (rnd (x - low) / step) := rfl

/-- The step of the `float` linear axis `(0, 1, 42)`: the quotient `1 / 41`
rounded. -/
theorem example_float_ctor :
    ax_linspace.ctor_rnd (fl_round 24) (0 : ℚ) 1 42 = ⟨0, 13094412 / 2 ^ 29, 42⟩ := by
  unfold ax_linspace.ctor_rnd
  have hs : ((size_sub 42 1 : Nat) : ℚ) = 41 := by
    rw [show size_sub 42 1 = 41 from by decide]
    rfl
  have h41 : fl_round 24 (41 : ℚ) = 41 := by
    simpa using fl_round_natCast (α := ℚ) 24 41 (by norm_num)
  have h1 : fl_round 24 (1 - 0 : ℚ) = 1 := by
    rw [sub_zero]
    simpa using fl_round_natCast (α := ℚ) 24 1 (by norm_num)
  have hq : fl_round 24 (1 / 41 : ℚ) = 13094412 / 2 ^ 29 := by
    rw [fl_round_eq 24 (1 / 41 : ℚ) (-6) 13094412
      (by rw [abs_of_pos (by norm_num)]; norm_num)
      (by rw [abs_of_pos (by norm_num)]; norm_num)
      (round_half_even_of_lt _ _ (by norm_num) (by norm_num))]
    norm_num
  rw [hs, h41, h1, hq]

/-- The last node of the `float` linear axis `(0, 1, 42)` is `1 - 2 ^ -24`. -/
theorem example_float_index :
    ax_linspace.index_rnd (fl_round 24) (ax_linspace.ctor_rnd (fl_round 24) (0 : ℚ) 1 42) 41
      = 1 - 1 / 2 ^ 24 := by
  rw [example_float_ctor]
  unfold ax_linspace.index_rnd
  simp only [zero_add]
  have h41 : fl_round 24 ((41 : Nat) : ℚ) = 41 := by
    simpa using fl_round_natCast (α := ℚ) 24 41 (by norm_num)
  rw [h41]
  have hm : fl_round 24 (13094412 / 2 ^ 29 * 41 : ℚ) = 16777215 / 2 ^ 24 := by
    rw [fl_round_eq 24 (13094412 / 2 ^ 29 * 41 : ℚ) (-1) 16777215
      (by rw [abs_of_pos (by norm_num)]; norm_num)
      (by rw [abs_of_pos (by norm_num)]; norm_num)
      (round_half_even_of_lt _ _ (by norm_num) (by norm_num))]
    norm_num
  rw [hm]
  have h := fl_round_rep (α := ℚ) 24 16777215 (-24) (by norm_num)
  have e : ((16777215 : Int) : ℚ) * 2 ^ (-24 : Int) = 16777215 / 2 ^ 24 := by norm_num
  rw [e] at h
  rw [h]
  norm_num

/-- The `float` linear axis `(0, 16777220, 16777221)` has step `1`. -/
theorem example_large_ctor :
    ax_linspace.ctor_rnd (fl_round 24) (0 : ℚ) 16777220 16777221 = ⟨0, 1, 16777221⟩ := by
  unfold ax_linspace.ctor_rnd
  have hs : ((size_sub 16777221 1 : Nat) : ℚ) = 16777220 := by
    rw [show size_sub 16777221 1 = 16777220 from by decide]
    rfl
  have h : fl_round 24 (16777220 : ℚ) = 16777220 := by
    have h := fl_round_rep (α := ℚ) 24 4194305 2 (by norm_num)
    have e : ((4194305 : Int) : ℚ) * 2 ^ (2 : Int) = 16777220 := by norm_num
    rw [e] at h
    exact h
  have h1 : fl_round 24 (1 : ℚ) = 1 := by
    simpa using fl_round_natCast (α := ℚ) 24 1 (by norm_num)
  rw [hs, sub_zero, h, div_self (by norm_num), h1]

/-- The conversion of `16777219` to `float` is `16777220`. -/
theorem fl_round_24_odd : fl_round 24 (16777219 : ℚ) = 16777220 := by
  rw [fl_round_eq 24 (16777219 : ℚ) 24 8388610
    (by rw [abs_of_pos (by norm_num)]; norm_num)
    (by rw [abs_of_pos (by norm_num)]; norm_num)
    (round_half_even_tie _ _ (by norm_num) (Or.inr (by norm_num)))]
  norm_num

/-- On the `float` table of `2 ^ 24 + 5` values the query `2 ^ 25` has the true
index `2 ^ 25`, which the clamp cuts to the converted bound `16777220`. -/
theorem example_large_low_index :
    array1D_ax.low_index_rnd (fl_round 24) (ax_linspace.ops_rnd (fl_round 24))
      example_large_table (2 ^ 25) = 16777220 := by
  unfold array1D_ax.low_index_rnd
  have hax : example_large_table._x_axis = ⟨0, 1, 16777221⟩ := example_large_ctor
  rw [hax]
  have hf : (ax_linspace.ops_rnd (fl_round 24)).find (⟨0, 1, 16777221⟩ : ax_linspace ℚ) (2 ^ 25)
      = 2 ^ 25 := by
    rw [ax_linspace.ops_rnd_find]
    have h := fl_round_rep (α := ℚ) 24 1 25 (by norm_num)
    have e : ((1 : Int) : ℚ) * 2 ^ (25 : Int) = 2 ^ 25 := by norm_num
    rw [e] at h
    rw [sub_zero, h, div_one, h]
  have hs : ((size_sub ((ax_linspace.ops_rnd (fl_round 24)).size
      (⟨0, 1, 16777221⟩ : ax_linspace ℚ)) 2 : Nat) : ℚ) = 16777219 := by
    rw [show size_sub ((ax_linspace.ops_rnd (fl_round 24)).size
      (⟨0, 1, 16777221⟩ : ax_linspace ℚ)) 2 = 16777219 from by decide]
    rfl
  rw [hf, hs, fl_round_zero, fl_round_24_odd]
  have hc : _clamp ((2 : ℚ) ^ 25) 0 16777220 = 16777220 := by
    unfold _clamp
    rw [min_eq_right (by norm_num), max_eq_right (by norm_num)]
  rw [hc]
  unfold to_size_t
  exact Nat.floor_ofNat 16777220

end linspace_rounding

/-! ## Lemmas: `size_t` arithmetic -/

theorem size_sub_of_le {a b : Nat} (hb : b ≤ a) (ha : a < SIZE_T_MOD) : size_sub a b = a - b := by
  unfold size_sub SIZE_T_MOD at *
  omega

theorem size_add_of_lt {a b : Nat} (h : a + b < SIZE_T_MOD) : size_add a b = a + b := by
  unfold size_add
  exact Nat.mod_eq_of_lt h

theorem size_mul_of_lt {a b : Nat} (h : a * b < SIZE_T_MOD) : size_mul a b = a * b := by
  unfold size_mul
  exact Nat.mod_eq_of_lt h

/-! ## Lemmas: vectors and `lower_bound` -/

theorem vec_at_eq {β : Type} [Zero β] (data : List β) {pos : Nat} (h : pos < data.length) :
    vec_at data pos = data[pos] := by
  unfold vec_at
  exact List.getD_eq_getElem data 0 h

section lower_bound_lemmas
variable {α : Type} [LinearOrder α]

theorem lower_bound_le_length (l : List α) (x : α) : lower_bound l x ≤ l.length := by
  induction l with
  | nil => simp [lower_bound]
  | cons a rest ih =>
    unfold lower_bound
    split
    · simpa using ih
    · exact Nat.zero_le _

/-- Every element before the lower bound is less than `x`. -/
theorem lower_bound_lt (l : List α) (x : α) (j : Nat) (hj : j < lower_bound l x)
    (hl : j < l.length) : l[j] < x := by
  induction l generalizing j with
  | nil => simp at hl
  | cons a rest ih =>
    unfold lower_bound at hj
    split at hj
    · cases j with
      | zero => simpa
      | succ j =>
        simp only [List.getElem_cons_succ]
        exact ih j (by omega) (by simpa using hl)
    · omega

/-- The element at the lower bound, when there is one, is not less than `x`. -/
theorem lower_bound_ge (l : List α) (x : α) (hl : lower_bound l x < l.length) :
    x ≤ l[lower_bound l x] := by
  induction l with
  | nil => simp at hl
  | cons a rest ih =>
    by_cases hax : a < x
    · have e : lower_bound (a :: rest) x = lower_bound rest x + 1 := by
        simp [lower_bound, hax]
      have hl2 : lower_bound rest x < rest.length := by
        rw [e] at hl
        simpa using hl
      simp only [e, List.getElem_cons_succ]
      exact ih hl2
    · have e : lower_bound (a :: rest) x = 0 := by
        simp [lower_bound, hax]
      simp only [e, List.getElem_cons_zero]
      exact not_lt.mp hax

/-- The lower bound is the only position that separates the elements less than
`x` from an element not less than `x`. -/
theorem lower_bound_eq (l : List α) (x : α) (k : Nat) (hk : k ≤ l.length)
    (h1 : ∀ j (hj : j < l.length), j < k → l[j] < x)
    (h2 : ∀ hkl : k < l.length, x ≤ l[k]) : lower_bound l x = k := by
  have hle := lower_bound_le_length l x
  rcases Nat.lt_trichotomy (lower_bound l x) k with h | h | h
  · have hlt : lower_bound l x < l.length := by omega
    have a1 := lower_bound_ge l x hlt
    have a2 := h1 _ hlt h
    exact absurd a2 (not_lt.mpr a1)
  · exact h
  · have hkl : k < l.length := by omega
    have a1 := lower_bound_lt l x k h hkl
    have a2 := h2 hkl
    exact absurd a1 (not_lt.mpr a2)

theorem sorted_getElem_lt {l : List α} (hs : l.Pairwise (fun a b => a < b)) {i j : Nat}
    (hj : j < l.length) (hij : i < j) : l[i] < l[j] :=
  (List.pairwise_iff_getElem.mp hs) i j (by omega) hj hij

theorem sorted_getElem_le {l : List α} (hs : l.Pairwise (fun a b => a < b)) {i j : Nat}
    (hj : j < l.length) (hij : i ≤ j) : l[i] ≤ l[j] := by
  rcases Nat.lt_or_eq_of_le hij with h | h
  · exact le_of_lt (sorted_getElem_lt hs hj h)
  · subst h
    exact le_refl _

/-- On a strictly increasing vector the lower bound of a stored value is its position. -/
theorem lower_bound_getElem {l : List α} (hs : l.Pairwise (fun a b => a < b)) {i : Nat}
    (hi : i < l.length) : lower_bound l l[i] = i :=
  lower_bound_eq l l[i] i (le_of_lt hi)
    (fun _ _ hji => sorted_getElem_lt hs hi hji) (fun _ => le_refl _)

end lower_bound_lemmas

section ax_list_lemmas
variable {α : Type} [LinearOrderedField α]

theorem ax_list.index_eq (ax : ax_list α) {i : Nat} (h : i < ax.base.length) :
    ax.index i = ax.base[i] := vec_at_eq ax.base h

/-- The bracket index of `find` is `max 1 (min lower_bound (N - 1))`. -/
theorem ax_list.high_index_eq (ax : ax_list α) (x : α) (hN : 2 ≤ ax.size)
    (hM : ax.size < SIZE_T_MOD) :
    ax.high_index x = max 1 (min (lower_bound ax.base x) (ax.size - 1)) := by
  unfold ax_list.high_index _clamp
  rw [size_sub_of_le (by omega) hM]

/-- The bracket index lies in `[1, N - 1]`. -/
theorem ax_list.high_index_bounds (ax : ax_list α) (x : α) (hN : 2 ≤ ax.size)
    (hM : ax.size < SIZE_T_MOD) : 1 ≤ ax.high_index x ∧ ax.high_index x < ax.size := by
  rw [ax_list.high_index_eq ax x hN hM]
  omega

theorem ax_list.index_lt_index (ax : ax_list α) (hs : ax.base.Pairwise (fun a b => a < b))
    {i j : Nat} (hj : j < ax.size) (hij : i < j) : ax.index i < ax.index j := by
  have hj2 : j < ax.base.length := hj
  rw [ax_list.index_eq ax hj2, ax_list.index_eq ax (by omega : i < ax.base.length)]
  exact sorted_getElem_lt hs hj2 hij

theorem ax_list.index_le_index (ax : ax_list α) (hs : ax.base.Pairwise (fun a b => a < b))
    {i j : Nat} (hj : j < ax.size) (hij : i ≤ j) : ax.index i ≤ ax.index j := by
  have hj2 : j < ax.base.length := hj
  rw [ax_list.index_eq ax hj2, ax_list.index_eq ax (by omega : i < ax.base.length)]
  exact sorted_getElem_le hs hj2 hij

/-- The value of `find` in terms of the bracket. -/
theorem ax_list.find_eq (ax : ax_list α) (x : α) (hN : 2 ≤ ax.size)
    (hM : ax.size < SIZE_T_MOD) :
    ax.find x = (ax.high_index x : α) +
      (x - ax.index (ax.high_index x)) /
        (ax.index (ax.high_index x) - ax.index (ax.high_index x - 1)) := by
  have hb := ax_list.high_index_bounds ax x hN hM
  unfold ax_list.find
  simp only
  rw [size_sub_of_le hb.1 (by omega)]

/-- The two values of the bracket are in increasing order. -/
theorem ax_list.bracket_lt (ax : ax_list α) (hs : ax.base.Pairwise (fun a b => a < b))
    (x : α) (hN : 2 ≤ ax.size) (hM : ax.size < SIZE_T_MOD) :
    ax.index (ax.high_index x - 1) < ax.index (ax.high_index x) := by
  have hb := ax_list.high_index_bounds ax x hN hM
  exact ax_list.index_lt_index ax hs hb.2 (by omega)

/-- Unless the bracket is the first one, its low value is below `x`. -/
theorem ax_list.bracket_low_lt (ax : ax_list α) (x : α) (hN : 2 ≤ ax.size)
    (hM : ax.size < SIZE_T_MOD) (h1 : 1 < ax.high_index x) :
    ax.index (ax.high_index x - 1) < x := by
  have hb := ax_list.high_index_bounds ax x hN hM
  have he := ax_list.high_index_eq ax x hN hM
  have hlen : ax.high_index x - 1 < ax.base.length := by
    have : ax.size = ax.base.length := rfl
    omega
  rw [ax_list.index_eq ax hlen]
  apply lower_bound_lt ax.base x
  omega

/-- Unless the bracket is the last one, its high value is not below `x`. -/
theorem ax_list.le_bracket_high (ax : ax_list α) (hs : ax.base.Pairwise (fun a b => a < b))
    (x : α) (hN : 2 ≤ ax.size) (hM : ax.size < SIZE_T_MOD)
    (h1 : ax.high_index x + 1 < ax.size) : x ≤ ax.index (ax.high_index x) := by
  have he := ax_list.high_index_eq ax x hN hM
  have hsz : ax.size = ax.base.length := rfl
  have hlb : lower_bound ax.base x ≤ ax.high_index x := by omega
  have hlt : lower_bound ax.base x < ax.base.length := by omega
  have h2 := lower_bound_ge ax.base x hlt
  rw [← ax_list.index_eq ax hlt] at h2
  exact le_trans h2 (ax_list.index_le_index ax hs (by omega) hlb)

theorem frac_eq_neg_one {lo hi : α} (h : lo < hi) : (lo - hi) / (hi - lo) = -1 := by
  have hd : hi - lo ≠ 0 := ne_of_gt (sub_pos.mpr h)
  rw [div_eq_iff hd]
  ring

/-- At a stored value `find` returns its index. -/
theorem ax_list.find_index (ax : ax_list α) (hs : ax.base.Pairwise (fun a b => a < b))
    (hN : 2 ≤ ax.size) (hM : ax.size < SIZE_T_MOD) {i : Nat} (hi : i < ax.size) :
    ax.find (ax.index i) = (i : α) := by
  have hi2 : i < ax.base.length := hi
  have hlb : lower_bound ax.base (ax.index i) = i := by
    rw [ax_list.index_eq ax hi2]
    exact lower_bound_getElem hs hi2
  have he := ax_list.high_index_eq ax (ax.index i) hN hM
  rw [hlb] at he
  rw [ax_list.find_eq ax _ hN hM]
  rcases Nat.eq_zero_or_pos i with h0 | hpos
  · subst h0
    have h1 : ax.high_index (ax.index 0) = 1 := by omega
    rw [h1]
    have hlt : ax.index 0 < ax.index 1 := ax_list.index_lt_index ax hs (by omega) (by omega)
    simp only [Nat.sub_self]
    rw [frac_eq_neg_one hlt]
    simp
  · have h1 : ax.high_index (ax.index i) = i := by omega
    rw [h1]
    simp

end ax_list_lemmas

section table_lemmas
variable {α : Type} [LinearOrderedField α] [FloorRing α]

/-- The cast of a clamped real index whose floor is `k`. -/
theorem to_size_t_clamp {ti : α} {k M : Nat} (hkM : k ≤ M) (hlo : (k : α) ≤ ti)
    (hhi : k < M → ti < (k : α) + 1) : to_size_t (_clamp ti 0 (M : α)) = k := by
  unfold to_size_t _clamp
  have hk0 : (0 : α) ≤ (k : α) := Nat.cast_nonneg k
  rcases Nat.lt_or_eq_of_le hkM with hlt | heq
  · have h1 : ti < (k : α) + 1 := hhi hlt
    have h2 : (k : α) + 1 ≤ (M : α) := by exact_mod_cast hlt
    rw [min_eq_left (by linarith), max_eq_right (by linarith)]
    exact (Nat.floor_eq_iff (by linarith)).mpr ⟨hlo, h1⟩
  · subst heq
    rw [min_eq_right hlo, max_eq_right hk0]
    exact Nat.floor_natCast k

/-- The cast of a clamped negative real index is `0`. -/
theorem to_size_t_clamp_neg {ti : α} (M : Nat) (hneg : ti < 0) :
    to_size_t (_clamp ti 0 (M : α)) = 0 := by
  unfold to_size_t _clamp
  have h1 : min ti (M : α) ≤ 0 := le_trans (min_le_left _ _) (le_of_lt hneg)
  rw [max_eq_left h1]
  exact Nat.floor_zero

end table_lemmas

section list_table_claims
variable {α : Type} [LinearOrderedField α] [FloorRing α]

theorem example_axis_sorted : example_axis.base.Pairwise (fun a b => a < b) := by
  simp [example_axis]
  norm_num

/-- C1: on a 1-D table over a strictly increasing list axis with at least two
points, linear interpolation at the axis value of any grid index `i` returns
`table(i)`, which is the stored value `data[i]`. -/
theorem at_linear_at_node (t : array1D_ax α (ax_list α))
    (hs : t._x_axis.base.Pairwise (fun a b => a < b))
    (hN : 2 ≤ t._x_axis.size) (hM : t._x_axis.size < SIZE_T_MOD)
    (hd : t._data.length = t._x_axis.size) (i : Nat) (hi : i < t._x_axis.size) :
    array1D_ax.at_linear ax_list.ops t (array1D_ax.get_x ax_list.ops t i)
        = array1D_ax.call t i ∧
      t._data[i]? = some (array1D_ax.call t i) := by
  refine ⟨?_, by
    have hi2 : i < t._data.length := by omega
    unfold array1D_ax.call
    rw [vec_at_eq t._data hi2]
    simp [hi2]⟩
  have hfind : ax_list.find t._x_axis (ax_list.index t._x_axis i) = (i : α) :=
    ax_list.find_index t._x_axis hs hN hM hi
  have hsub : size_sub t._x_axis.size 2 = t._x_axis.size - 2 := size_sub_of_le hN hM
  unfold array1D_ax.at_linear array1D_ax.low_index array1D_ax.get_x array1D_ax.call
  simp only [ax_list.ops]
  rw [hfind, hsub]
  by_cases hlast : i + 1 < t._x_axis.size
  · have hc : to_size_t (_clamp (i : α) 0 ((t._x_axis.size - 2 : Nat) : α)) = i :=
      to_size_t_clamp (by omega) (le_refl _) (fun _ => by linarith)
    rw [hc]
    ring
  · have hc : to_size_t (_clamp (i : α) 0 ((t._x_axis.size - 2 : Nat) : α))
        = t._x_axis.size - 2 :=
      to_size_t_clamp (le_refl _) (by exact_mod_cast (by omega : t._x_axis.size - 2 ≤ i))
        (fun h => absurd h (lt_irrefl _))
    have hi2 : i = t._x_axis.size - 2 + 1 := by omega
    have hadd : size_add (t._x_axis.size - 2) 1 = i := by
      rw [size_add_of_lt (by omega), ← hi2]
    rw [hc, hadd]
    have hcast : ((t._x_axis.size - 2 : Nat) : α) = (i : α) - 1 := by
      rw [hi2]
      push_cast
      simp
    rw [hcast]
    ring

/-- Witness of C1: the table with axis `1, 2, 4` and data `10, 20, 40`, at the
last grid index. -/
theorem at_linear_at_node_witness :
    array1D_ax.at_linear ax_list.ops example_table
        (array1D_ax.get_x ax_list.ops example_table 2) = array1D_ax.call example_table 2 ∧
      example_table._data[2]? = some (array1D_ax.call example_table 2) :=
  at_linear_at_node example_table example_axis_sorted (by decide) (by decide) (by decide) 2
    (by decide)

end list_table_claims

section list_table_claims2
variable {α β : Type} [LinearOrderedField α] [FloorRing α] [Zero β]

/-- C3: on a strictly increasing list axis with at least two points, `find` at
the axis value of any index `i` returns exactly `i` (also for `i = 0`), so the
axis value at the index found is the axis value again. -/
theorem find_value_roundtrip (ax : ax_list α) (hs : ax.base.Pairwise (fun a b => a < b))
    (hN : 2 ≤ ax.size) (hM : ax.size < SIZE_T_MOD) (i : Nat) (hi : i < ax.size) :
    ax.find (ax.index i) = (i : α) ∧
    ax.index (to_size_t (ax.find (ax.index i))) = ax.index i := by
  have h := ax_list.find_index ax hs hN hM hi
  refine ⟨h, ?_⟩
  rw [h]
  unfold to_size_t
  rw [Nat.floor_natCast]

/-- Witness of C3: index `0` of the axis `1, 2, 4`, where the bracket is clamped
up to index `1`. -/
theorem find_value_roundtrip_witness :
    example_axis.high_index (example_axis.index 0) = 1 ∧
    example_axis.find (example_axis.index 0) = ((0 : Nat) : ℚ) ∧
    example_axis.index (to_size_t (example_axis.find (example_axis.index 0)))
      = example_axis.index 0 :=
  ⟨by decide, find_value_roundtrip example_axis example_axis_sorted (by decide) (by decide) 0
    (by decide)⟩

end list_table_claims2

section ctor_claims
variable {α β A Ax Ay : Type} [Zero β]

/-- C4: constructing a 1-D table from an axis and a value list fails with the
dimension-mismatch error exactly when the number of values differs from the
axis size; otherwise it succeeds with a table whose `size()` is the axis size
and whose element `i` is `values[i]` for every `i` below that size. -/
theorem array1D_ctor_spec (ax : axis_ops A α) (x_axis : A) (values : List β) :
    (array1D_ax.ctor ax x_axis values
        = Except.error "Unmatched dimensions between axis and values."
      ↔ values.length ≠ ax.size x_axis) ∧
    (values.length = ax.size x_axis →
      ∃ t, array1D_ax.ctor ax x_axis values = Except.ok t ∧
        array1D_ax.size ax t = ax.size x_axis ∧
        ∀ i, i < array1D_ax.size ax t → values[i]? = some (array1D_ax.call t i)) := by
  constructor
  · unfold array1D_ax.ctor
    by_cases h : ax.size x_axis = values.length
    · simp [h]
    · simp [h, Ne.symm h]
  · intro h
    refine ⟨⟨values, x_axis⟩, ?_, rfl, ?_⟩
    · simp [array1D_ax.ctor, h]
    · intro i hi
      have hi2 : i < values.length := by
        rw [h]
        exact hi
      simp [array1D_ax.call, vec_at_eq values hi2, hi2]

/-- When the product of two sizes fits `size_t`, the position `x*height + y`
of a cell is computed without wrapping. -/
theorem position_eq {α β Ax Ay : Type} (ay : axis_ops Ay α) (t : array2D_ax β Ax Ay)
    {w x y : Nat}
    (hfit : w * array2D_ax.height ay t < SIZE_T_MOD) (hx : x < w)
    (hy : y < array2D_ax.height ay t) :
    array2D_ax.position ay t x y = x * array2D_ax.height ay t + y ∧
      x * array2D_ax.height ay t + y < w * array2D_ax.height ay t := by
  have h1 : x * array2D_ax.height ay t + y < w * array2D_ax.height ay t := by
    calc x * array2D_ax.height ay t + y
        < x * array2D_ax.height ay t + array2D_ax.height ay t := by omega
      _ = (x + 1) * array2D_ax.height ay t := by ring
      _ ≤ w * array2D_ax.height ay t := Nat.mul_le_mul_right _ hx
  have h2 : x * array2D_ax.height ay t < SIZE_T_MOD := by omega
  refine ⟨?_, h1⟩
  unfold array2D_ax.position
  rw [size_mul_of_lt h2, size_add_of_lt (by omega)]

/-- Counterexample to C5 as stated: with two axes of `2 ^ 32` points each and
an empty value list the constructor succeeds, although the number of values,
`0`, differs from `width*height = 2 ^ 64`: the `size_t` product wraps to `0`. -/
theorem array2D_ctor_wraps :
    ([] : List ℚ).length ≠
        (ax_linspace.ctor (0 : ℚ) 1 (2 ^ 32)).size * (ax_linspace.ctor (0 : ℚ) 1 (2 ^ 32)).size ∧
    array2D_ax.ctor ax_linspace.ops ax_linspace.ops (ax_linspace.ctor (0 : ℚ) 1 (2 ^ 32))
        (ax_linspace.ctor (0 : ℚ) 1 (2 ^ 32)) ([] : List ℚ)
      = Except.ok ⟨ax_linspace.ctor 0 1 (2 ^ 32), ax_linspace.ctor 0 1 (2 ^ 32), []⟩ := by
  constructor
  · simp [ax_linspace.ctor, ax_linspace.size]
  · simp [array2D_ax.ctor, ax_linspace.ops, ax_linspace.ctor, ax_linspace.size, size_mul,
      SIZE_T_MOD]

/-- C5, amended: when `width*height` is below `2 ^ 64`, constructing a 2-D table
from two axes and a value list fails with the dimension-mismatch error exactly
when the number of values differs from `width*height`; otherwise it succeeds
with a table whose element `(x, y)` is `values[x*height + y]` for every
`x < width` and `y < height`. -/
theorem array2D_ctor_spec (ax : axis_ops Ax α) (ay : axis_ops Ay α) (x_axis : Ax)
    (y_axis : Ay) (values : List β)
    (hfit : ax.size x_axis * ay.size y_axis < SIZE_T_MOD) :
    (array2D_ax.ctor ax ay x_axis y_axis values
        = Except.error "Unmatched dimensions between axes and values."
      ↔ values.length ≠ ax.size x_axis * ay.size y_axis) ∧
    (values.length = ax.size x_axis * ay.size y_axis →
      ∃ t, array2D_ax.ctor ax ay x_axis y_axis values = Except.ok t ∧
        array2D_ax.width ax t = ax.size x_axis ∧
        array2D_ax.height ay t = ay.size y_axis ∧
        ∀ x y, x < array2D_ax.width ax t → y < array2D_ax.height ay t →
          values[x * array2D_ax.height ay t + y]? = some (array2D_ax.call ay t x y)) := by
  have hmul := size_mul_of_lt hfit
  constructor
  · unfold array2D_ax.ctor
    rw [hmul]
    by_cases h : ax.size x_axis * ay.size y_axis = values.length
    · simp [h]
    · simp [h, Ne.symm h]
  · intro h
    refine ⟨⟨x_axis, y_axis, values⟩, ?_, rfl, rfl, ?_⟩
    · simp [array2D_ax.ctor, hmul, h]
    · intro x y hx hy
      have hp := position_eq ay (⟨x_axis, y_axis, values⟩ : array2D_ax β Ax Ay) hfit hx hy
      have hi2 : x * array2D_ax.height ay (⟨x_axis, y_axis, values⟩ : array2D_ax β Ax Ay) + y
          < values.length := by
        rw [h]
        exact hp.2
      unfold array2D_ax.call
      rw [hp.1, vec_at_eq values hi2]
      simp [hi2]

/-- Witness of C5, amended: two linear axes of two points each and four
values. -/
theorem array2D_ctor_spec_witness :
    (array2D_ax.ctor ax_linspace.ops ax_linspace.ops (ax_linspace.ctor (0 : ℚ) 1 2)
          (ax_linspace.ctor (0 : ℚ) 1 2) ([5, 6, 7, 8] : List ℚ)
        = Except.error "Unmatched dimensions between axes and values."
      ↔ ([5, 6, 7, 8] : List ℚ).length ≠
          ax_linspace.ops.size (ax_linspace.ctor (0 : ℚ) 1 2)
            * ax_linspace.ops.size (ax_linspace.ctor (0 : ℚ) 1 2)) ∧
    (([5, 6, 7, 8] : List ℚ).length =
        ax_linspace.ops.size (ax_linspace.ctor (0 : ℚ) 1 2)
          * ax_linspace.ops.size (ax_linspace.ctor (0 : ℚ) 1 2) →
      ∃ t, array2D_ax.ctor ax_linspace.ops ax_linspace.ops (ax_linspace.ctor (0 : ℚ) 1 2)
            (ax_linspace.ctor (0 : ℚ) 1 2) ([5, 6, 7, 8] : List ℚ) = Except.ok t ∧
        array2D_ax.width ax_linspace.ops t = ax_linspace.ops.size (ax_linspace.ctor (0 : ℚ) 1 2) ∧
        array2D_ax.height ax_linspace.ops t
          = ax_linspace.ops.size (ax_linspace.ctor (0 : ℚ) 1 2) ∧
        ∀ x y, x < array2D_ax.width ax_linspace.ops t →
          y < array2D_ax.height ax_linspace.ops t →
          ([5, 6, 7, 8] : List ℚ)[x * array2D_ax.height ax_linspace.ops t + y]?
            = some (array2D_ax.call ax_linspace.ops t x y)) :=
  array2D_ctor_spec ax_linspace.ops ax_linspace.ops (ax_linspace.ctor (0 : ℚ) 1 2)
    (ax_linspace.ctor (0 : ℚ) 1 2) [5, 6, 7, 8] (by decide)

end ctor_claims

section ionization_claims
variable {β : Type} [Zero β] [One β] [Neg β]

/-- The step of a logarithmic axis over `0 < K_min < K_max` with at least two
points is positive. -/
theorem ax_logspace.lstep_pos {K_min K_max : ℝ} {N : Nat} (hK : 0 < K_min)
    (hKK : K_min < K_max) (hN : 2 ≤ N) (hNM : N < SIZE_T_MOD) :
    0 < (ax_logspace.ctor Real.log K_min K_max N)._lstep := by
  unfold ax_logspace.ctor
  simp only
  rw [size_sub_of_le (by omega) hNM]
  have h1 : (1 : ℝ) < K_max / K_min := (one_lt_div hK).mpr hKK
  have h2 : (0 : ℝ) < ((N - 1 : Nat) : ℝ) := by exact_mod_cast (by omega : 0 < N - 1)
  exact div_pos (Real.log_pos h1) h2

end ionization_claims

section imfp_claims

theorem to_size_t_clamp_le {α : Type} [LinearOrderedField α] [FloorRing α] (ti : α) (M : Nat) :
    to_size_t (_clamp ti 0 (M : α)) ≤ M := by
  unfold to_size_t _clamp
  apply Nat.floor_le_of_le
  exact max_le (Nat.cast_nonneg M) (min_le_right _ _)

theorem example_imfp_axis :
    (example_imfp Real.exp Real.log).base._x_axis = (⟨0, 2, 2⟩ : ax_logspace ℝ) := by
  have h1 : size_sub 2 1 = 1 := by decide
  simp [example_imfp, ax_logspace.ctor, h1]

theorem example_imfp_low_index :
    array1D_ax.low_index (ax_logspace.ops Real.exp Real.log)
      (example_imfp Real.exp Real.log).base (Real.exp 1) = 0 := by
  have h2 : size_sub 2 2 = 0 := by decide
  unfold array1D_ax.low_index
  rw [example_imfp_axis]
  simp only [ax_logspace.ops, ax_logspace.size, h2]
  refine to_size_t_clamp (le_refl 0) ?_ (fun h => absurd h (lt_irrefl 0))
  simp [ax_logspace.find]

theorem example_imfp_get :
    imfp_table.get Real.exp Real.log (example_imfp Real.exp Real.log) (Real.exp 1)
      = Real.exp 2 := by
  have h3 : size_add 0 1 = 1 := by decide
  unfold imfp_table.get array1D_ax.at_linear
  simp only [example_imfp_low_index, h3]
  rw [example_imfp_axis]
  simp only [ax_logspace.ops, ax_logspace.find, example_imfp, vec_at]
  congr 1
  simp
  norm_num

theorem example_imfp_at_loglog :
    array1D_ax.at_loglog (ax_logspace.ops Real.exp Real.log) Real.exp Real.log
      (example_imfp Real.exp Real.log).base (Real.exp 1) = Real.exp (Real.log 3 / 2) := by
  have h3 : size_add 0 1 = 1 := by decide
  unfold array1D_ax.at_loglog
  simp only [example_imfp_low_index, h3]
  rw [example_imfp_axis]
  simp only [ax_logspace.ops, ax_logspace.index, example_imfp, vec_at]
  congr 1
  simp
  ring

/-- Counterexample to C7 as stated: on the table over the logarithmic axis
`(1, exp 2, 2)` storing `1` and `3`, `get(exp 1)` is `exp 2`, whereas
`exp(at_loglog(exp 1))` is `exp (sqrt 3)`. -/
theorem imfp_get_ne_exp_at_loglog :
    imfp_table.get Real.exp Real.log (example_imfp Real.exp Real.log) (Real.exp 1)
      ≠ Real.exp (array1D_ax.at_loglog (ax_logspace.ops Real.exp Real.log) Real.exp Real.log
          (example_imfp Real.exp Real.log).base (Real.exp 1)) := by
  rw [example_imfp_get, example_imfp_at_loglog]
  intro h
  have h2 : (2 : ℝ) = Real.exp (Real.log 3 / 2) := Real.exp_injective h
  have h3 : Real.exp (Real.log 3 / 2) * Real.exp (Real.log 3 / 2) = 3 := by
    rw [← Real.exp_add]
    have : Real.log 3 / 2 + Real.log 3 / 2 = Real.log 3 := by ring
    rw [this, Real.exp_log (by norm_num)]
  rw [← h2] at h3
  norm_num at h3

end imfp_claims

section imfp_amended

theorem vec_at_map_log (w : List ℝ) {i : Nat} (hi : i < w.length) :
    vec_at (w.map Real.log) i = Real.log (vec_at w i) := by
  rw [vec_at_eq w hi, vec_at_eq (w.map Real.log) (by simpa using hi)]
  simp

/-- On a logarithmic axis the exponential of the linear interpolation of stored
logarithms is the log-log interpolation of the values themselves. -/
theorem exp_at_linear_log_eq_at_loglog (w : List ℝ) (K_min K_max : ℝ) (N : Nat)
    (hK : 0 < K_min) (hKK : K_min < K_max) (hN : 2 ≤ N) (hNM : N < SIZE_T_MOD)
    (hw : w.length = N) (K : ℝ) (hKpos : 0 < K) :
    Real.exp (array1D_ax.at_linear (ax_logspace.ops Real.exp Real.log)
        ⟨w.map Real.log, ax_logspace.ctor Real.log K_min K_max N⟩ K)
      = array1D_ax.at_loglog (ax_logspace.ops Real.exp Real.log) Real.exp Real.log
        ⟨w, ax_logspace.ctor Real.log K_min K_max N⟩ K := by
  have hstep := ax_logspace.lstep_pos hK hKK hN hNM
  have hl : array1D_ax.low_index (ax_logspace.ops Real.exp Real.log)
      (⟨w.map Real.log, ax_logspace.ctor Real.log K_min K_max N⟩ :
        array1D_ax ℝ (ax_logspace ℝ)) K
      = array1D_ax.low_index (ax_logspace.ops Real.exp Real.log)
      (⟨w, ax_logspace.ctor Real.log K_min K_max N⟩ : array1D_ax ℝ (ax_logspace ℝ)) K := rfl
  have hle : array1D_ax.low_index (ax_logspace.ops Real.exp Real.log)
      (⟨w, ax_logspace.ctor Real.log K_min K_max N⟩ : array1D_ax ℝ (ax_logspace ℝ)) K
      ≤ N - 2 := by
    unfold array1D_ax.low_index
    have : (ax_logspace.ops Real.exp Real.log).size (ax_logspace.ctor Real.log K_min K_max N)
        = N := rfl
    simp only [this]
    rw [size_sub_of_le hN hNM]
    exact to_size_t_clamp_le _ _
  unfold array1D_ax.at_linear array1D_ax.at_loglog
  simp only [hl]
  generalize array1D_ax.low_index (ax_logspace.ops Real.exp Real.log)
      (⟨w, ax_logspace.ctor Real.log K_min K_max N⟩ : array1D_ax ℝ (ax_logspace ℝ)) K = l
    at hle
  have hadd : size_add l 1 = l + 1 := size_add_of_lt (by omega)
  rw [hadd, vec_at_map_log w (by omega : l < w.length),
    vec_at_map_log w (by omega : l + 1 < w.length)]
  have hfrac : Real.log (K / (ax_logspace.ops Real.exp Real.log).index
        (ax_logspace.ctor Real.log K_min K_max N) l) /
      Real.log ((ax_logspace.ops Real.exp Real.log).index
          (ax_logspace.ctor Real.log K_min K_max N) (l + 1) /
        (ax_logspace.ops Real.exp Real.log).index (ax_logspace.ctor Real.log K_min K_max N) l)
      = (ax_logspace.ops Real.exp Real.log).find (ax_logspace.ctor Real.log K_min K_max N) K
        - (l : ℝ) := by
    simp only [ax_logspace.ops, ax_logspace.index, ax_logspace.find]
    generalize (ax_logspace.ctor Real.log K_min K_max N)._lstep = s at hstep
    generalize (ax_logspace.ctor Real.log K_min K_max N)._llow = a
    rw [Real.log_div (ne_of_gt hKpos) (Real.exp_ne_zero _),
      Real.log_div (Real.exp_ne_zero _) (Real.exp_ne_zero _), Real.log_exp, Real.log_exp]
    have hs : s ≠ 0 := ne_of_gt hstep
    push_cast
    have hden : a + s * ((l : ℝ) + 1) - (a + s * (l : ℝ)) = s := by ring
    rw [hden, div_eq_iff hs, sub_mul, div_mul_cancel₀ _ hs]
    ring
  rw [hfrac]

/-- C7, amended: `get(K)` is `exp(at_linear(K))`, the exponential of the linear
interpolation of the stored log inverse mean free paths; when the table stores
the logarithms of positive values `w` over a logarithmic axis with
`0 < K_min < K_max` and `N ≥ 2`, this is, for `K > 0`, the log-log interpolation
`at_loglog(K)` of the table that stores `w` itself. -/
theorem imfp_get_eq (t : imfp_table ℝ) (K : ℝ) :
    imfp_table.get Real.exp Real.log t K
      = Real.exp (array1D_ax.at_linear (ax_logspace.ops Real.exp Real.log) t.base K) ∧
    ∀ (w : List ℝ) (K_min K_max : ℝ) (N : Nat),
      t.base = ⟨w.map Real.log, ax_logspace.ctor Real.log K_min K_max N⟩ →
      (∀ a ∈ w, 0 < a) → w.length = N → 0 < K_min → K_min < K_max → 2 ≤ N →
      N < SIZE_T_MOD → 0 < K →
      imfp_table.get Real.exp Real.log t K
        = array1D_ax.at_loglog (ax_logspace.ops Real.exp Real.log) Real.exp Real.log
            ⟨w, ax_logspace.ctor Real.log K_min K_max N⟩ K := by
  refine ⟨rfl, ?_⟩
  intro w K_min K_max N ht _ hw hK hKK hN hNM hKpos
  unfold imfp_table.get
  rw [ht]
  exact exp_at_linear_log_eq_at_loglog w K_min K_max N hK hKK hN hNM hw K hKpos

/-- Witness of C7, amended: the table storing `log 1` and `log 3` over the axis
`(1, 2, 2)`, at `K = 3/2`. -/
theorem imfp_get_eq_witness :
    imfp_table.get Real.exp Real.log
        ⟨⟨[1, 3].map Real.log, ax_logspace.ctor Real.log 1 2 2⟩⟩ (3 / 2)
      = array1D_ax.at_loglog (ax_logspace.ops Real.exp Real.log) Real.exp Real.log
          ⟨[1, 3], ax_logspace.ctor Real.log 1 2 2⟩ (3 / 2) :=
  (imfp_get_eq ⟨⟨[1, 3].map Real.log, ax_logspace.ctor Real.log 1 2 2⟩⟩ (3 / 2)).2
    [1, 3] 1 2 2 rfl (by intro a ha; simp at ha; rcases ha with h | h <;> rw [h] <;> norm_num)
    rfl (by norm_num) (by norm_num) (by decide) (by decide) (by norm_num)

end imfp_amended

section fill_loops
variable {β : Type}

/-- A loop that writes `c ip` at position `h ip` for `ip = 0, ..., n - 1`: the
length is kept, positions never written keep their value, and a position not
written again later holds the value written. -/
theorem foldl_set_range (h : Nat → Nat) (c : Nat → β) (n : Nat) (vals : List β) :
    ((List.range n).foldl (fun vals ip => vals.set (h ip) (c ip)) vals).length = vals.length ∧
    (∀ j, (∀ ip, ip < n → h ip ≠ j) →
      ((List.range n).foldl (fun vals ip => vals.set (h ip) (c ip)) vals)[j]? = vals[j]?) ∧
    (∀ ip, ip < n → h ip < vals.length → (∀ ip', ip' < n → ip < ip' → h ip' ≠ h ip) →
      ((List.range n).foldl (fun vals ip => vals.set (h ip) (c ip)) vals)[h ip]?
        = some (c ip)) := by
  induction n with
  | zero =>
    refine ⟨rfl, fun _ _ => rfl, ?_⟩
    intro ip hip
    omega
  | succ n ih =>
    obtain ⟨ih1, ih2, ih3⟩ := ih
    simp only [List.range_succ, List.foldl_append, List.foldl_cons, List.foldl_nil]
    refine ⟨?_, ?_, ?_⟩
    · rw [List.length_set, ih1]
    · intro j hj
      rw [List.getElem?_set_ne (hj n (Nat.lt_succ_self n))]
      exact ih2 j (fun ip hip => hj ip (Nat.lt_succ_of_lt hip))
    · intro ip hip hlen hlater
      rcases Nat.lt_or_eq_of_le (Nat.le_of_lt_succ hip) with hlt | heq
      · rw [List.getElem?_set_ne (hlater n (Nat.lt_succ_self n) hlt)]
        exact ih3 ip hlt hlen (fun ip' hip' h' => hlater ip' (Nat.lt_succ_of_lt hip') h')
      · subst heq
        rw [List.getElem?_set_self (by rw [ih1]; exact hlen)]

theorem fill_loop_length (N : Nat) (g : Nat → β) (values : List β) :
    (material.fill_loop N g values).length = values.length :=
  (foldl_set_range (fun i => i) g N values).1

theorem fill_loop_getElem? (N : Nat) (g : Nat → β) (values : List β) (hN : N ≤ values.length)
    (i : Nat) (hi : i < N) : (material.fill_loop N g values)[i]? = some (g i) :=
  (foldl_set_range (fun i => i) g N values).2.2 i hi (by omega)
    (fun ip' _ hlt => by omega)

theorem mul_add_lt_mul {N_K N_P ik ip : Nat} (hik : ik < N_K) (hip : ip < N_P) :
    ik * N_P + ip < N_K * N_P := by
  calc ik * N_P + ip < ik * N_P + N_P := by omega
    _ = (ik + 1) * N_P := by ring
    _ ≤ N_K * N_P := Nat.mul_le_mul_right _ hik

/-- Without wrapping, the position `ik*N_P + ip` is computed exactly. -/
theorem size_position_eq {N_K N_P ik ip : Nat} (hfit : N_K * N_P < SIZE_T_MOD) (hik : ik < N_K)
    (hip : ip < N_P) : size_add (size_mul ik N_P) ip = ik * N_P + ip := by
  have h1 := mul_add_lt_mul hik hip
  rw [size_mul_of_lt (by omega), size_add_of_lt (by omega)]

theorem fill_loop_2D_spec (N_K N_P : Nat) (g : Nat → Nat → β) (values : List β)
    (hfit : N_K * N_P < SIZE_T_MOD) (hlen : values.length = N_K * N_P) (m : Nat) (hm : m ≤ N_K) :
    ((List.range m).foldl
      (fun vals ik =>
        (List.range N_P).foldl
          (fun vals ip => vals.set (size_add (size_mul ik N_P) ip) (g ik ip)) vals)
      values).length = values.length ∧
    ∀ ik ip, ik < m → ip < N_P →
      ((List.range m).foldl
        (fun vals ik =>
          (List.range N_P).foldl
            (fun vals ip => vals.set (size_add (size_mul ik N_P) ip) (g ik ip)) vals)
        values)[ik * N_P + ip]? = some (g ik ip) := by
  induction m with
  | zero =>
    refine ⟨rfl, ?_⟩
    intro ik ip hik
    omega
  | succ m ih =>
    obtain ⟨ih1, ih2⟩ := ih (Nat.le_of_succ_le hm)
    simp only [List.range_succ, List.foldl_append, List.foldl_cons, List.foldl_nil]
    generalize (List.range m).foldl
      (fun vals ik =>
        (List.range N_P).foldl
          (fun vals ip => vals.set (size_add (size_mul ik N_P) ip) (g ik ip)) vals)
      values = r at ih1 ih2
    obtain ⟨a1, a2, a3⟩ :=
      foldl_set_range (fun ip => size_add (size_mul m N_P) ip) (g m) N_P r
    have hpos : ∀ ip, ip < N_P → size_add (size_mul m N_P) ip = m * N_P + ip :=
      fun ip hip => size_position_eq hfit (by omega) hip
    refine ⟨by rw [a1, ih1], ?_⟩
    intro ik ip hik hip
    rcases Nat.lt_or_eq_of_le (Nat.le_of_lt_succ hik) with hlt | heq
    · rw [a2 (ik * N_P + ip)]
      · exact ih2 ik ip hlt hip
      · intro ip' hip'
        rw [hpos ip' hip']
        have := mul_add_lt_mul hlt hip
        omega
    · subst heq
      have h3 := a3 ip hip
      simp only at h3
      rw [hpos ip hip] at h3
      apply h3
      · rw [ih1, hlen]
        exact mul_add_lt_mul (by omega) hip
      · intro ip' hip' hlt'
        rw [hpos ip' hip']
        omega

/-- A loop of unchecked writes whose positions are all inside the vector
leaves the vector that the same writes leave one after the other. -/
theorem foldlM_vec_write_range (pos : Nat → Nat) (g : Nat → β) (N : Nat) (values : List β)
    (hpos : ∀ i, i < N → pos i < values.length) :
    (List.range N).foldlM (fun vals i => material.vec_write vals (pos i) (g i)) values
      = some ((List.range N).foldl (fun vals i => vals.set (pos i) (g i)) values) := by
  induction N with
  | zero => rfl
  | succ m ih =>
    rw [List.range_succ, List.foldlM_append, ih (fun i hi => hpos i (Nat.lt_succ_of_lt hi)),
      List.foldl_append]
    simp only [Option.bind_eq_bind, Option.some_bind, List.foldlM_cons, List.foldlM_nil,
      List.foldl_cons, List.foldl_nil]
    unfold material.vec_write
    rw [if_pos (by rw [(foldl_set_range pos g m values).1]; exact hpos m (Nat.lt_succ_self m))]
    rfl

/-- When `N_K*N_P` fits `size_t` and the buffer has `N_K*N_P` cells, the first
`m` rounds of the nested loop write inside the buffer. -/
theorem fill_loop_2D_rounds (N_K N_P : Nat) (g : Nat → Nat → β) (values : List β)
    (hfit : N_K * N_P < SIZE_T_MOD) (hlen : values.length = N_K * N_P) (m : Nat) (hm : m ≤ N_K) :
    (List.range m).foldlM
      (fun vals ik =>
        (List.range N_P).foldlM
          (fun vals ip => material.vec_write vals (size_add (size_mul ik N_P) ip) (g ik ip))
          vals)
      values
    = some ((List.range m).foldl
      (fun vals ik =>
        (List.range N_P).foldl
          (fun vals ip => vals.set (size_add (size_mul ik N_P) ip) (g ik ip)) vals)
      values) := by
  induction m with
  | zero => rfl
  | succ m ih =>
    rw [List.range_succ, List.foldlM_append, ih (Nat.le_of_succ_le hm), List.foldl_append]
    simp only [Option.bind_eq_bind, Option.some_bind, List.foldlM_cons, List.foldlM_nil,
      List.foldl_cons, List.foldl_nil]
    have hl := (fill_loop_2D_spec N_K N_P g values hfit hlen m (Nat.le_of_succ_le hm)).1
    rw [foldlM_vec_write_range (fun ip => size_add (size_mul m N_P) ip) (g m) N_P _ (by
      intro ip hip
      rw [hl, hlen]
      show size_add (size_mul m N_P) ip < N_K * N_P
      rw [size_position_eq hfit (by omega) hip]
      exact mul_add_lt_mul (by omega) hip)]
    rfl

/-- When `N_K*N_P` fits `size_t`, the nested loop over a buffer of `N_K*N_P`
cells writes inside the buffer only, keeps its length, and leaves in every cell
the value computed for its node. -/
theorem fill_loop_2D_some (N_K N_P : Nat) (g : Nat → Nat → β) (values : List β)
    (hfit : N_K * N_P < SIZE_T_MOD) (hlen : values.length = N_K * N_P) :
    ∃ r, material.fill_loop_2D N_K N_P g values = some r ∧ r.length = N_K * N_P ∧
      ∀ ik ip, ik < N_K → ip < N_P →
        r[size_add (size_mul ik N_P) ip]? = some (g ik ip) := by
  have hs := fill_loop_2D_spec N_K N_P g values hfit hlen N_K (le_refl _)
  refine ⟨_, fill_loop_2D_rounds N_K N_P g values hfit hlen N_K (le_refl _),
    by rw [hs.1, hlen], ?_⟩
  intro ik ip hik hip
  rw [size_position_eq hfit hik hip]
  exact hs.2 ik ip hik hip

/-- The first write of the nested loop over an empty buffer is outside it. -/
theorem fill_loop_2D_nil (N_K N_P : Nat) (g : Nat → Nat → β) (hK : 0 < N_K) (hP : 0 < N_P) :
    material.fill_loop_2D N_K N_P g [] = none := by
  obtain ⟨k, rfl⟩ : ∃ k, N_K = k + 1 := ⟨N_K - 1, by omega⟩
  obtain ⟨p, rfl⟩ : ∃ p, N_P = p + 1 := ⟨N_P - 1, by omega⟩
  unfold material.fill_loop_2D
  rw [List.range_succ_eq_map k, List.foldlM_cons, List.range_succ_eq_map p, List.foldlM_cons]
  rfl

end fill_loops

section resampling_claims
variable {α β γ : Type} [LinearOrderedField α] [Zero β]

/-- C9: the 1-D resampling `to_fast_table(intern, K_min, K_max, N, f)` never
raises the dimension-mismatch error: for every source table, `K_min`, `K_max`,
`N` and transform `f` it returns a table of size `N` over the logarithmic axis
`(K_min, K_max, N)` whose element `i` is `f(intern, K_axis[i])` for every
`i < N`. -/
theorem to_fast_table_1D_spec (exp log : α → α) (intern : array1D_ax γ (ax_list α))
    (K_min K_max : α) (N : Nat) (f : array1D_ax γ (ax_list α) → α → β) :
    ∃ t, material.to_fast_table_1D exp log intern K_min K_max N f = Except.ok t ∧
      t._x_axis = ax_logspace.ctor log K_min K_max N ∧
      array1D_ax.size (ax_logspace.ops exp log) t = N ∧
      t._data.length = N ∧
      ∀ i, i < N →
        array1D_ax.call t i = f intern (array1D_ax.get_x (ax_logspace.ops exp log) t i) := by
  have hlen : (material.fill_loop N
      (fun i => f intern (ax_logspace.index exp (ax_logspace.ctor log K_min K_max N) i))
      (List.replicate N 0)).length = N := by
    rw [fill_loop_length, List.length_replicate]
  refine ⟨⟨material.fill_loop N
      (fun i => f intern (ax_logspace.index exp (ax_logspace.ctor log K_min K_max N) i))
      (List.replicate N 0), ax_logspace.ctor log K_min K_max N⟩, ?_, rfl, rfl, hlen, ?_⟩
  · unfold material.to_fast_table_1D array1D_ax.ctor
    simp only [hlen]
    simp [ax_logspace.ops, ax_logspace.size, ax_logspace.ctor]
  · intro i hi
    have h := fill_loop_getElem? N
      (fun i => f intern (ax_logspace.index exp (ax_logspace.ctor log K_min K_max N) i))
      (List.replicate N 0) (by simp) i hi
    unfold array1D_ax.call vec_at
    simp only [List.getD_eq_getElem?_getD, h, Option.getD_some]
    rfl

/-- When `N_K*N_P` fits `size_t`, the 2-D resampling writes inside its buffer
only and never raises the dimension-mismatch error: it returns the two axes it
builds and the buffer that its loop fills. -/
theorem to_fast_table_2D_eq (exp log : α → α)
    (intern : array2D_ax γ (ax_list α) (ax_linspace α)) (K_min K_max : α) (N_K N_P : Nat)
    (f : array2D_ax γ (ax_list α) (ax_linspace α) → α → α → β)
    (hfit : N_K * N_P < SIZE_T_MOD) :
    ∃ values, values.length = N_K * N_P ∧
      (∀ ik ip, ik < N_K → ip < N_P →
        values[size_add (size_mul ik N_P) ip]?
          = some (f intern (ax_logspace.index exp (ax_logspace.ctor log K_min K_max N_K) ik)
              (ax_linspace.index (ax_linspace.ctor 0 1 N_P) ip))) ∧
      material.to_fast_table_2D exp log intern K_min K_max N_K N_P f
        = some (Except.ok ⟨ax_logspace.ctor log K_min K_max N_K, ax_linspace.ctor 0 1 N_P,
            values⟩) := by
  obtain ⟨r, hr, hlen, hcells⟩ := fill_loop_2D_some N_K N_P
    (fun ik ip => f intern (ax_logspace.index exp (ax_logspace.ctor log K_min K_max N_K) ik)
      (ax_linspace.index (ax_linspace.ctor 0 1 N_P) ip))
    (List.replicate (size_mul N_K N_P) 0) hfit (by simp [size_mul_of_lt hfit])
  refine ⟨r, hlen, hcells, ?_⟩
  unfold material.to_fast_table_2D
  simp only [hr, Option.map_some']
  unfold array2D_ax.ctor
  simp [hlen, ax_logspace.ops, ax_linspace.ops, ax_logspace.size,
    ax_linspace.size, ax_logspace.ctor, ax_linspace.ctor, size_mul_of_lt hfit]

/-- A cell that holds a value is what `operator()` returns. -/
theorem array2D_ax.call_eq_of_getElem? {α β Ax Ay : Type} [Zero β] (ay : axis_ops Ay α)
    (t : array2D_ax β Ax Ay) (pos_x pos_y : Nat) (v : β)
    (h : t._data[array2D_ax.position ay t pos_x pos_y]? = some v) :
    array2D_ax.call ay t pos_x pos_y = v := by
  unfold array2D_ax.call vec_at
  simp [h]

/-- Counterexample to C10 as stated, in two parts.  For `N_K = N_P = 2 ^ 32` the
`size_t` product `N_K*N_P` wraps to `0`, the buffer is empty, and the first
write of the loop, `values[0]`, is outside it: the resampling returns no table.
And in `float` arithmetic, the type of the axes of the resampled table, the
last node of the linear axis `(0, 1, 42)` is `1 - 2 ^ -24`, not `1`. -/
theorem to_fast_table_2D_wraps :
    ax_linspace.index_rnd (fl_round 24) (ax_linspace.ctor_rnd (fl_round 24) (0 : ℚ) 1 42)
      (42 - 1) = 1 - 1 / 2 ^ 24 ∧
    ax_linspace.index_rnd (fl_round 24) (ax_linspace.ctor_rnd (fl_round 24) (0 : ℚ) 1 42)
      (42 - 1) ≠ 1 ∧
    size_mul 4294967296 4294967296 = 0 ∧
    material.to_fast_table_2D Real.exp Real.log
        (⟨⟨[1, 2]⟩, ax_linspace.ctor 0 1 2, [1, 1, 1, 1]⟩ :
          array2D_ax ℚ (ax_list ℝ) (ax_linspace ℝ))
        1 2 4294967296 4294967296 (fun _ _ _ => (1 : ℚ)) = none ∧
    ¬ ∃ t, material.to_fast_table_2D Real.exp Real.log
          (⟨⟨[1, 2]⟩, ax_linspace.ctor 0 1 2, [1, 1, 1, 1]⟩ :
            array2D_ax ℚ (ax_list ℝ) (ax_linspace ℝ))
          1 2 4294967296 4294967296 (fun _ _ _ => (1 : ℚ)) = some (Except.ok t) := by
  have hwrap : size_mul 4294967296 4294967296 = 0 := by decide
  have hnone : material.to_fast_table_2D Real.exp Real.log
      (⟨⟨[1, 2]⟩, ax_linspace.ctor 0 1 2, [1, 1, 1, 1]⟩ :
        array2D_ax ℚ (ax_list ℝ) (ax_linspace ℝ))
      1 2 4294967296 4294967296 (fun _ _ _ => (1 : ℚ)) = none := by
    unfold material.to_fast_table_2D
    simp only [hwrap, List.replicate_zero]
    rw [fill_loop_2D_nil 4294967296 4294967296 _ (by norm_num) (by norm_num)]
    rfl
  refine ⟨example_float_index, ?_, hwrap, hnone, ?_⟩
  · rw [show 42 - 1 = 41 from rfl, example_float_index]
    norm_num
  · rintro ⟨t, ht⟩
    rw [hnone] at ht
    cases ht

/-- C10, amended: for every source table, `K_min`, `K_max`, transform `f` and
every `N_K`, `N_P` whose product is below `2 ^ 64`, the 2-D resampling
`to_fast_table` writes inside its buffer only and returns, without a
dimension-mismatch error, a table whose energy axis is the logarithmic axis
`(K_min, K_max, N_K)` and whose probability axis is the linear axis
`(0, 1, N_P)`, with `P_axis[0] = 0` for `N_P ≠ 1` (for `N_P = 1` the step of the
axis is a division by zero) and, in exact arithmetic, `P_axis[N_P - 1] = 1` for
`N_P ≥ 2`; its buffer has `N_K*N_P` cells and its element `(ik, ip)` is
`f(intern, K_axis[ik], P_axis[ip])` for every `ik < N_K` and `ip < N_P`. -/
theorem to_fast_table_2D_spec (exp log : α → α)
    (intern : array2D_ax γ (ax_list α) (ax_linspace α)) (K_min K_max : α) (N_K N_P : Nat)
    (f : array2D_ax γ (ax_list α) (ax_linspace α) → α → α → β)
    (hfit : N_K * N_P < SIZE_T_MOD) :
    ∃ t, material.to_fast_table_2D exp log intern K_min K_max N_K N_P f
        = some (Except.ok t) ∧
      t._x_axis = ax_logspace.ctor log K_min K_max N_K ∧
      t._y_axis = ax_linspace.ctor 0 1 N_P ∧
      (N_P ≠ 1 → array2D_ax.get_y ax_linspace.ops t 0 = 0) ∧
      (2 ≤ N_P → N_P < SIZE_T_MOD → array2D_ax.get_y ax_linspace.ops t (N_P - 1) = 1) ∧
      t._data.length = N_K * N_P ∧
      ∀ ik ip, ik < N_K → ip < N_P →
        t._data[array2D_ax.position ax_linspace.ops t ik ip]?
            = some (f intern (array2D_ax.get_x (ax_logspace.ops exp log) t ik)
                (array2D_ax.get_y ax_linspace.ops t ip)) ∧
        array2D_ax.call ax_linspace.ops t ik ip
          = f intern (array2D_ax.get_x (ax_logspace.ops exp log) t ik)
              (array2D_ax.get_y ax_linspace.ops t ip) := by
  obtain ⟨values, hlen, hcells, heq⟩ :=
    to_fast_table_2D_eq exp log intern K_min K_max N_K N_P f hfit
  refine ⟨_, heq, rfl, rfl, ?_, ?_, hlen, ?_⟩
  · intro _
    simp [array2D_ax.get_y, ax_linspace.ops, ax_linspace.index, ax_linspace.ctor]
  · intro hP hPM
    have hsub : size_sub N_P 1 = N_P - 1 := size_sub_of_le (by omega) hPM
    have hne : ((N_P - 1 : Nat) : α) ≠ 0 := by
      have : (0 : α) < ((N_P - 1 : Nat) : α) := by exact_mod_cast (by omega : 0 < N_P - 1)
      exact ne_of_gt this
    simp only [array2D_ax.get_y, ax_linspace.ops, ax_linspace.index, ax_linspace.ctor, hsub]
    rw [sub_zero, zero_add, div_mul_cancel₀ _ hne]
  · intro ik ip hik hip
    have h := hcells ik ip hik hip
    exact ⟨h, array2D_ax.call_eq_of_getElem? ax_linspace.ops _ ik ip _ h⟩

/-- Witness of C10, amended: a resampling onto `3 × 2` nodes. -/
theorem to_fast_table_2D_spec_witness :
    3 * 2 < SIZE_T_MOD ∧
    ∃ t, material.to_fast_table_2D Real.exp Real.log
          (⟨⟨[1, 2]⟩, ax_linspace.ctor 0 1 2, [1, 1, 1, 1]⟩ :
            array2D_ax ℚ (ax_list ℝ) (ax_linspace ℝ))
          1 2 3 2 (fun _ _ _ => (1 : ℚ)) = some (Except.ok t) ∧
      array2D_ax.get_y ax_linspace.ops t 0 = 0 ∧
      array2D_ax.get_y ax_linspace.ops t (2 - 1) = 1 ∧
      t._data.length = 3 * 2 ∧
      ∀ ik ip, ik < 3 → ip < 2 →
        t._data[array2D_ax.position ax_linspace.ops t ik ip]? = some 1 ∧
        array2D_ax.call ax_linspace.ops t ik ip = 1 :=
  ⟨by decide,
    (to_fast_table_2D_spec Real.exp Real.log _ 1 2 3 2 (fun _ _ _ => (1 : ℚ)) (by decide)).imp
      (fun _ h => ⟨h.1, h.2.2.2.1 (by decide), h.2.2.2.2.1 (by decide) (by decide),
        h.2.2.2.2.2⟩)⟩

end resampling_claims

section ionization_nonfinite

theorem example_ionization_find_x :
    ax_logspace.find Real.log (example_ionization Real.log).base._x_axis 1 = 0 := by
  simp [ax_logspace.find, example_ionization, ax_logspace.ctor]

theorem example_ionization_find_y :
    ax_linspace.find (example_ionization Real.log).base._y_axis 0 = 0 := by
  simp [ax_linspace.find, example_ionization, ax_linspace.ctor]

theorem to_size_t_checked_of_lt {α : Type} [LinearOrderedField α] [FloorRing α] {x : α}
    (h : x < (SIZE_T_MOD : α)) : to_size_t_checked x = some ⌊x⌋₊ := if_pos h

theorem example_ionization_K_index :
    ionization_table.K_index Real.exp Real.log (example_ionization Real.log) 1 = some 0 := by
  unfold ionization_table.K_index
  rw [example_ionization_find_x, to_size_t_checked_of_lt (by norm_num [SIZE_T_MOD]),
    Nat.floor_zero]
  rfl

theorem example_ionization_P_index :
    ionization_table.P_index (example_ionization Real.log) 0 = some 0 := by
  unfold ionization_table.P_index
  rw [example_ionization_find_y, to_size_t_checked_of_lt (by norm_num [SIZE_T_MOD]),
    Nat.floor_zero]
  rfl

theorem example_ionization_call :
    array2D_ax.call ax_linspace.ops (example_ionization Real.log).base 0 0 = fp.inf false := by
  have h0 : array2D_ax.position ax_linspace.ops (example_ionization Real.log).base 0 0 = 0 := by
    simp [array2D_ax.position, size_mul, size_add]
  unfold array2D_ax.call
  rw [h0]
  simp [vec_at, example_ionization]

/-- Counterexample to C8 as stated: on the table whose first node stores `+∞`,
the true indices of `(K, P) = (1, 0)` are both `0`, the floored, clamped index
pair is `(0, 0)`, the value stored there is not finite, and `get(1, 0)` returns
it, not `-1`. -/
theorem ionization_get_returns_nonfinite :
    0 ≤ ax_logspace.find Real.log (example_ionization Real.log).base._x_axis 1 ∧
    0 ≤ ax_linspace.find (example_ionization Real.log).base._y_axis 0 ∧
    ionization_table.K_index Real.exp Real.log (example_ionization Real.log) 1 = some 0 ∧
    ionization_table.P_index (example_ionization Real.log) 0 = some 0 ∧
    has_isfinite.isfinite
      (array2D_ax.call ax_linspace.ops (example_ionization Real.log).base 0 0) = false ∧
    ionization_table.get Real.exp Real.log (example_ionization Real.log) 1 0
      = some (fp.inf false) ∧
    ionization_table.get Real.exp Real.log (example_ionization Real.log) 1 0 ≠ some (-1) := by
  have hget : ionization_table.get Real.exp Real.log (example_ionization Real.log) 1 0
      = some (fp.inf false) := by
    unfold ionization_table.get
    simp only [example_ionization_find_x, example_ionization_find_y, lt_irrefl, or_self,
      if_false]
    rw [example_ionization_K_index, example_ionization_P_index]
    simp only [Option.some_bind, Option.map_some']
    rw [example_ionization_call]
  refine ⟨le_of_eq example_ionization_find_x.symm, le_of_eq example_ionization_find_y.symm,
    example_ionization_K_index, example_ionization_P_index, ?_, hget, ?_⟩
  · rw [example_ionization_call]
    rfl
  · rw [hget]
    intro h
    cases h

end ionization_nonfinite

section ionization_get_lemmas
variable {α β : Type} [LinearOrderedField α] [FloorRing α] [Zero β] [One β] [Neg β]

theorem ionization_table.get_of_nonneg (exp log : α → α) (t : ionization_table α β) (K P : α)
    (hx : 0 ≤ ax_logspace.find log t.base._x_axis K)
    (hxM : ax_logspace.find log t.base._x_axis K < (SIZE_T_MOD : α))
    (hy : 0 ≤ ax_linspace.find t.base._y_axis P)
    (hyM : ax_linspace.find t.base._y_axis P < (SIZE_T_MOD : α)) :
    ionization_table.get exp log t K P
      = some (array2D_ax.call ax_linspace.ops t.base
          (min ⌊ax_logspace.find log t.base._x_axis K⌋₊
            (size_sub (array2D_ax.width (ax_logspace.ops exp log) t.base) 1))
          (min ⌊ax_linspace.find t.base._y_axis P⌋₊
            (size_sub (array2D_ax.height ax_linspace.ops t.base) 1))) := by
  unfold ionization_table.get
  simp only
  rw [if_neg (by
    intro h
    rcases h with h | h
    · exact absurd h (not_lt.mpr hx)
    · exact absurd h (not_lt.mpr hy))]
  unfold ionization_table.K_index ionization_table.P_index
  rw [to_size_t_checked_of_lt hxM, to_size_t_checked_of_lt hyM]
  rfl

end ionization_get_lemmas

section ionization_amended
variable {α β : Type} [LinearOrderedField α] [FloorRing α] [Zero β] [One β] [Neg β]
  [has_isfinite β]

/-- C8, amended: for every ionization table and every `(K, P)` whose true
indices `tx`, `ty` are both non-negative and below `2 ^ 64`, `get(K, P)` returns
the value stored at `(min(floor(tx), W - 1), min(floor(ty), H - 1))` unchanged,
whether or not it is finite.  The value `-1` for a binding energy that is not
finite is written when `material::get_ionization_icdf` builds the table: for
`N_K*N_P` below `2 ^ 64` the table is built, and each node `(ik, ip)` at which
`at_rounddown` of the source table is not finite stores `-1`. -/
theorem ionization_get_stored (exp log : α → α) (t : ionization_table α β) (K P : α) :
    (0 ≤ ax_logspace.find log t.base._x_axis K →
      ax_logspace.find log t.base._x_axis K < (SIZE_T_MOD : α) →
      0 ≤ ax_linspace.find t.base._y_axis P →
      ax_linspace.find t.base._y_axis P < (SIZE_T_MOD : α) →
      ionization_table.get exp log t K P
        = some (array2D_ax.call ax_linspace.ops t.base
            (min ⌊ax_logspace.find log t.base._x_axis K⌋₊
              (size_sub (array2D_ax.width (ax_logspace.ops exp log) t.base) 1))
            (min ⌊ax_linspace.find t.base._y_axis P⌋₊
              (size_sub (array2D_ax.height ax_linspace.ops t.base) 1)))) ∧
    ∀ (source : array2D_ax β (ax_list α) (ax_linspace α)) (K_min K_max : α) (N_K N_P : Nat),
      N_K * N_P < SIZE_T_MOD →
      ∃ built, material.get_ionization_icdf exp log source K_min K_max N_K N_P
          = some (Except.ok built) ∧
        ∀ ik ip, ik < N_K → ip < N_P →
          has_isfinite.isfinite
            (array2D_ax.at_rounddown ax_list.ops ax_linspace.ops source
              (ax_logspace.index exp (ax_logspace.ctor log K_min K_max N_K) ik)
              (ax_linspace.index (ax_linspace.ctor 0 1 N_P) ip)) = false →
          built.base._data[array2D_ax.position ax_linspace.ops built.base ik ip]?
            = some (-1) := by
  constructor
  · intro hx hxM hy hyM
    exact ionization_table.get_of_nonneg exp log t K P hx hxM hy hyM
  · intro source K_min K_max N_K N_P hfit
    obtain ⟨values, _, hcells, heq⟩ := to_fast_table_2D_eq exp log source K_min K_max N_K N_P
      material.ionization_conversion hfit
    refine ⟨⟨⟨ax_logspace.ctor log K_min K_max N_K, ax_linspace.ctor 0 1 N_P, values⟩⟩, ?_, ?_⟩
    · unfold material.get_ionization_icdf
      rw [heq]
      rfl
    · intro ik ip hik hip hnf
      have h := hcells ik ip hik hip
      have hconv : material.ionization_conversion source
          (ax_logspace.index exp (ax_logspace.ctor log K_min K_max N_K) ik)
          (ax_linspace.index (ax_linspace.ctor 0 1 N_P) ip) = -1 := by
        unfold material.ionization_conversion
        simp only [hnf]
        rfl
      rw [hconv] at h
      exact h

end ionization_amended

section ionization_witness

theorem example_source_at_rounddown :
    array2D_ax.at_rounddown ax_list.ops ax_linspace.ops
      (example_ionization_source : array2D_ax (fp ℚ) (ax_list ℝ) (ax_linspace ℝ))
      (ax_logspace.index Real.exp (ax_logspace.ctor Real.log 1 2 2) 0)
      (ax_linspace.index (ax_linspace.ctor 0 1 2) 0) = fp.inf false := by
  have hK : ax_logspace.index Real.exp (ax_logspace.ctor Real.log 1 2 2) 0 = 1 := by
    simp [ax_logspace.index, ax_logspace.ctor]
  have hP : ax_linspace.index (ax_linspace.ctor (0 : ℝ) 1 2) 0 = 0 := by
    simp [ax_linspace.index, ax_linspace.ctor]
  have hs1 : size_sub 2 1 = 1 := by decide
  have hs0 : size_sub 1 1 = 0 := by decide
  rw [hK, hP]
  have hfx : ax_list.find (⟨[1, 2]⟩ : ax_list ℝ) 1 = 0 := by
    have hlb : lower_bound ([1, 2] : List ℝ) 1 = 0 := by simp [lower_bound]
    have hh : ax_list.high_index (⟨[1, 2]⟩ : ax_list ℝ) 1 = 1 := by
      simp [ax_list.high_index, hlb, ax_list.size, hs1, _clamp]
    unfold ax_list.find
    simp only [hh, hs0]
    simp [ax_list.index, vec_at]
    norm_num
  have hrx : array2D_ax.rounded_x ax_list.ops
      (example_ionization_source : array2D_ax (fp ℚ) (ax_list ℝ) (ax_linspace ℝ)) 1 = 0 := by
    unfold array2D_ax.rounded_x
    simp only [ax_list.ops, example_ionization_source, hfx]
    exact to_size_t_clamp (Nat.zero_le _) (by simp) (fun _ => by simp)
  have hfy : ax_linspace.find (ax_linspace.ctor (0 : ℝ) 1 2) 0 = 0 := by
    simp [ax_linspace.find, ax_linspace.ctor]
  have hry : array2D_ax.rounded_y ax_linspace.ops
      (example_ionization_source : array2D_ax (fp ℚ) (ax_list ℝ) (ax_linspace ℝ)) 0 = 0 := by
    unfold array2D_ax.rounded_y
    simp only [ax_linspace.ops, example_ionization_source, hfy]
    exact to_size_t_clamp (Nat.zero_le _) (by simp) (fun _ => by simp)
  have h0 : array2D_ax.position ax_linspace.ops
      (example_ionization_source : array2D_ax (fp ℚ) (ax_list ℝ) (ax_linspace ℝ)) 0 0 = 0 := by
    simp [array2D_ax.position, size_mul, size_add]
  unfold array2D_ax.at_rounddown array2D_ax.call
  rw [hrx, hry, h0]
  simp [vec_at, example_ionization_source]

/-- Witness of C8, amended: `get(1, 0)` on the table whose first node stores
`+∞` returns the value stored at `(0, 0)`; and the table that
`get_ionization_icdf` builds on `2 × 2` nodes from the source whose first node
stores `+∞` holds `-1` at `(0, 0)`. -/
theorem ionization_get_stored_witness :
    ionization_table.get Real.exp Real.log (example_ionization Real.log) 1 0
      = some (array2D_ax.call ax_linspace.ops (example_ionization Real.log).base
          (min ⌊ax_logspace.find Real.log (example_ionization Real.log).base._x_axis 1⌋₊
            (size_sub (array2D_ax.width (ax_logspace.ops Real.exp Real.log)
              (example_ionization Real.log).base) 1))
          (min ⌊ax_linspace.find (example_ionization Real.log).base._y_axis 0⌋₊
            (size_sub (array2D_ax.height ax_linspace.ops
              (example_ionization Real.log).base) 1))) ∧
    ∃ built, material.get_ionization_icdf Real.exp Real.log
        (example_ionization_source : array2D_ax (fp ℚ) (ax_list ℝ) (ax_linspace ℝ)) 1 2 2 2
          = some (Except.ok built) ∧
      built.base._data[array2D_ax.position ax_linspace.ops built.base 0 0]? = some (-1) :=
  have h := ionization_get_stored Real.exp Real.log (example_ionization Real.log) 1 0
  ⟨h.1 (le_of_eq example_ionization_find_x.symm)
      (by rw [example_ionization_find_x]; norm_num [SIZE_T_MOD])
      (le_of_eq example_ionization_find_y.symm)
      (by rw [example_ionization_find_y]; norm_num [SIZE_T_MOD]),
    (h.2 example_ionization_source 1 2 2 2 (by decide)).imp
      (fun _ hb => ⟨hb.1, hb.2 0 0 (by decide) (by decide)
        (by rw [example_source_at_rounddown]; rfl)⟩)⟩

end ionization_witness

section linspace_claims
variable {α : Type} [LinearOrderedField α]

/-- C13: on the uniform-linear axis built from `(low, high, N)` with `N ≥ 2`,
`value(i) = low + i*(high - low)/(N - 1)` for every `i`, so that `value(0) = low`
and `value(N - 1) = high`. -/
theorem ax_linspace_value (low high : α) (N : Nat) (hN : 2 ≤ N) (hM : N < SIZE_T_MOD) :
    (∀ i : Nat, (ax_linspace.ctor low high N).index i
        = low + (i : α) * (high - low) / (((N : α)) - 1)) ∧
    (ax_linspace.ctor low high N).index 0 = low ∧
    (ax_linspace.ctor low high N).index (N - 1) = high := by
  have hsub : size_sub N 1 = N - 1 := size_sub_of_le (by omega) hM
  have hcast : ((N - 1 : Nat) : α) = (N : α) - 1 := by
    rw [Nat.cast_sub (by omega)]
    simp
  have hpos : (0 : α) < (N : α) - 1 := by
    rw [← hcast]
    exact_mod_cast (by omega : 0 < N - 1)
  have hne : (N : α) - 1 ≠ 0 := ne_of_gt hpos
  unfold ax_linspace.index ax_linspace.ctor
  simp only [hsub, hcast]
  refine ⟨?_, ?_, ?_⟩
  · intro i
    ring
  · simp
  · rw [div_mul_cancel₀ _ hne]
    ring

/-- Witness of C13: the axis `(0, 10, 11)` has `value(5) = 5`, `value(0) = 0` and
`value(10) = 10`. -/
theorem ax_linspace_value_witness :
    (ax_linspace.ctor (0 : ℚ) 10 11).index 5 = 5 ∧
    (ax_linspace.ctor (0 : ℚ) 10 11).index 0 = 0 ∧
    (ax_linspace.ctor (0 : ℚ) 10 11).index (11 - 1) = 10 := by
  have h := ax_linspace_value (0 : ℚ) 10 11 (by decide) (by decide)
  refine ⟨?_, h.2.1, h.2.2⟩
  rw [h.1 5]
  norm_num

end linspace_claims

section logspace_claims

/-- The fields of a logarithmic axis built over the reals from positive bounds
and at least two points. -/
theorem ax_logspace.ctor_fields (low high : ℝ) (N : Nat) (hN : 2 ≤ N) (hM : N < SIZE_T_MOD) :
    (ax_logspace.ctor Real.log low high N)._llow = Real.log low ∧
    (ax_logspace.ctor Real.log low high N)._lstep = Real.log (high / low) / ((N : ℝ) - 1) ∧
    (0 : ℝ) < (N : ℝ) - 1 := by
  have hsub : size_sub N 1 = N - 1 := size_sub_of_le (by omega) hM
  have hcast : ((N - 1 : Nat) : ℝ) = (N : ℝ) - 1 := by
    rw [Nat.cast_sub (by omega)]
    simp
  refine ⟨rfl, ?_, ?_⟩
  · unfold ax_logspace.ctor
    simp only [hsub, hcast]
  · rw [← hcast]
    exact_mod_cast (by omega : 0 < N - 1)

/-- C15: on the uniform-logarithmic axis built from `(low, high, N)` with
`0 < low`, `0 < high` and `N ≥ 2`, `value(i) = low * (high/low)^(i/(N - 1))` for
every `i`, so that `value(0) = low` and `value(N - 1) = high`. -/
theorem ax_logspace_value (low high : ℝ) (N : Nat) (hlow : 0 < low) (hhigh : 0 < high)
    (hN : 2 ≤ N) (hM : N < SIZE_T_MOD) :
    (∀ i : Nat, ax_logspace.index Real.exp (ax_logspace.ctor Real.log low high N) i
        = low * (high / low) ^ ((i : ℝ) / ((N : ℝ) - 1))) ∧
    ax_logspace.index Real.exp (ax_logspace.ctor Real.log low high N) 0 = low ∧
    ax_logspace.index Real.exp (ax_logspace.ctor Real.log low high N) (N - 1) = high := by
  obtain ⟨h1, h2, hpos⟩ := ax_logspace.ctor_fields low high N hN hM
  have hr : 0 < high / low := div_pos hhigh hlow
  have hne : (N : ℝ) - 1 ≠ 0 := ne_of_gt hpos
  have hcast : ((N - 1 : Nat) : ℝ) = (N : ℝ) - 1 := by
    rw [Nat.cast_sub (by omega)]
    simp
  unfold ax_logspace.index
  rw [h1, h2]
  refine ⟨?_, ?_, ?_⟩
  · intro i
    rw [Real.exp_add, Real.exp_log hlow, Real.rpow_def_of_pos hr]
    congr 2
    field_simp
  · simp [Real.exp_log hlow]
  · rw [hcast, div_mul_cancel₀ _ hne, Real.exp_add, Real.exp_log hlow, Real.exp_log hr]
    field_simp

/-- Witness of C15: the axis `(1, 100, 3)` has the values `1`, `10` and `100`. -/
theorem ax_logspace_value_witness :
    ax_logspace.index Real.exp (ax_logspace.ctor Real.log 1 100 3) 0 = 1 ∧
    ax_logspace.index Real.exp (ax_logspace.ctor Real.log 1 100 3) 1 = 10 ∧
    ax_logspace.index Real.exp (ax_logspace.ctor Real.log 1 100 3) (3 - 1) = 100 := by
  have h := ax_logspace_value 1 100 3 (by norm_num) (by norm_num) (by decide) (by decide)
  refine ⟨h.2.1, ?_, h.2.2⟩
  rw [h.1 1]
  have h100 : (100 : ℝ) / 1 = (10 : ℝ) ^ (2 : ℝ) := by norm_num
  rw [h100, ← Real.rpow_mul (by norm_num)]
  norm_num

/-- C16: on the uniform-logarithmic axis built from `(low, high, N)` with
`0 < low`, `0 < high`, `low ≠ high` and `N ≥ 2`, `find(value(i)) = i` for every
index `i`, and `exp(log_low + log_step * find(x)) = x` for every `x > 0`. -/
theorem ax_logspace_find (low high : ℝ) (N : Nat) (hlow : 0 < low) (hhigh : 0 < high)
    (hne : low ≠ high) (hN : 2 ≤ N) (hM : N < SIZE_T_MOD) :
    (∀ i : Nat, ax_logspace.find Real.log (ax_logspace.ctor Real.log low high N)
        (ax_logspace.index Real.exp (ax_logspace.ctor Real.log low high N) i) = (i : ℝ)) ∧
    (∀ x : ℝ, 0 < x →
      Real.exp ((ax_logspace.ctor Real.log low high N)._llow
        + (ax_logspace.ctor Real.log low high N)._lstep
          * ax_logspace.find Real.log (ax_logspace.ctor Real.log low high N) x) = x) := by
  obtain ⟨_, h2, hpos⟩ := ax_logspace.ctor_fields low high N hN hM
  have hr : 0 < high / low := div_pos hhigh hlow
  have hr1 : high / low ≠ 1 := by
    intro h
    rw [div_eq_one_iff_eq (ne_of_gt hlow)] at h
    exact hne h.symm
  have hlog : Real.log (high / low) ≠ 0 := Real.log_ne_zero_of_pos_of_ne_one hr hr1
  have hstep : (ax_logspace.ctor Real.log low high N)._lstep ≠ 0 := by
    rw [h2]
    exact div_ne_zero hlog (ne_of_gt hpos)
  unfold ax_logspace.find ax_logspace.index
  generalize (ax_logspace.ctor Real.log low high N)._lstep = s at hstep
  generalize (ax_logspace.ctor Real.log low high N)._llow = a
  constructor
  · intro i
    rw [Real.log_exp]
    field_simp
  · intro x hx
    rw [mul_div_cancel₀ _ hstep]
    rw [add_sub_cancel, Real.exp_log hx]

/-- Witness of C16: the axis `(1, 100, 3)`, at index `1` and at `x = 5`. -/
theorem ax_logspace_find_witness :
    ax_logspace.find Real.log (ax_logspace.ctor Real.log 1 100 3)
        (ax_logspace.index Real.exp (ax_logspace.ctor Real.log 1 100 3) 1) = ((1 : Nat) : ℝ) ∧
    Real.exp ((ax_logspace.ctor Real.log 1 100 3)._llow
        + (ax_logspace.ctor Real.log 1 100 3)._lstep
          * ax_logspace.find Real.log (ax_logspace.ctor Real.log 1 100 3) 5) = 5 :=
  have h := ax_logspace_find 1 100 3 (by norm_num) (by norm_num) (by norm_num) (by decide)
    (by decide)
  ⟨h.1 1, h.2 5 (by norm_num)⟩

end logspace_claims

section lookup_safety
variable {α β A Ax Ay : Type} [LinearOrderedField α] [FloorRing α]

theorem size_add_le (a b : Nat) : size_add a b ≤ a + b := Nat.mod_le _ _

theorem size_mul_le (a b : Nat) : size_mul a b ≤ a * b := Nat.mod_le _ _

/-- The position of a cell inside the grid is below `width*height`. -/
theorem array2D_ax.position_lt {α β Ax Ay : Type} (ay : axis_ops Ay α)
    (t : array2D_ax β Ax Ay) {w x y : Nat}
    (hx : x < w) (hy : y < array2D_ax.height ay t) :
    array2D_ax.position ay t x y < w * array2D_ax.height ay t := by
  unfold array2D_ax.position
  have h1 := size_add_le (size_mul x (array2D_ax.height ay t)) y
  have h2 := size_mul_le x (array2D_ax.height ay t)
  have h3 := mul_add_lt_mul hx hy
  omega

/-- The clamped, truncated index is at most the upper clamp bound `N - k` when
the conversion of the two bounds to the floating-point type is exact. -/
theorem clamped_index_rnd_le (rnd : α → α) (ti : α) (N k : Nat) (hk : k ≤ N) (h0 : 0 < N)
    (hM : N < SIZE_T_MOD) (hr : ∀ n : Nat, n < N → rnd (n : α) = n) (hk0 : 0 < k) :
    to_size_t (_clamp ti (rnd 0) (rnd ((size_sub N k : Nat) : α))) ≤ N - k := by
  have e := size_sub_of_le hk hM
  have h1 : rnd 0 = 0 := by
    have := hr 0 h0
    simpa using this
  have h2 : rnd ((size_sub N k : Nat) : α) = ((N - k : Nat) : α) := by
    rw [e]
    exact hr (N - k) (by omega)
  rw [h1, h2]
  exact to_size_t_clamp_le ti (N - k)

theorem example_large_size :
    array1D_ax.size (ax_linspace.ops_rnd (fl_round 24)) example_large_table = 16777221 := by
  unfold array1D_ax.size
  rw [show example_large_table._x_axis = ⟨0, 1, 16777221⟩ from example_large_ctor]
  rfl

/-- Counterexample to C17 as stated, in two parts.  In `float` arithmetic, the
1-D table of `N = 2 ^ 24 + 5` values over the linear axis `(0, 16777220, N)` is
one the constructor accepts; the bound `N - 2 = 16777219` of the clamp is
converted to `float`, which is `16777220 = N - 1`, so at the query `2 ^ 25` the
index `low_index` is `N - 1` and the second position `low_index + 1` read by
`at_linear` is `N`, outside the buffer.  And the 2-D table over two axes of
`2 ^ 32` points with an empty buffer is one the constructor accepts; the
position read by `at_rounddown(0, 0)` is `0`, which is not inside the empty
buffer. -/
theorem low_index_rounds_past_end :
    2 ≤ array1D_ax.size (ax_linspace.ops_rnd (fl_round 24)) example_large_table ∧
    array1D_ax.ctor (ax_linspace.ops_rnd (fl_round 24)) example_large_table._x_axis
      example_large_table._data = Except.ok example_large_table ∧
    example_large_table._data.length = 16777221 ∧
    fl_round 24 (16777219 : ℚ) = 16777220 ∧
    array1D_ax.low_index_rnd (fl_round 24) (ax_linspace.ops_rnd (fl_round 24))
      example_large_table (2 ^ 25) = 16777220 ∧
    size_add (array1D_ax.low_index_rnd (fl_round 24) (ax_linspace.ops_rnd (fl_round 24))
      example_large_table (2 ^ 25)) 1 = example_large_table._data.length ∧
    ¬ (size_add (array1D_ax.low_index_rnd (fl_round 24) (ax_linspace.ops_rnd (fl_round 24))
        example_large_table (2 ^ 25)) 1
      ≤ array1D_ax.size (ax_linspace.ops_rnd (fl_round 24)) example_large_table - 1) ∧
    array2D_ax.ctor ax_linspace.ops ax_linspace.ops (ax_linspace.ctor (0 : ℚ) 1 4294967296)
        (ax_linspace.ctor (0 : ℚ) 1 4294967296) ([] : List ℚ)
      = Except.ok ⟨ax_linspace.ctor 0 1 4294967296, ax_linspace.ctor 0 1 4294967296, []⟩ ∧
    ¬ (array2D_ax.position ax_linspace.ops
        (⟨ax_linspace.ctor (0 : ℚ) 1 4294967296, ax_linspace.ctor (0 : ℚ) 1 4294967296, []⟩ :
          array2D_ax ℚ (ax_linspace ℚ) (ax_linspace ℚ))
        (array2D_ax.rounded_x ax_linspace.ops
          (⟨ax_linspace.ctor (0 : ℚ) 1 4294967296, ax_linspace.ctor (0 : ℚ) 1 4294967296, []⟩ :
            array2D_ax ℚ (ax_linspace ℚ) (ax_linspace ℚ)) 0)
        (array2D_ax.rounded_y ax_linspace.ops
          (⟨ax_linspace.ctor (0 : ℚ) 1 4294967296, ax_linspace.ctor (0 : ℚ) 1 4294967296, []⟩ :
            array2D_ax ℚ (ax_linspace ℚ) (ax_linspace ℚ)) 0)
      < ([] : List ℚ).length) := by
  have hlen : example_large_table._data.length = 16777221 := List.length_replicate _ _
  have hlow := example_large_low_index
  have hadd : size_add 16777220 1 = 16777221 := by decide
  refine ⟨?_, ?_, hlen, fl_round_24_odd, hlow, ?_, ?_, ?_, ?_⟩
  · rw [example_large_size]
    decide
  · unfold array1D_ax.ctor
    rw [hlen]
    have hsz := example_large_size
    unfold array1D_ax.size at hsz
    rw [hsz]
    rfl
  · rw [hlow, hadd, hlen]
  · rw [hlow, hadd, example_large_size]
    decide
  · simp [array2D_ax.ctor, ax_linspace.ops, ax_linspace.ctor, ax_linspace.size, size_mul,
      SIZE_T_MOD]
  · exact Nat.not_lt_zero _

/-- C17, amended: lookups read inside the buffer when the conversion of the
clamp bounds to the floating-point type of the table is exact and the product
`width*height` fits `size_t`.  Let `rnd` be the rounding of the floating-point
type.  On a 1-D table with `N ≥ 2` points such that `rnd` leaves every natural
number below `N` unchanged, the positions `low_index` and `low_index + 1` read
by `at_linear` and the position read by `at_rounddown` are below `N`, for every
`x`.  On a 2-D table whose axes both have at least two points, such that `rnd`
leaves every natural number below the width and below the height unchanged and
`width*height` is below `2 ^ 64`, the four corner positions read by `at_linear`
and the position read by `at_rounddown` are below `size() = width*height`, for
every `(x, y)`.  The rounding to `p` significand bits leaves every natural
number below `2 ^ p` unchanged. -/
theorem lookup_positions_in_bounds {γ : Type} (rnd : α → α) (ax : axis_ops A α)
    (t : array1D_ax β A) (ax2 : axis_ops Ax α) (ay2 : axis_ops Ay α)
    (t2 : array2D_ax γ Ax Ay) (x y : α) :
    (2 ≤ array1D_ax.size ax t → array1D_ax.size ax t < SIZE_T_MOD →
      (∀ n : Nat, n < array1D_ax.size ax t → rnd (n : α) = n) →
      array1D_ax.low_index_rnd rnd ax t x < array1D_ax.size ax t ∧
      size_add (array1D_ax.low_index_rnd rnd ax t x) 1 < array1D_ax.size ax t ∧
      array1D_ax.rounded_index_rnd rnd ax t x < array1D_ax.size ax t) ∧
    (2 ≤ array2D_ax.width ax2 t2 → 2 ≤ array2D_ax.height ay2 t2 →
      array2D_ax.width ax2 t2 * array2D_ax.height ay2 t2 < SIZE_T_MOD →
      (∀ n : Nat, n < array2D_ax.width ax2 t2 → rnd (n : α) = n) →
      (∀ n : Nat, n < array2D_ax.height ay2 t2 → rnd (n : α) = n) →
      array2D_ax.size ax2 ay2 t2 = array2D_ax.width ax2 t2 * array2D_ax.height ay2 t2 ∧
      array2D_ax.position ay2 t2 (array2D_ax.low_x_rnd rnd ax2 t2 x)
          (array2D_ax.low_y_rnd rnd ay2 t2 y)
        < array2D_ax.size ax2 ay2 t2 ∧
      array2D_ax.position ay2 t2 (size_add (array2D_ax.low_x_rnd rnd ax2 t2 x) 1)
          (array2D_ax.low_y_rnd rnd ay2 t2 y)
        < array2D_ax.size ax2 ay2 t2 ∧
      array2D_ax.position ay2 t2 (array2D_ax.low_x_rnd rnd ax2 t2 x)
          (size_add (array2D_ax.low_y_rnd rnd ay2 t2 y) 1)
        < array2D_ax.size ax2 ay2 t2 ∧
      array2D_ax.position ay2 t2 (size_add (array2D_ax.low_x_rnd rnd ax2 t2 x) 1)
          (size_add (array2D_ax.low_y_rnd rnd ay2 t2 y) 1)
        < array2D_ax.size ax2 ay2 t2 ∧
      array2D_ax.position ay2 t2 (array2D_ax.rounded_x_rnd rnd ax2 t2 x)
          (array2D_ax.rounded_y_rnd rnd ay2 t2 y)
        < array2D_ax.size ax2 ay2 t2) ∧
    (∀ p n : Nat, n < 2 ^ p → fl_round p (n : α) = n) := by
  refine ⟨?_, ?_, fun p n hn => fl_round_natCast p n hn⟩
  · intro hN hM hr
    have h1 : array1D_ax.low_index_rnd rnd ax t x ≤ array1D_ax.size ax t - 2 :=
      clamped_index_rnd_le rnd _ (array1D_ax.size ax t) 2 hN (by omega) hM hr (by decide)
    have h2 : array1D_ax.rounded_index_rnd rnd ax t x ≤ array1D_ax.size ax t - 1 :=
      clamped_index_rnd_le rnd _ (array1D_ax.size ax t) 1 (by omega) (by omega) hM hr
        (by decide)
    have h3 := size_add_le (array1D_ax.low_index_rnd rnd ax t x) 1
    refine ⟨?_, ?_, ?_⟩ <;> omega
  · intro hw hh hfit hrw hrh
    have hwM : array2D_ax.width ax2 t2 < SIZE_T_MOD := by nlinarith
    have hhM : array2D_ax.height ay2 t2 < SIZE_T_MOD := by nlinarith
    have hsize : array2D_ax.size ax2 ay2 t2
        = array2D_ax.width ax2 t2 * array2D_ax.height ay2 t2 := size_mul_of_lt hfit
    have hx : array2D_ax.low_x_rnd rnd ax2 t2 x ≤ array2D_ax.width ax2 t2 - 2 :=
      clamped_index_rnd_le rnd _ (array2D_ax.width ax2 t2) 2 hw (by omega) hwM hrw (by decide)
    have hy : array2D_ax.low_y_rnd rnd ay2 t2 y ≤ array2D_ax.height ay2 t2 - 2 :=
      clamped_index_rnd_le rnd _ (array2D_ax.height ay2 t2) 2 hh (by omega) hhM hrh (by decide)
    have hrx : array2D_ax.rounded_x_rnd rnd ax2 t2 x ≤ array2D_ax.width ax2 t2 - 1 :=
      clamped_index_rnd_le rnd _ (array2D_ax.width ax2 t2) 1 (by omega) (by omega) hwM hrw
        (by decide)
    have hry : array2D_ax.rounded_y_rnd rnd ay2 t2 y ≤ array2D_ax.height ay2 t2 - 1 :=
      clamped_index_rnd_le rnd _ (array2D_ax.height ay2 t2) 1 (by omega) (by omega) hhM hrh
        (by decide)
    have hx1 := size_add_le (array2D_ax.low_x_rnd rnd ax2 t2 x) 1
    have hy1 := size_add_le (array2D_ax.low_y_rnd rnd ay2 t2 y) 1
    rw [hsize]
    refine ⟨rfl, ?_, ?_, ?_, ?_, ?_⟩ <;>
      exact array2D_ax.position_lt ay2 t2 (by omega) (by omega)

/-- Witness of C17, amended: in `float` arithmetic, the 1-D table over the axis
`1, 2, 4` and the 2-D table over the axes `1, 2` and `(0, 1, 2)`, queried far
outside their ranges. -/
theorem lookup_positions_in_bounds_witness :
    (array1D_ax.low_index_rnd (fl_round 24) ax_list.ops example_table 1000 < 3 ∧
      size_add (array1D_ax.low_index_rnd (fl_round 24) ax_list.ops example_table 1000) 1 < 3 ∧
      array1D_ax.rounded_index_rnd (fl_round 24) ax_list.ops example_table 1000 < 3) ∧
    array2D_ax.position ax_linspace.ops
        (example_ionization_source : array2D_ax (fp ℚ) (ax_list ℚ) (ax_linspace ℚ))
        (size_add (array2D_ax.low_x_rnd (fl_round 24) ax_list.ops
          (example_ionization_source : array2D_ax (fp ℚ) (ax_list ℚ) (ax_linspace ℚ)) (-7)) 1)
        (size_add (array2D_ax.low_y_rnd (fl_round 24) ax_linspace.ops
          (example_ionization_source : array2D_ax (fp ℚ) (ax_list ℚ) (ax_linspace ℚ)) 9) 1)
      < array2D_ax.size ax_list.ops ax_linspace.ops
        (example_ionization_source : array2D_ax (fp ℚ) (ax_list ℚ) (ax_linspace ℚ)) :=
  have h := lookup_positions_in_bounds (fl_round 24) ax_list.ops example_table ax_list.ops
    ax_linspace.ops
    (example_ionization_source : array2D_ax (fp ℚ) (ax_list ℚ) (ax_linspace ℚ)) 1000 9
  have h2 := lookup_positions_in_bounds (fl_round 24) ax_list.ops example_table ax_list.ops
    ax_linspace.ops
    (example_ionization_source : array2D_ax (fp ℚ) (ax_list ℚ) (ax_linspace ℚ)) (-7) 9
  have hr : ∀ m n : Nat, m ≤ 3 → n < m → fl_round 24 (n : ℚ) = n := fun m n hm hn =>
    fl_round_natCast 24 n (lt_of_lt_of_le hn (le_trans hm (by norm_num)))
  ⟨h.1 (by decide) (by decide) (hr 3 · (by decide)),
    (h2.2.1 (by decide) (by decide) (by decide) (hr 2 · (by decide))
      (hr 2 · (by decide))).2.2.2.2.1⟩

end lookup_safety

section parser_lemmas
open unit_parser_t

theorem unit_parser_t.read_until_length (stop : Char → Bool) (l : List Char) :
    (read_until stop l).2.length ≤ l.length := by
  induction l with
  | nil => simp [read_until]
  | cons a l ih =>
    unfold read_until
    split
    · simp
    · simp only [List.length_cons]
      omega

theorem unit_parser_t.read_until_cons_of_stop {stop : Char → Bool} {c : Char} (rest : List Char)
    (h : stop c = true) : read_until stop (c :: rest) = ([], c :: rest) := by
  rw [read_until]
  simp [h]

theorem unit_parser_t.read_until_cons_of_not {stop : Char → Bool} {c : Char} (rest : List Char)
    (h : ¬ stop c = true) :
    read_until stop (c :: rest) = (c :: (read_until stop rest).1, (read_until stop rest).2) := by
  rw [read_until]
  simp [h]

/-- The position after the name of a unit. -/
theorem unit_parser_t.name_end_lt (c : Char) (rest : List Char)
    (h : ¬ at_power (read_until (fun c => is_power c || is_new_unit c)
      (if is_new_unit c then rest else c :: rest)).2 = true) :
    (read_until (fun c => is_power c || is_new_unit c)
      (if is_new_unit c then rest else c :: rest)).2.length < (c :: rest).length := by
  have hname := read_until_length (fun c => is_power c || is_new_unit c)
    (if is_new_unit c then rest else c :: rest)
  by_cases hc : is_new_unit c = true
  · simp only [hc, if_true, List.length_cons] at hname ⊢
    omega
  · simp only [hc, Bool.false_eq_true, if_false] at hname h ⊢
    by_cases hp : is_power c = true
    · exfalso
      apply h
      rw [read_until_cons_of_stop rest (by simp [hp])]
      simp [at_power, hp]
    · rw [read_until_cons_of_not rest (by simp [hp, hc])]
      have := read_until_length (fun c => is_power c || is_new_unit c) rest
      simp only [List.length_cons]
      omega

/-- The position after the power of a unit. -/
theorem unit_parser_t.exponent_end_lt (c : Char) (rest : List Char)
    (h : at_power (read_until (fun c => is_power c || is_new_unit c)
      (if is_new_unit c then rest else c :: rest)).2 = true) :
    (read_until is_new_unit (read_until (fun c => is_power c || is_new_unit c)
      (if is_new_unit c then rest else c :: rest)).2.tail).2.length < (c :: rest).length := by
  have hname := read_until_length (fun c => is_power c || is_new_unit c)
    (if is_new_unit c then rest else c :: rest)
  have hafter : (if is_new_unit c then rest else c :: rest).length ≤ rest.length + 1 := by
    split <;> simp
  have h2 := read_until_length is_new_unit
    (read_until (fun c => is_power c || is_new_unit c)
      (if is_new_unit c then rest else c :: rest)).2.tail
  generalize (read_until (fun c => is_power c || is_new_unit c)
    (if is_new_unit c then rest else c :: rest)).2 = q at h h2 hname
  cases q with
  | nil => simp [at_power] at h
  | cons a q =>
    simp only [List.tail_cons, List.length_cons] at h2 hname ⊢
    omega

end parser_lemmas

section parser_refinement
open unit_parser_t
variable {α : Type} [DivisionRing α]

/-- The loop of `parse_unit` is the look-up, conversion and product of the units
it reads, one after the other, up to the first exception. -/
theorem unit_parser_t.parse_unit_loop_eq (p : unit_parser_t α) :
    ∀ (n : Nat) (current : List Char) (final_unit : quantity α), current.length = n →
      parse_unit_loop p final_unit current
        = (unit_items current).foldlM (apply_item p) final_unit := by
  intro n
  induction n using Nat.strong_induction_on with
  | _ n ih =>
    intro current final_unit hlen
    cases current with
    | nil =>
      rw [parse_unit_loop, unit_items]
      rfl
    | cons c rest =>
      rw [parse_unit_loop, unit_items]
      simp only
      have hex := exponent_end_lt c rest
      have hnm := name_end_lt c rest
      generalize (if (c == '/') = true then (-1 : Int) else 1) = power
      generalize read_until (fun c => is_power c || is_new_unit c)
        (if is_new_unit c = true then rest else c :: rest) = name at hex hnm
      by_cases hpow : at_power name.2 = true
      · simp only [dif_pos hpow, List.foldlM_cons, apply_item]
        cases p.find (String.mk name.1) with
        | none => rfl
        | some this_unit =>
          simp only
          cases stoi (read_until is_new_unit name.2.tail).1 with
          | error e => rfl
          | ok k =>
            simp only
            rw [ih _ (by rw [← hlen]; exact hex hpow) _ _ rfl]
            rfl
      · simp only [dif_neg hpow, List.foldlM_cons, apply_item]
        cases p.find (String.mk name.1) with
        | none => rfl
        | some this_unit =>
          simp only
          rw [ih _ (by rw [← hlen]; exact hnm hpow) _ _ rfl]
          rfl

end parser_refinement

section parser_claims
open unit_parser_t
variable {α : Type} [DivisionRing α]

/-- When every power converts, the units read are either all registered, and
the products succeed, or the first one that is not registered is reported. -/
theorem unit_parser_t.foldlM_apply_item (p : unit_parser_t α) (items : List unit_item)
    (hexp : ∀ item ∈ items, ∀ text, item.exponent = some text → ∃ n, stoi text = Except.ok n) :
    ∀ final_unit : quantity α,
      (∃ q, items.foldlM (apply_item p) final_unit = Except.ok q ∧
        ∀ item ∈ items, p.find (String.mk item.name) ≠ none) ∨
      (∃ item ∈ items, p.find (String.mk item.name) = none ∧
        items.foldlM (apply_item p) final_unit
          = Except.error (exception.runtime_error
              ("Unknown unit '" ++ String.mk item.name ++ "'."))) := by
  induction items with
  | nil =>
    intro final_unit
    exact Or.inl ⟨final_unit, rfl, by simp⟩
  | cons item items ih =>
    intro final_unit
    have hexp' : ∀ item ∈ items, ∀ text, item.exponent = some text →
        ∃ n, stoi text = Except.ok n :=
      fun it hit => hexp it (List.mem_cons_of_mem _ hit)
    cases hfind : p.find (String.mk item.name) with
    | none =>
      refine Or.inr ⟨item, List.mem_cons_self _ _, hfind, ?_⟩
      simp only [List.foldlM_cons, apply_item, hfind]
      rfl
    | some this_unit =>
      have hstep : ∃ q, apply_item p final_unit item = Except.ok q := by
        unfold apply_item
        simp only [hfind]
        cases hex : item.exponent with
        | none => exact ⟨_, rfl⟩
        | some text =>
          obtain ⟨n, hn⟩ := hexp item (List.mem_cons_self _ _) text hex
          simp only [hn]
          exact ⟨_, rfl⟩
      obtain ⟨q, hq⟩ := hstep
      have hfold : (item :: items).foldlM (apply_item p) final_unit
          = items.foldlM (apply_item p) q := by
        simp only [List.foldlM_cons, hq]
        rfl
      rw [hfold]
      rcases ih hexp' q with ⟨r, hr, hall⟩ | ⟨it, hit, hnone, herr⟩
      · refine Or.inl ⟨r, hr, ?_⟩
        intro it hit
        rcases List.mem_cons.mp hit with h | h
        · rw [h, hfind]
          simp
        · exact hall it h
      · exact Or.inr ⟨it, List.mem_cons_of_mem _ hit, hnone, herr⟩

theorem unit_parser_t.read_until_fst (stop : Char → Bool) (l : List Char) :
    ∀ ch ∈ (read_until stop l).1, stop ch = false := by
  induction l with
  | nil => simp [read_until]
  | cons a l ih =>
    by_cases h : stop a = true
    · rw [read_until_cons_of_stop l h]
      simp
    · rw [read_until_cons_of_not l h]
      intro ch hch
      rcases List.mem_cons.mp hch with h1 | h1
      · rw [h1]
        simpa using h
      · exact ih ch h1

/-- No name that the loop reads holds one of the characters `*`, `/`, `^`. -/
theorem unit_parser_t.unit_items_name :
    ∀ (n : Nat) (current : List Char), current.length = n →
      ∀ item ∈ unit_items current, ∀ ch ∈ item.name,
        (is_power ch || is_new_unit ch) = false := by
  intro n
  induction n using Nat.strong_induction_on with
  | _ n ih =>
    intro current hlen
    cases current with
    | nil =>
      rw [unit_items]
      simp
    | cons c rest =>
      rw [unit_items]
      simp only
      have hex := exponent_end_lt c rest
      have hnm := name_end_lt c rest
      have hfst := read_until_fst (fun c => is_power c || is_new_unit c)
        (if is_new_unit c = true then rest else c :: rest)
      generalize (if (c == '/') = true then (-1 : Int) else 1) = power
      generalize read_until (fun c => is_power c || is_new_unit c)
        (if is_new_unit c = true then rest else c :: rest) = name at hex hnm hfst
      by_cases hpow : at_power name.2 = true
      · simp only [dif_pos hpow]
        intro item hitem
        rcases List.mem_cons.mp hitem with h | h
        · rw [h]
          exact hfst
        · exact ih _ (by rw [← hlen]; exact hex hpow) _ rfl item h
      · simp only [dif_neg hpow]
        intro item hitem
        rcases List.mem_cons.mp hitem with h | h
        · rw [h]
          exact hfst
        · exact ih _ (by rw [← hlen]; exact hnm hpow) _ rfl item h

/-- C18: when every power in the string converts to an integer, `parse_unit(text)`
raises the unknown-unit error exactly when one of the unit names it reads from
`text` is not registered, and then the error reports such a name; when all are
registered it returns a quantity.  The names hold none of the separators `*`,
`/`, `^`.  The empty string holds no name and parses to the dimensionless
quantity `1`. -/
theorem parse_unit_unknown_unit (p : unit_parser_t α) (text : String)
    (hexp : ∀ item ∈ unit_items text.data, ∀ digits, item.exponent = some digits →
      ∃ n, stoi digits = Except.ok n) :
    ((∃ what, parse_unit p text = Except.error (exception.runtime_error what)) ↔
      ∃ item ∈ unit_items text.data, p.find (String.mk item.name) = none) ∧
    ((∃ item ∈ unit_items text.data, p.find (String.mk item.name) = none) →
      ∃ item ∈ unit_items text.data, p.find (String.mk item.name) = none ∧
        parse_unit p text = Except.error (exception.runtime_error
          ("Unknown unit '" ++ String.mk item.name ++ "'."))) ∧
    ((∀ item ∈ unit_items text.data, p.find (String.mk item.name) ≠ none) →
      ∃ q, parse_unit p text = Except.ok q) ∧
    (∀ item ∈ unit_items text.data, ∀ ch ∈ item.name, ch ≠ '*' ∧ ch ≠ '/' ∧ ch ≠ '^') ∧
    unit_items "".data = [] ∧
    parse_unit p "" = Except.ok ⟨1, dimensions.dimensionless⟩ := by
  have heq : parse_unit p text
      = (unit_items text.data).foldlM (apply_item p) ⟨1, dimensions.dimensionless⟩ :=
    parse_unit_loop_eq p _ _ _ rfl
  have hcases := foldlM_apply_item p (unit_items text.data) hexp ⟨1, dimensions.dimensionless⟩
  rw [← heq] at hcases
  have hback : (∃ item ∈ unit_items text.data, p.find (String.mk item.name) = none) →
      ∃ item ∈ unit_items text.data, p.find (String.mk item.name) = none ∧
        parse_unit p text = Except.error (exception.runtime_error
          ("Unknown unit '" ++ String.mk item.name ++ "'.")) := by
    rintro ⟨item, hitem, hnone⟩
    rcases hcases with ⟨q, _, hall⟩ | h
    · exact absurd hnone (hall item hitem)
    · exact h
  refine ⟨⟨?_, ?_⟩, hback, ?_, ?_, ?_, ?_⟩
  · rintro ⟨what, hwhat⟩
    rcases hcases with ⟨q, hq, _⟩ | ⟨item, hitem, hnone, _⟩
    · rw [hq] at hwhat
      cases hwhat
    · exact ⟨item, hitem, hnone⟩
  · intro h
    obtain ⟨item, _, _, herr⟩ := hback h
    exact ⟨_, herr⟩
  · intro hall
    rcases hcases with ⟨q, hq, _⟩ | ⟨item, hitem, hnone, _⟩
    · exact ⟨q, hq⟩
    · exact absurd hnone (hall item hitem)
  · intro item hitem ch hch
    have h := unit_items_name _ text.data rfl item hitem ch hch
    simp only [is_power, is_new_unit, Bool.or_eq_false_iff, beq_eq_false_iff_ne, ne_eq] at h
    exact ⟨h.2.1, h.2.2, h.1⟩
  · rw [show "".data = [] from rfl, unit_items]
  · unfold parse_unit
    rw [show "".data = [] from rfl, parse_unit_loop]

end parser_claims

section parser_examples
open unit_parser_t

theorem unit_items_g_cm3 :
    unit_items "g/cm^3".data
      = [⟨1, ['g'], none⟩, ⟨-1, ['c', 'm'], some ['3']⟩] := by
  rw [show "g/cm^3".data = ['g', '/', 'c', 'm', '^', '3'] from rfl]
  rw [unit_items]
  simp [read_until, at_power, is_power, is_new_unit]
  rw [unit_items]
  simp [read_until, at_power, is_power, is_new_unit]
  rw [unit_items]

theorem unit_items_kg : unit_items "kg".data = [⟨1, ['k', 'g'], none⟩] := by
  rw [show "kg".data = ['k', 'g'] from rfl]
  rw [unit_items]
  simp [read_until, at_power, is_power, is_new_unit]
  rw [unit_items]

theorem stoi_3 : stoi ['3'] = Except.ok 3 := by
  rfl

theorem default_find_g :
    (parser_with_default_units : unit_parser_t ℚ).find "g" = some units.g := by
  rfl

theorem default_find_cm :
    (parser_with_default_units : unit_parser_t ℚ).find "cm" = some units.cm := by
  rfl

theorem default_find_kg : (parser_with_default_units : unit_parser_t ℚ).find "kg" = none := by
  rfl

end parser_examples

section unit_string_claims
open unit_parser_t
variable {α : Type} [DivisionRing α]

/-- Reading stops exactly at the end of a run that holds no stop character and
is followed by the end or by a stop character. -/
theorem unit_parser_t.read_until_append (stop : Char → Bool) (a b : List Char)
    (ha : ∀ ch ∈ a, stop ch = false) (hb : ∀ ch ∈ b.head?, stop ch = true) :
    read_until stop (a ++ b) = (a, b) := by
  induction a with
  | nil =>
    cases b with
    | nil => simp [read_until]
    | cons c b =>
      have hc : stop c = true := hb c (by simp)
      simp only [List.nil_append]
      exact read_until_cons_of_stop b hc
  | cons c a ih =>
    have hc : ¬ stop c = true := by
      rw [ha c (List.mem_cons_self _ _)]
      simp
    rw [List.cons_append, read_until_cons_of_not _ hc,
      ih (fun ch hch => ha ch (List.mem_cons_of_mem _ hch))]

theorem unit_parser_t.is_power_of_is_new_unit {c : Char} (h : is_new_unit c = true) :
    is_power c = false := by
  simp only [is_new_unit, Bool.or_eq_true, beq_iff_eq] at h
  rcases h with h | h <;> rw [h] <;> rfl

/-- One turn of the loop on a unit without a power. -/
theorem unit_parser_t.unit_items_cons_none (c : Char) (rest name position : List Char)
    (hname : read_until (fun c => is_power c || is_new_unit c)
      (if is_new_unit c = true then rest else c :: rest) = (name, position))
    (hpos : at_power position = false) :
    unit_items (c :: rest)
      = ⟨if c == '/' then -1 else 1, name, none⟩ :: unit_items position := by
  rw [unit_items]
  simp only [hname]
  rw [dif_neg (by simp [hpos])]

/-- One turn of the loop on a unit with a power. -/
theorem unit_parser_t.unit_items_cons_some (c : Char) (rest name position digits next : List Char)
    (hname : read_until (fun c => is_power c || is_new_unit c)
      (if is_new_unit c = true then rest else c :: rest) = (name, position))
    (hpos : at_power position = true)
    (hdigits : read_until is_new_unit position.tail = (digits, next)) :
    unit_items (c :: rest)
      = ⟨if c == '/' then -1 else 1, name, some digits⟩ :: unit_items next := by
  rw [unit_items]
  simp only [hname]
  rw [dif_pos hpos]
  simp only [hdigits]

/-- A unit string that follows a factor is empty or starts with an operator. -/
theorem unit_string_head (p : unit_parser_t α) (fs : List (unit_factor α))
    (hwf : ∀ f ∈ fs, f.well_formed p) (hop : ∀ f ∈ fs, f.operator ≠ none) :
    ∀ ch ∈ (unit_string fs).head?, is_new_unit ch = true := by
  cases fs with
  | nil => simp [unit_string]
  | cons g gs =>
    have hg := hop g (List.mem_cons_self _ _)
    obtain ⟨hops, _⟩ := hwf g (List.mem_cons_self _ _)
    intro ch hch
    rcases hops with h | h | h
    · exact absurd h hg
    · simp only [unit_string, unit_factor.text, h, List.cons_append, List.nil_append,
        List.head?_cons, Option.mem_def, Option.some.injEq] at hch
      rw [← hch]
      rfl
    · simp only [unit_string, unit_factor.text, h, List.cons_append, List.nil_append,
        List.head?_cons, Option.mem_def, Option.some.injEq] at hch
      rw [← hch]
      rfl

/-- The loop of `parse_unit` reads a well-formed unit string factor by factor. -/
theorem unit_items_unit_string (p : unit_parser_t α) :
    ∀ fs : List (unit_factor α), (∀ f ∈ fs, f.well_formed p) →
      (∀ f ∈ fs.tail, f.operator ≠ none) →
      unit_items (unit_string fs) = fs.map unit_factor.item := by
  intro fs
  induction fs with
  | nil =>
    intro _ _
    rw [unit_string, unit_items]
    rfl
  | cons f fs ih =>
    intro hwf hsep
    have hwf' : ∀ g ∈ fs, g.well_formed p := fun g hg => hwf g (List.mem_cons_of_mem _ hg)
    have hsep' : ∀ g ∈ fs, g.operator ≠ none := fun g hg => hsep g (by simpa using hg)
    have hR := unit_string_head p fs hwf' hsep'
    have ih' := ih hwf' (fun g hg => hsep' g (List.mem_of_mem_tail hg))
    obtain ⟨hops, hne, hname, _, hexp⟩ := hwf f (List.mem_cons_self _ _)
    -- the part of the string after the name
    have hT : ∀ ch ∈ ((match f.exponent with
        | none => []
        | some digits => '^' :: digits.1) ++ unit_string fs).head?,
        (is_power ch || is_new_unit ch) = true := by
      intro ch hch
      cases hex : f.exponent with
      | none =>
        rw [hex] at hch
        simp only [List.nil_append] at hch
        rw [hR ch hch]
        simp
      | some digits =>
        rw [hex] at hch
        simp only [List.cons_append, List.head?_cons, Option.mem_def, Option.some.injEq] at hch
        rw [← hch]
        rfl
    have hread := read_until_append (fun c => is_power c || is_new_unit c) f.name _ hname hT
    -- the first character and what follows it
    have hfirst : ∃ c rest, unit_string (f :: fs) = c :: rest ∧
        (if is_new_unit c = true then rest else c :: rest)
          = f.name ++ ((match f.exponent with
            | none => []
            | some digits => '^' :: digits.1) ++ unit_string fs) ∧
        (if c == '/' then (-1 : Int) else 1) = f.sign := by
      rcases hops with h | h | h
      · cases hn : f.name with
        | nil => exact absurd hn hne
        | cons c name' =>
          have hc : is_new_unit c = false := by
            have := hname c (by rw [hn]; exact List.mem_cons_self _ _)
            simp only [Bool.or_eq_false_iff] at this
            exact this.2
          have hc' : (c == '/') = false := by
            simp only [is_new_unit, Bool.or_eq_false_iff] at hc
            exact hc.2
          refine ⟨c, name' ++ ((match f.exponent with
            | none => []
            | some digits => '^' :: digits.1) ++ unit_string fs), ?_, ?_, ?_⟩
          · simp [unit_string, unit_factor.text, h, hn]
          · simp [hc]
          · simp [unit_factor.sign, h, hc']
      · refine ⟨'*', f.name ++ ((match f.exponent with
            | none => []
            | some digits => '^' :: digits.1) ++ unit_string fs), ?_, ?_, ?_⟩
        · simp [unit_string, unit_factor.text, h]
        · rfl
        · simp [unit_factor.sign, h]
      · refine ⟨'/', f.name ++ ((match f.exponent with
            | none => []
            | some digits => '^' :: digits.1) ++ unit_string fs), ?_, ?_, ?_⟩
        · simp [unit_string, unit_factor.text, h]
        · rfl
        · simp [unit_factor.sign, h]
    obtain ⟨c, rest, hstr, hafter, hsign⟩ := hfirst
    rw [hstr, List.map_cons, ← ih']
    rw [← hafter] at hread
    cases hex : f.exponent with
    | none =>
      rw [hex] at hread
      simp only [List.nil_append] at hread
      have hpos : at_power (unit_string fs) = false := by
        cases hs : unit_string fs with
        | nil => rfl
        | cons a l =>
          have := hR a (by rw [hs]; simp)
          simp only [at_power]
          exact is_power_of_is_new_unit this
      rw [unit_items_cons_none c rest f.name (unit_string fs) hread hpos, hsign]
      simp [unit_factor.item, hex]
    | some digits =>
      rw [hex] at hread
      simp only at hread
      have hd := read_until_append is_new_unit digits.1 (unit_string fs) (hexp digits hex).1 hR
      rw [unit_items_cons_some c rest f.name ('^' :: digits.1 ++ unit_string fs) digits.1
        (unit_string fs) hread rfl hd, hsign]
      simp [unit_factor.item, hex]

omit [DivisionRing α] in
/-- The sign of a factor is `1` or `-1`. -/
theorem unit_factor.sign_cases (f : unit_factor α) : f.sign = 1 ∨ f.sign = -1 := by
  unfold unit_factor.sign
  split
  · exact Or.inr rfl
  · exact Or.inl rfl

/-- The `int` product of a sign and `1` is the sign. -/
theorem int_mul_sign_one (s : Int) (hs : s = 1 ∨ s = -1) : int_mul s 1 = s := by
  rcases hs with rfl | rfl <;> rfl

/-- The `int` product of a sign and an `int` is their product, except for the
sign `-1` and the least `int`. -/
theorem int_mul_sign (s n : Int) (hs : s = 1 ∨ s = -1) (hlo : -2147483648 ≤ n)
    (hhi : n ≤ 2147483647) (hne : s = -1 → n ≠ -2147483648) : int_mul s n = s * n := by
  unfold int_mul
  rcases hs with rfl | rfl
  · norm_num
    omega
  · have := hne rfl
    norm_num
    omega

/-- What `std::stoi` returns is an `int`. -/
theorem stoi_range (str : List Char) (n : Int) (h : stoi str = Except.ok n) :
    -2147483648 ≤ n ∧ n ≤ 2147483647 := by
  unfold stoi at h
  simp only at h
  split_ifs at h
  all_goals cases h
  all_goals
    rename_i hr
    simp only [not_or, not_lt] at hr
    norm_num at hr
    omega

/-- The look-ups, conversions and products of the factors of a well-formed unit
string all succeed and give the product of the units, each raised to the `int`
product of its sign and its power. -/
theorem foldlM_unit_factors (p : unit_parser_t α) :
    ∀ (fs : List (unit_factor α)) (final_unit : quantity α), (∀ f ∈ fs, f.well_formed p) →
      (fs.map unit_factor.item).foldlM (apply_item p) final_unit
        = Except.ok (fs.foldl
            (fun product f => product * quantity.pow f.unit_value (int_mul f.sign f.power))
            final_unit) := by
  intro fs
  induction fs with
  | nil =>
    intro final_unit _
    rfl
  | cons f fs ih =>
    intro final_unit hwf
    obtain ⟨_, _, _, hfind, hexp⟩ := hwf f (List.mem_cons_self _ _)
    have hstep : apply_item p final_unit f.item
        = Except.ok (final_unit * quantity.pow f.unit_value (int_mul f.sign f.power)) := by
      unfold apply_item
      simp only [unit_factor.item, hfind]
      cases hex : f.exponent with
      | none => simp [unit_factor.power, hex, int_mul_sign_one f.sign f.sign_cases]
      | some digits =>
        simp only [Option.map_some', (hexp digits hex).2, unit_factor.power, hex]
    simp only [List.map_cons, List.foldlM_cons, hstep, List.foldl_cons]
    exact ih _ (fun g hg => hwf g (List.mem_cons_of_mem _ hg))

/-- Where no power after `/` is the least `int`, the `int` products of the
factors are the products of the integers. -/
theorem foldl_int_mul_eq (p : unit_parser_t α) :
    ∀ (fs : List (unit_factor α)) (final_unit : quantity α), (∀ f ∈ fs, f.well_formed p) →
      (∀ f ∈ fs, f.operator = some '/' → f.power ≠ -2147483648) →
      fs.foldl
          (fun product f => product * quantity.pow f.unit_value (int_mul f.sign f.power))
          final_unit
        = fs.foldl
          (fun product f => product * quantity.pow f.unit_value (f.sign * f.power))
          final_unit := by
  intro fs
  induction fs with
  | nil =>
    intro final_unit _ _
    rfl
  | cons f fs ih =>
    intro final_unit hwf hpow
    obtain ⟨_, _, _, _, hexp⟩ := hwf f (List.mem_cons_self _ _)
    have hrange : -2147483648 ≤ f.power ∧ f.power ≤ 2147483647 := by
      unfold unit_factor.power
      cases hex : f.exponent with
      | none => exact ⟨by norm_num, by norm_num⟩
      | some digits => exact stoi_range _ _ (hexp digits hex).2
    have hm : int_mul f.sign f.power = f.sign * f.power :=
      int_mul_sign f.sign f.power f.sign_cases hrange.1 hrange.2 (by
        intro hs
        apply hpow f (List.mem_cons_self _ _)
        unfold unit_factor.sign at hs
        by_contra hop
        rw [if_neg hop] at hs
        exact absurd hs (by decide))
    simp only [List.foldl_cons, hm]
    exact ih _ (fun g hg => hwf g (List.mem_cons_of_mem _ hg))
      (fun g hg => hpow g (List.mem_cons_of_mem _ hg))

end unit_string_claims

section unit_product_claims
open unit_parser_t
variable {α : Type} [DivisionRing α]

omit [DivisionRing α] in
theorem unit_parser_t.find_add_unit_ne (p : unit_parser_t α) (unit_name name : String)
    (unit_value : quantity α) (h : unit_name ≠ name) :
    (p.add_unit unit_name unit_value).find name = p.find name := by
  unfold add_unit
  cases hf : p.find unit_name with
  | some q => rfl
  | none =>
    simp only [unit_parser_t.find, List.lookup_append]
    have : (name == unit_name) = false := by
      simpa using fun e => h e.symm
    simp [List.lookup, this]

omit [DivisionRing α] in
theorem unit_parser_t.find_add_unit_eq (p : unit_parser_t α) (unit_name : String)
    (unit_value : quantity α) (h : p.find unit_name = none) :
    (p.add_unit unit_name unit_value).find unit_name = some unit_value := by
  unfold add_unit
  rw [h]
  simp only [unit_parser_t.find, List.lookup_append]
  rw [unit_parser_t.find] at h
  rw [h]
  simp [List.lookup]

theorem default_find_g_of_field :
    (parser_with_default_units : unit_parser_t α).find "g" = some units.g := by
  simp only [parser_with_default_units, add_default_units]
  rw [find_add_unit_ne _ _ _ _ (by decide), find_add_unit_ne _ _ _ _ (by decide),
    find_add_unit_eq]
  rw [find_add_unit_ne _ _ _ _ (by decide), find_add_unit_ne _ _ _ _ (by decide),
    find_add_unit_ne _ _ _ _ (by decide), find_add_unit_ne _ _ _ _ (by decide),
    find_add_unit_ne _ _ _ _ (by decide), find_add_unit_ne _ _ _ _ (by decide)]
  rfl

theorem default_find_cm_of_field :
    (parser_with_default_units : unit_parser_t α).find "cm" = some units.cm := by
  simp only [parser_with_default_units, add_default_units]
  rw [find_add_unit_ne _ _ _ _ (by decide), find_add_unit_ne _ _ _ _ (by decide),
    find_add_unit_ne _ _ _ _ (by decide), find_add_unit_eq]
  rw [find_add_unit_ne _ _ _ _ (by decide), find_add_unit_ne _ _ _ _ (by decide),
    find_add_unit_ne _ _ _ _ (by decide), find_add_unit_ne _ _ _ _ (by decide),
    find_add_unit_ne _ _ _ _ (by decide)]
  rfl

theorem g_per_cm3_well_formed :
    ∀ f ∈ (g_per_cm3 : List (unit_factor α)), f.well_formed parser_with_default_units := by
  intro f hf
  simp only [g_per_cm3, List.mem_cons, List.mem_singleton, List.not_mem_nil, or_false] at hf
  unfold unit_factor.well_formed
  rcases hf with rfl | rfl
  · refine ⟨Or.inl rfl, ?_, ?_, ?_, ?_⟩
    · simp
    · show ∀ ch ∈ ['g'], (is_power ch || is_new_unit ch) = false
      decide
    · exact default_find_g_of_field
    · intro digits h
      simp at h
  · refine ⟨Or.inr (Or.inr rfl), ?_, ?_, ?_, ?_⟩
    · simp
    · show ∀ ch ∈ ['c', 'm'], (is_power ch || is_new_unit ch) = false
      decide
    · exact default_find_cm_of_field
    · intro digits h
      simp only [Option.some.injEq] at h
      subst h
      refine ⟨?_, stoi_3⟩
      show ∀ ch ∈ ['3'], is_new_unit ch = false
      decide

end unit_product_claims

section unit_product_claims
open unit_parser_t
variable {α : Type} [DivisionRing α]

theorem unit_parser_t.parse_unit_eq_foldlM (p : unit_parser_t α) (text : String) :
    parse_unit p text
      = (unit_items text.data).foldlM (apply_item p) ⟨1, dimensions.dimensionless⟩ :=
  parse_unit_loop_eq p _ _ _ rfl

omit [DivisionRing α] in
theorem quantity.ext_of {a b : quantity α} (hv : a.value = b.value) (hu : a.units = b.units) :
    a = b := by
  cases a
  cases b
  simp_all

theorem unit_items_eVnm : unit_items "eVnm".data = [⟨1, ['e', 'V', 'n', 'm'], none⟩] := by
  rw [show "eVnm".data = ['e', 'V', 'n', 'm'] from rfl]
  rw [unit_items]
  simp [read_until, at_power, is_power, is_new_unit]
  rw [unit_items]

/-- Witness of C18: for `g/cm^3` and the default units, the one exponent `3` is a
valid integer, both names `g` and `cm` are registered, and the string parses
without the unknown-unit error; for `kg`, which has no exponent, the one name
`kg` is not registered and the unknown-unit error is raised. -/
theorem parse_unit_unknown_unit_witness :
    (∀ item ∈ unit_items "g/cm^3".data, ∀ digits, item.exponent = some digits →
      ∃ n, stoi digits = Except.ok n) ∧
    (∀ item ∈ unit_items "g/cm^3".data,
      (parser_with_default_units : unit_parser_t ℚ).find (String.mk item.name) ≠ none) ∧
    (∃ q, parse_unit (parser_with_default_units : unit_parser_t ℚ) "g/cm^3" = Except.ok q) ∧
    parse_unit (parser_with_default_units : unit_parser_t ℚ) "kg"
      = Except.error (exception.runtime_error "Unknown unit 'kg'.") :=
  have hexp : ∀ item ∈ unit_items "g/cm^3".data, ∀ digits, item.exponent = some digits →
      ∃ n, stoi digits = Except.ok n := by
    rw [unit_items_g_cm3]
    intro item hitem digits hdigits
    simp only [List.mem_cons, List.mem_singleton, List.not_mem_nil, or_false] at hitem
    rcases hitem with rfl | rfl
    · cases hdigits
    · cases hdigits
      exact ⟨3, stoi_3⟩
  have hreg : ∀ item ∈ unit_items "g/cm^3".data,
      (parser_with_default_units : unit_parser_t ℚ).find (String.mk item.name) ≠ none := by
    rw [unit_items_g_cm3]
    intro item hitem
    simp only [List.mem_cons, List.mem_singleton, List.not_mem_nil, or_false] at hitem
    rcases hitem with rfl | rfl
    · rw [show String.mk ['g'] = "g" from rfl, default_find_g]
      exact Option.some_ne_none _
    · rw [show String.mk ['c', 'm'] = "cm" from rfl, default_find_cm]
      exact Option.some_ne_none _
  have hkg : ∀ item ∈ unit_items "kg".data, ∀ digits, item.exponent = some digits →
      ∃ n, stoi digits = Except.ok n := by
    rw [unit_items_kg]
    intro item hitem digits hdigits
    simp only [List.mem_singleton] at hitem
    rw [hitem] at hdigits
    cases hdigits
  have hunknown : parse_unit (parser_with_default_units : unit_parser_t ℚ) "kg"
      = Except.error (exception.runtime_error "Unknown unit 'kg'.") := by
    obtain ⟨item, hitem, _, hparse⟩ :=
      (parse_unit_unknown_unit (parser_with_default_units : unit_parser_t ℚ) "kg" hkg).2.1
        ⟨⟨1, ['k', 'g'], none⟩, by rw [unit_items_kg]; exact List.mem_singleton.mpr rfl,
          default_find_kg⟩
    rw [unit_items_kg, List.mem_singleton] at hitem
    rw [hitem] at hparse
    exact hparse
  ⟨hexp, hreg, (parse_unit_unknown_unit parser_with_default_units "g/cm^3" hexp).2.2.1 hreg,
    hunknown⟩

/-- For a well-formed unit string `parse_unit` returns the product of the
units, each raised to the `int` product of its sign and its power. -/
theorem parse_unit_int_product (p : unit_parser_t α) (fs : List (unit_factor α))
    (hwf : ∀ f ∈ fs, f.well_formed p) (hsep : ∀ f ∈ fs.tail, f.operator ≠ none) :
    parse_unit p (String.mk (unit_string fs))
      = Except.ok (fs.foldl
          (fun product f => product * quantity.pow f.unit_value (int_mul f.sign f.power))
          ⟨1, dimensions.dimensionless⟩) := by
  rw [parse_unit_eq_foldlM]
  rw [show (String.mk (unit_string fs)).data = unit_string fs from rfl]
  rw [unit_items_unit_string p fs hwf hsep, foldlM_unit_factors p fs _ hwf]

theorem g_per_cm3_power :
    ∀ f ∈ (g_per_cm3 : List (unit_factor α)), f.operator = some '/' →
      f.power ≠ -2147483648 := by
  intro f hf _
  simp only [g_per_cm3, List.mem_cons, List.mem_singleton, List.not_mem_nil, or_false] at hf
  rcases hf with rfl | rfl
  · show (1 : Int) ≠ -2147483648
    decide
  · show (3 : Int) ≠ -2147483648
    decide

theorem stoi_least_int :
    stoi ['-', '2', '1', '4', '7', '4', '8', '3', '6', '4', '8'] = Except.ok (-2147483648) := by
  rfl

theorem per_cm_least_int_well_formed :
    ∀ f ∈ (per_cm_least_int : List (unit_factor α)),
      f.well_formed parser_with_default_units := by
  intro f hf
  simp only [per_cm_least_int, List.mem_singleton] at hf
  unfold unit_factor.well_formed
  subst hf
  refine ⟨Or.inr (Or.inr rfl), ?_, ?_, default_find_cm_of_field, ?_⟩
  · simp
  · show ∀ ch ∈ ['c', 'm'], (is_power ch || is_new_unit ch) = false
    decide
  · intro digits h
    simp only [Option.some.injEq] at h
    subst h
    refine ⟨?_, stoi_least_int⟩
    show ∀ ch ∈ ['-', '2', '1', '4', '7', '4', '8', '3', '6', '4', '8'], is_new_unit ch = false
    decide

/-- Counterexample to C19 as stated, in two parts.  The names `eV` and `nm` are
registered default units, and the string `eVnm` is made of them, neither
preceded by an operator nor followed by a power; `parse_unit` reads it as the
one name `eVnm` and raises the unknown-unit error instead of returning the
product.  And the string `/cm^-2147483648` is the registered name `cm` preceded
by `/` and followed by `^` and an integer that `std::stoi` accepts; the `int`
product `-1 * -2147483648` overflows to `-2147483648`, so `parse_unit` returns a
quantity of dimension length to the power `-2147483648`, where `s*p` is
`2147483648`. -/
theorem parse_unit_not_product :
    (∀ f ∈ (eV_nm : List (unit_factor ℚ)), f.well_formed parser_with_default_units) ∧
    String.mk (unit_string (eV_nm : List (unit_factor ℚ))) = "eVnm" ∧
    parse_unit (parser_with_default_units : unit_parser_t ℚ) "eVnm"
      = Except.error (exception.runtime_error "Unknown unit 'eVnm'.") ∧
    parse_unit (parser_with_default_units : unit_parser_t ℚ) "eVnm"
      ≠ Except.ok (unit_product eV_nm) ∧
    (∀ f ∈ (per_cm_least_int : List (unit_factor ℚ)),
      f.well_formed parser_with_default_units) ∧
    String.mk (unit_string (per_cm_least_int : List (unit_factor ℚ))) = "/cm^-2147483648" ∧
    (∃ q, parse_unit (parser_with_default_units : unit_parser_t ℚ) "/cm^-2147483648"
        = Except.ok q ∧ q.units.length = -2147483648) ∧
    (unit_product (per_cm_least_int : List (unit_factor ℚ))).units.length = 2147483648 ∧
    parse_unit (parser_with_default_units : unit_parser_t ℚ) "/cm^-2147483648"
      ≠ Except.ok (unit_product per_cm_least_int) := by
  have hparse : parse_unit (parser_with_default_units : unit_parser_t ℚ) "eVnm"
      = Except.error (exception.runtime_error "Unknown unit 'eVnm'.") := by
    rw [parse_unit_eq_foldlM, unit_items_eVnm]
    rfl
  have hover := parse_unit_int_product (parser_with_default_units : unit_parser_t ℚ)
    per_cm_least_int per_cm_least_int_well_formed (by
      intro f hf
      simp [per_cm_least_int] at hf)
  rw [show String.mk (unit_string (per_cm_least_int : List (unit_factor ℚ)))
    = "/cm^-2147483648" from rfl] at hover
  have hlen : (unit_product (per_cm_least_int : List (unit_factor ℚ))).units.length
      = 2147483648 := by decide
  refine ⟨?_, rfl, hparse, ?_, per_cm_least_int_well_formed, rfl, ⟨_, hover, by decide⟩,
    hlen, ?_⟩
  · intro f hf
    simp only [eV_nm, List.mem_cons, List.mem_singleton, List.not_mem_nil, or_false] at hf
    rcases hf with rfl | rfl
    · refine ⟨Or.inl rfl, by simp, by decide, rfl, ?_⟩
      intro digits h
      cases h
    · refine ⟨Or.inl rfl, by simp, by decide, rfl, ?_⟩
      intro digits h
      cases h
  · rw [hparse]
    intro h
    cases h
  · rw [hover]
    intro h
    have h2 := congrArg (fun q : quantity ℚ => q.units.length) (Except.ok.inj h)
    revert h2
    decide

/-- C19, amended: for every unit string made of factors, each a registered,
non-empty name without `*`, `/`, `^`, preceded by `*` or `/` (optional for the
first factor only) and optionally followed by `^` and a text without `*`, `/`
that `std::stoi` converts to the integer `p_k` (default 1), no power after `/`
being the least `int` `-2147483648` (whose `int` product with `-1` overflows),
`parse_unit` returns the product over `k` of `u_k` raised to `s_k * p_k`, where
`s_k = -1` after `/` and `1` otherwise. With the default units, `g/cm^3` parses to `g * cm^(-3)`, of
dimension mass times length to the power `-3`. -/
theorem parse_unit_product (p : unit_parser_t α) (fs : List (unit_factor α))
    (hwf : ∀ f ∈ fs, f.well_formed p) (hsep : ∀ f ∈ fs.tail, f.operator ≠ none)
    (hpow : ∀ f ∈ fs, f.operator = some '/' → f.power ≠ -2147483648) :
    parse_unit p (String.mk (unit_string fs)) = Except.ok (unit_product fs) ∧
    parse_unit (parser_with_default_units : unit_parser_t α) "g/cm^3"
      = Except.ok (units.g * quantity.pow units.cm (-3)) ∧
    (units.g * quantity.pow units.cm (-3) : quantity α).units
      = dimensions.mass * dimensions.length.pow (-3) := by
  have key : ∀ (q : unit_parser_t α) (gs : List (unit_factor α)),
      (∀ f ∈ gs, f.well_formed q) → (∀ f ∈ gs.tail, f.operator ≠ none) →
      (∀ f ∈ gs, f.operator = some '/' → f.power ≠ -2147483648) →
      parse_unit q (String.mk (unit_string gs)) = Except.ok (unit_product gs) := by
    intro q gs h1 h2 h3
    rw [parse_unit_int_product q gs h1 h2, foldl_int_mul_eq q gs _ h1 h3]
    rfl
  refine ⟨key p fs hwf hsep hpow, ?_, rfl⟩
  have h := key parser_with_default_units g_per_cm3 g_per_cm3_well_formed (by
    intro f hf
    simp only [g_per_cm3, List.tail_cons, List.mem_singleton] at hf
    rw [hf]
    exact Option.some_ne_none _) g_per_cm3_power
  rw [show String.mk (unit_string (g_per_cm3 : List (unit_factor α))) = "g/cm^3" from rfl] at h
  rw [h]
  have e : (unit_product g_per_cm3 : quantity α) = units.g * quantity.pow units.cm (-3) := by
    apply quantity.ext_of
    · show (1 : α) * units.g.value ^ ((1 : Int) * 1) * units.cm.value ^ ((-1 : Int) * 3)
        = units.g.value * units.cm.value ^ (-3 : Int)
      simp
    · rfl
  rw [e]

/-- Witness of C19, amended: the two factors of `g/cm^3` over the rationals; the result has
value `62415 * 10^11 / (10^7)^3` and dimension mass times length to the `-3`. -/
theorem parse_unit_product_witness :
    (∀ f ∈ (g_per_cm3 : List (unit_factor ℚ)), f.well_formed parser_with_default_units) ∧
    (∀ f ∈ (g_per_cm3 : List (unit_factor ℚ)).tail, f.operator ≠ none) ∧
    parse_unit parser_with_default_units
        (String.mk (unit_string (g_per_cm3 : List (unit_factor ℚ))))
      = Except.ok (unit_product (g_per_cm3 : List (unit_factor ℚ))) ∧
    (unit_product g_per_cm3 : quantity ℚ).value = 62415 * 10 ^ 11 / (10 ^ 7) ^ 3 ∧
    (unit_product g_per_cm3 : quantity ℚ).units = ⟨0, -3, 0, 1, 0, 0⟩ :=
  have hsep : ∀ f ∈ (g_per_cm3 : List (unit_factor ℚ)).tail, f.operator ≠ none := by
    intro f hf
    simp only [g_per_cm3, List.tail_cons, List.mem_singleton] at hf
    rw [hf]
    exact Option.some_ne_none _
  ⟨g_per_cm3_well_formed, hsep,
    (parse_unit_product parser_with_default_units g_per_cm3 g_per_cm3_well_formed hsep
      g_per_cm3_power).1,
    by
      show (1 : ℚ) * (62415 * 10 ^ 11) ^ ((1 : Int) * 1) * (10 ^ 7) ^ ((-1 : Int) * 3)
        = 62415 * 10 ^ 11 / (10 ^ 7) ^ 3
      norm_num,
    by decide⟩

end unit_product_claims

section resampling_lemmas
variable {α β γ A : Type} [LinearOrderedField α] [FloorRing α] [Zero β] [Zero γ]

/-- Where `find` returns a grid index, linear interpolation returns the value
stored there. -/
theorem array1D_ax.at_linear_of_find (ax : axis_ops A α) (t : array1D_ax α A) (x : α) (i : Nat)
    (hfind : ax.find t._x_axis x = (i : α)) (hN : 2 ≤ ax.size t._x_axis)
    (hM : ax.size t._x_axis < SIZE_T_MOD) (hi : i < ax.size t._x_axis) :
    array1D_ax.at_linear ax t x = vec_at t._data i := by
  have hsub : size_sub (ax.size t._x_axis) 2 = ax.size t._x_axis - 2 := size_sub_of_le hN hM
  unfold array1D_ax.at_linear array1D_ax.low_index
  simp only
  rw [hfind, hsub]
  by_cases hlast : i + 1 < ax.size t._x_axis
  · have hc : to_size_t (_clamp (i : α) 0 ((ax.size t._x_axis - 2 : Nat) : α)) = i :=
      to_size_t_clamp (by omega) (le_refl _) (fun _ => by linarith)
    rw [hc]
    ring
  · have hc : to_size_t (_clamp (i : α) 0 ((ax.size t._x_axis - 2 : Nat) : α))
        = ax.size t._x_axis - 2 :=
      to_size_t_clamp (le_refl _) (by exact_mod_cast (by omega : ax.size t._x_axis - 2 ≤ i))
        (fun h => absurd h (lt_irrefl _))
    have hi2 : i = ax.size t._x_axis - 2 + 1 := by omega
    have hadd : size_add (ax.size t._x_axis - 2) 1 = i := by
      rw [size_add_of_lt (by omega), ← hi2]
    rw [hc, hadd]
    have hcast : ((ax.size t._x_axis - 2 : Nat) : α) = (i : α) - 1 := by
      rw [hi2]
      push_cast
      simp
    rw [hcast]
    ring

omit [FloorRing α] [Zero γ] in
/-- The 1-D resampling never raises the dimension-mismatch error: it returns the
axis it builds and the buffer that its loop fills. -/
theorem to_fast_table_1D_eq (exp log : α → α) (intern : array1D_ax γ (ax_list α))
    (K_min K_max : α) (N : Nat) (f : array1D_ax γ (ax_list α) → α → β) :
    material.to_fast_table_1D exp log intern K_min K_max N f
      = Except.ok ⟨material.fill_loop N
          (fun i => f intern (ax_logspace.index exp (ax_logspace.ctor log K_min K_max N) i))
          (List.replicate N 0), ax_logspace.ctor log K_min K_max N⟩ := by
  have hlen : (material.fill_loop N
      (fun i => f intern (ax_logspace.index exp (ax_logspace.ctor log K_min K_max N) i))
      (List.replicate N 0)).length = N := by
    rw [fill_loop_length, List.length_replicate]
  unfold material.to_fast_table_1D array1D_ax.ctor
  simp only [hlen]
  simp [ax_logspace.ops, ax_logspace.size, ax_logspace.ctor]

/-- The buffer of the 1-D resampling holds at `i < N` the value of the loop body. -/
theorem fill_loop_vec_at (N : Nat) (g : Nat → β) {i : Nat} (hi : i < N) :
    vec_at (material.fill_loop N g (List.replicate N 0)) i = g i := by
  have h := fill_loop_getElem? N g (List.replicate N 0) (by simp) i hi
  unfold vec_at
  simp only [List.getD_eq_getElem?_getD, h, Option.getD_some]

end resampling_lemmas

section resampling_idempotence

/-- The node values of a logarithmic axis over `0 < K_min < K_max` with at least
two points increase strictly. -/
theorem ax_logspace.nodes_sorted (K_min K_max : ℝ) (N : Nat) (hK : 0 < K_min)
    (hKK : K_min < K_max) (hN : 2 ≤ N) (hM : N < SIZE_T_MOD) :
    ((List.range N).map
      (fun i => ax_logspace.index Real.exp (ax_logspace.ctor Real.log K_min K_max N) i)).Pairwise
      (fun a b => a < b) := by
  have hstep := ax_logspace.lstep_pos hK hKK hN hM
  rw [List.pairwise_map]
  refine List.Pairwise.imp ?_ (List.pairwise_lt_range N)
  intro a b hab
  unfold ax_logspace.index
  apply Real.exp_lt_exp.mpr
  have : (a : ℝ) < (b : ℝ) := by exact_mod_cast hab
  nlinarith

/-- C11: for `0 < K_min < K_max`, `N ≥ 2` and a source table with `N` values
whose axis holds the node values of the logarithmic axis `(K_min, K_max, N)`,
resampling onto `(K_min, K_max, N)` with the plain lookup
`f(table, K) = table.at_linear(K)` returns a table over that axis whose buffer is
the buffer of the source: it stores `d[i]` at every node `i`. -/
theorem to_fast_table_idempotent (K_min K_max : ℝ) (N : Nat)
    (source : array1D_ax ℝ (ax_list ℝ)) (hK : 0 < K_min) (hKK : K_min < K_max) (hN : 2 ≤ N)
    (hM : N < SIZE_T_MOD)
    (haxis : source._x_axis.base = (List.range N).map
      (fun i => ax_logspace.index Real.exp (ax_logspace.ctor Real.log K_min K_max N) i))
    (hdata : source._data.length = N) :
    ∃ t, material.to_fast_table_1D Real.exp Real.log source K_min K_max N
        (fun table K => array1D_ax.at_linear ax_list.ops table K) = Except.ok t ∧
      t._x_axis = ax_logspace.ctor Real.log K_min K_max N ∧
      t._data = source._data ∧
      ∀ i, i < N → array1D_ax.call t i = array1D_ax.call source i ∧
        source._data[i]? = some (array1D_ax.call t i) := by
  have hsize : source._x_axis.size = N := by
    unfold ax_list.size
    rw [haxis]
    simp
  have hs : source._x_axis.base.Pairwise (fun a b => a < b) := by
    rw [haxis]
    exact ax_logspace.nodes_sorted K_min K_max N hK hKK hN hM
  have hnode : ∀ i, i < N →
      ax_logspace.index Real.exp (ax_logspace.ctor Real.log K_min K_max N) i
        = source._x_axis.index i := by
    intro i hi
    unfold ax_list.index
    rw [vec_at_eq _ (by rw [haxis]; simpa using hi)]
    simp [haxis]
  have hval : ∀ i, i < N →
      vec_at (material.fill_loop N
        (fun i => array1D_ax.at_linear ax_list.ops source
          (ax_logspace.index Real.exp (ax_logspace.ctor Real.log K_min K_max N) i))
        (List.replicate N 0)) i = vec_at source._data i := by
    intro i hi
    rw [fill_loop_vec_at N _ hi]
    simp only [hnode i hi]
    exact array1D_ax.at_linear_of_find ax_list.ops source _ i
      (ax_list.find_index source._x_axis hs (by omega) (by omega) (by omega))
      (by show 2 ≤ source._x_axis.size; omega) (by show source._x_axis.size < SIZE_T_MOD; omega)
      (by show i < source._x_axis.size; omega)
  have hlen : (material.fill_loop N
      (fun i => array1D_ax.at_linear ax_list.ops source
        (ax_logspace.index Real.exp (ax_logspace.ctor Real.log K_min K_max N) i))
      (List.replicate N 0)).length = N := by
    rw [fill_loop_length, List.length_replicate]
  have hbuf : material.fill_loop N
      (fun i => array1D_ax.at_linear ax_list.ops source
        (ax_logspace.index Real.exp (ax_logspace.ctor Real.log K_min K_max N) i))
      (List.replicate N 0) = source._data := by
    apply List.ext_getElem (by rw [hlen, hdata])
    intro i h1 h2
    have h := hval i (by omega)
    rw [vec_at_eq _ h1, vec_at_eq _ h2] at h
    exact h
  refine ⟨_, to_fast_table_1D_eq Real.exp Real.log source K_min K_max N _, rfl, hbuf, ?_⟩
  intro i hi
  refine ⟨?_, ?_⟩
  · unfold array1D_ax.call
    exact hval i hi
  · unfold array1D_ax.call
    rw [hval i hi, vec_at_eq _ (by omega : i < source._data.length)]
    simp [hdata, hi]

/-- Witness of C11: the data `10, 20, 40` on the nodes of the logarithmic axis
`(1, 4, 3)`. -/
theorem to_fast_table_idempotent_witness :
    ∃ t, material.to_fast_table_1D Real.exp Real.log
        (⟨[10, 20, 40], ⟨(List.range 3).map
          (fun i => ax_logspace.index Real.exp (ax_logspace.ctor Real.log 1 4 3) i)⟩⟩ :
          array1D_ax ℝ (ax_list ℝ)) 1 4 3
        (fun table K => array1D_ax.at_linear ax_list.ops table K) = Except.ok t ∧
      t._data = [10, 20, 40] := by
  obtain ⟨t, h1, _, h3, _⟩ := to_fast_table_idempotent 1 4 3
    (⟨[10, 20, 40], ⟨(List.range 3).map
      (fun i => ax_logspace.index Real.exp (ax_logspace.ctor Real.log 1 4 3) i)⟩⟩ :
      array1D_ax ℝ (ax_list ℝ))
    (by norm_num) (by norm_num) (by decide) (by decide) rfl rfl
  exact ⟨t, h1, h3⟩

end resampling_idempotence

section elastic_imfp

theorem get_elastic_imfp_eq (density : quantity ℝ)
    (elastic_cross_section : array1D_ax ℝ (ax_list ℝ)) (K_min K_max : ℝ) (N : Nat) :
    material.get_elastic_imfp Real.exp Real.log density elastic_cross_section K_min K_max N
      = Except.ok ⟨⟨material.fill_loop N
          (fun i => Real.log (array1D_ax.at_loglog ax_list.ops Real.exp Real.log
            elastic_cross_section
            (ax_logspace.index Real.exp (ax_logspace.ctor Real.log K_min K_max N) i)
            * density.value))
          (List.replicate N 0), ax_logspace.ctor Real.log K_min K_max N⟩⟩ := by
  unfold material.get_elastic_imfp
  simp only [to_fast_table_1D_eq]
  rfl

/-- Log-log interpolation of the cross sections `1, 1, 1` is `1` everywhere. -/
theorem example_cross_section_at_loglog (K : ℝ) :
    array1D_ax.at_loglog ax_list.ops Real.exp Real.log example_cross_section K = 1 := by
  have hle : array1D_ax.low_index ax_list.ops (example_cross_section : array1D_ax ℝ (ax_list ℝ)) K
      ≤ 1 := by
    unfold array1D_ax.low_index
    have h : size_sub (ax_list.ops.size
        (example_cross_section : array1D_ax ℝ (ax_list ℝ))._x_axis) 2 = 1 := by decide
    rw [h]
    exact to_size_t_clamp_le _ 1
  unfold array1D_ax.at_loglog
  simp only
  generalize array1D_ax.low_index ax_list.ops
    (example_cross_section : array1D_ax ℝ (ax_list ℝ)) K = l at hle
  have hl : l = 0 ∨ l = 1 := by omega
  rcases hl with rfl | rfl
  · have h1 : size_add 0 1 = 1 := by decide
    simp [h1, example_cross_section, vec_at]
  · have h1 : size_add 1 1 = 2 := by decide
    simp [h1, example_cross_section, vec_at]

theorem example_log_axis :
    ax_logspace.ctor Real.log 1 100 3 = (⟨0, Real.log 10, 3⟩ : ax_logspace ℝ) := by
  have h1 : size_sub 3 1 = 2 := by decide
  have h2 : Real.log 100 = 2 * Real.log 10 := by
    rw [show (100 : ℝ) = 10 ^ 2 by norm_num, Real.log_pow]
    norm_num
  simp [ax_logspace.ctor, h1, h2]

theorem log_ten_pos : 0 < Real.log 10 := Real.log_pos (by norm_num)

end elastic_imfp

section conductor_type

/-- C20: the constructor maps the attribute `metal` to `CND_METAL`, `insulator`
to `CND_INSULATOR` and `semiconductor` to `CND_SEMICONDUCTOR`, and it throws,
with the message `Unknown conductor_type ` followed by the attribute, if and
only if the attribute is none of the three strings. -/
theorem ctor_conductor_type_spec (cnd_type_str : String) :
    material.ctor_conductor_type "metal" = Except.ok conductor_type_t.CND_METAL ∧
    material.ctor_conductor_type "insulator" = Except.ok conductor_type_t.CND_INSULATOR ∧
    material.ctor_conductor_type "semiconductor"
      = Except.ok conductor_type_t.CND_SEMICONDUCTOR ∧
    ((∃ e, material.ctor_conductor_type cnd_type_str = Except.error e) ↔
      (cnd_type_str ≠ "metal" ∧ cnd_type_str ≠ "insulator" ∧
        cnd_type_str ≠ "semiconductor")) ∧
    ((cnd_type_str ≠ "metal" ∧ cnd_type_str ≠ "insulator" ∧ cnd_type_str ≠ "semiconductor") →
      material.ctor_conductor_type cnd_type_str
        = Except.error (exception.runtime_error ("Unknown conductor_type " ++ cnd_type_str))) ∧
    material.ctor_conductor_type "conductor"
      = Except.error (exception.runtime_error "Unknown conductor_type conductor") := by
  refine ⟨rfl, rfl, rfl, ?_, ?_, rfl⟩
  · unfold material.ctor_conductor_type
    by_cases h1 : cnd_type_str = "metal"
    · simp [h1]
    · by_cases h2 : cnd_type_str = "insulator"
      · simp [h2]
      · by_cases h3 : cnd_type_str = "semiconductor"
        · simp [h3]
        · simp [h1, h2, h3]
  · rintro ⟨h1, h2, h3⟩
    unfold material.ctor_conductor_type
    simp [h1, h2, h3]

end conductor_type

section ax_list_brackets
variable {α : Type} [LinearOrderedField α]

/-- The bracket index of `find` is the `k` with `v[k-1] < x ≤ v[k]`, where the
first bracket also takes every smaller `x` and the last every larger `x`. -/
theorem ax_list.high_index_of_bracket (ax : ax_list α)
    (hs : ax.base.Pairwise (fun a b => a < b)) (hN : 2 ≤ ax.size) (hM : ax.size < SIZE_T_MOD)
    {x : α} {k : Nat} (h1 : 1 ≤ k) (hk : k < ax.size)
    (hlo : 1 < k → ax.index (k - 1) < x) (hhi : k + 1 < ax.size → x ≤ ax.index k) :
    ax.high_index x = k := by
  have hb := ax_list.high_index_bounds ax x hN hM
  rcases Nat.lt_trichotomy (ax.high_index x) k with h | h | h
  · have a1 := ax_list.le_bracket_high ax hs x hN hM (by omega)
    have a2 := hlo (by omega)
    have a3 := ax_list.index_le_index ax hs (by omega : k - 1 < ax.size)
      (by omega : ax.high_index x ≤ k - 1)
    exact absurd (lt_of_lt_of_le a2 (le_trans a1 a3)) (lt_irrefl _)
  · exact h
  · have a1 := ax_list.bracket_low_lt ax x hN hM (by omega)
    have a2 := hhi (by omega)
    have a3 := ax_list.index_le_index ax hs (by omega : ax.high_index x - 1 < ax.size)
      (by omega : k ≤ ax.high_index x - 1)
    exact absurd (lt_of_lt_of_le a1 (le_trans a2 a3)) (lt_irrefl _)

/-- The value of `find` counted from the low end of its bracket. -/
theorem ax_list.find_eq_low (ax : ax_list α) (hs : ax.base.Pairwise (fun a b => a < b))
    (x : α) (hN : 2 ≤ ax.size) (hM : ax.size < SIZE_T_MOD) :
    ax.find x = ((ax.high_index x - 1 : Nat) : α) +
      (x - ax.index (ax.high_index x - 1)) /
        (ax.index (ax.high_index x) - ax.index (ax.high_index x - 1)) := by
  have hb := ax_list.high_index_bounds ax x hN hM
  have hbr := ax_list.bracket_lt ax hs x hN hM
  have hd : ax.index (ax.high_index x) - ax.index (ax.high_index x - 1) ≠ 0 :=
    ne_of_gt (sub_pos.mpr hbr)
  rw [ax_list.find_eq ax x hN hM]
  have hc : ((ax.high_index x - 1 : Nat) : α) = (ax.high_index x : α) - 1 := by
    rw [Nat.cast_sub hb.1]
    simp
  rw [hc]
  field_simp
  ring

/-- The value of `find` on the bracket `l` of the specification. -/
theorem ax_list.find_of_low_bracket (ax : ax_list α)
    (hs : ax.base.Pairwise (fun a b => a < b)) (hN : 2 ≤ ax.size) (hM : ax.size < SIZE_T_MOD)
    {x : α} {l : Nat} (hl : l + 1 < ax.size) (hlo : 0 < l → ax.index l ≤ x)
    (hhi : l + 2 < ax.size → x < ax.index (l + 1)) :
    ax.find x = (l : α) + (x - ax.index l) / (ax.index (l + 1) - ax.index l) := by
  by_cases hnode : 0 < l ∧ x = ax.index l
  · rw [hnode.2, ax_list.find_index ax hs hN hM (by omega)]
    simp
  · have hhigh : ax.high_index x = l + 1 := by
      apply ax_list.high_index_of_bracket ax hs hN hM (by omega) hl
      · intro h
        have hpos : 0 < l := by omega
        rcases lt_or_eq_of_le (hlo hpos) with h2 | h2
        · simpa using h2
        · exact absurd ⟨hpos, h2.symm⟩ hnode
      · intro h
        exact le_of_lt (hhi (by omega))
    have h := ax_list.find_eq_low ax hs x hN hM
    rw [hhigh] at h
    simpa using h

end ax_list_brackets

section low_bracket_table
variable {α : Type} [LinearOrderedField α] [FloorRing α]

/-- The bracket that `at_linear` selects is the bracket `l` of the
specification. -/
theorem array1D_ax.low_index_of_low_bracket {β : Type} (t : array1D_ax β (ax_list α))
    (hs : t._x_axis.base.Pairwise (fun a b => a < b)) (hN : 2 ≤ t._x_axis.size)
    (hM : t._x_axis.size < SIZE_T_MOD) {x : α} {l : Nat} (hl : l + 1 < t._x_axis.size)
    (hlo : 0 < l → t._x_axis.index l ≤ x)
    (hhi : l + 2 < t._x_axis.size → x < t._x_axis.index (l + 1)) :
    array1D_ax.low_index ax_list.ops t x = l := by
  have hfind := ax_list.find_of_low_bracket t._x_axis hs hN hM hl hlo hhi
  have hlt : t._x_axis.index l < t._x_axis.index (l + 1) :=
    ax_list.index_lt_index t._x_axis hs hl (by omega)
  have hd : 0 < t._x_axis.index (l + 1) - t._x_axis.index l := sub_pos.mpr hlt
  unfold array1D_ax.low_index
  simp only [ax_list.ops]
  rw [size_sub_of_le hN hM, hfind]
  by_cases hbelow : x < t._x_axis.index l
  · have hl0 : l = 0 := by
      by_contra h
      exact absurd (hlo (by omega)) (not_le.mpr hbelow)
    subst hl0
    apply to_size_t_clamp_neg
    have : (x - t._x_axis.index 0) / (t._x_axis.index (0 + 1) - t._x_axis.index 0) < 0 :=
      div_neg_of_neg_of_pos (sub_neg.mpr hbelow) hd
    simpa using this
  · have hge : t._x_axis.index l ≤ x := not_lt.mp hbelow
    have h0 : 0 ≤ (x - t._x_axis.index l) / (t._x_axis.index (l + 1) - t._x_axis.index l) :=
      div_nonneg (sub_nonneg.mpr hge) (le_of_lt hd)
    apply to_size_t_clamp (by omega)
    · linarith
    · intro h
      have hx := hhi (by omega)
      have : (x - t._x_axis.index l) / (t._x_axis.index (l + 1) - t._x_axis.index l) < 1 := by
        rw [div_lt_one hd]
        linarith
      linarith

/-- On the bracket `l` of the specification `at_linear` is the line through
`(v[l], d[l])` and `(v[l+1], d[l+1])`. -/
theorem array1D_ax.at_linear_of_low_bracket (t : array1D_ax α (ax_list α))
    (hs : t._x_axis.base.Pairwise (fun a b => a < b)) (hN : 2 ≤ t._x_axis.size)
    (hM : t._x_axis.size < SIZE_T_MOD) {x : α} {l : Nat} (hl : l + 1 < t._x_axis.size)
    (hlo : 0 < l → t._x_axis.index l ≤ x)
    (hhi : l + 2 < t._x_axis.size → x < t._x_axis.index (l + 1)) :
    array1D_ax.at_linear ax_list.ops t x
      = vec_at t._data l + (x - t._x_axis.index l) /
          (t._x_axis.index (l + 1) - t._x_axis.index l) *
          (vec_at t._data (l + 1) - vec_at t._data l) := by
  have hfind := ax_list.find_of_low_bracket t._x_axis hs hN hM hl hlo hhi
  have hlow := array1D_ax.low_index_of_low_bracket t hs hN hM hl hlo hhi
  unfold array1D_ax.at_linear
  simp only [hlow]
  rw [size_add_of_lt (by omega)]
  simp only [ax_list.ops]
  rw [hfind]
  ring

end low_bracket_table

section ax_list_find_claims
variable {α : Type} [LinearOrderedField α]

/-- What the bracket of the specification gives to the lemmas on brackets. -/
theorem ax_list.spec_bracket_bounds (ax : ax_list α)
    (hs : ax.base.Pairwise (fun a b => a < b)) {x : α} {l : Nat}
    (h : ax.spec_bracket x l) :
    l + 1 < ax.size ∧ (0 < l → ax.index l ≤ x) ∧ (l + 2 < ax.size → x < ax.index (l + 1)) := by
  obtain ⟨hl, h | h | h⟩ := h
  · exact ⟨hl, fun _ => h.2.2.1, fun _ => h.2.2.2⟩
  · obtain ⟨hx, rfl⟩ := h
    refine ⟨hl, fun h0 => absurd h0 (lt_irrefl 0), fun _ => ?_⟩
    exact lt_trans hx (ax_list.index_lt_index ax hs (by omega) (by omega))
  · obtain ⟨hx, rfl⟩ := h
    refine ⟨hl, fun h0 => ?_, fun h2 => by omega⟩
    exact le_trans (ax_list.index_le_index ax hs (by omega) (by omega)) hx

/-- Every query has a bracket in the sense of the specification. -/
theorem ax_list.exists_spec_bracket (ax : ax_list α)
    (hs : ax.base.Pairwise (fun a b => a < b)) (hN : 2 ≤ ax.size) (hM : ax.size < SIZE_T_MOD)
    (x : α) : ∃ l, ax.spec_bracket x l := by
  by_cases h0 : x < ax.index 0
  · exact ⟨0, by omega, Or.inr (Or.inl ⟨h0, rfl⟩)⟩
  by_cases hlast : ax.index (ax.size - 1) ≤ x
  · exact ⟨ax.size - 2, by omega, Or.inr (Or.inr ⟨hlast, rfl⟩)⟩
  have h0' : ax.index 0 ≤ x := not_lt.mp h0
  have hlast' : x < ax.index (ax.size - 1) := not_le.mp hlast
  have hb := ax_list.high_index_bounds ax x hN hM
  by_cases hx : x < ax.index (ax.high_index x)
  · refine ⟨ax.high_index x - 1, by omega, Or.inl ⟨h0', hlast', ?_, ?_⟩⟩
    · by_cases h1 : 1 < ax.high_index x
      · exact le_of_lt (ax_list.bracket_low_lt ax x hN hM h1)
      · have e : ax.high_index x - 1 = 0 := by omega
        rw [e]
        exact h0'
    · have e : ax.high_index x - 1 + 1 = ax.high_index x := by omega
      rw [e]
      exact hx
  · have hge : ax.index (ax.high_index x) ≤ x := not_lt.mp hx
    have hnl : ax.high_index x + 1 < ax.size := by
      by_contra hc
      have e : ax.high_index x = ax.size - 1 := by omega
      rw [e] at hge
      exact absurd hge hlast
    refine ⟨ax.high_index x, hnl, Or.inl ⟨h0', hlast', hge, ?_⟩⟩
    exact lt_of_le_of_lt (ax_list.le_bracket_high ax hs x hN hM hnl)
      (ax_list.index_lt_index ax hs hnl (by omega))

end ax_list_find_claims

section at_linear_formula
variable {α : Type} [LinearOrderedField α] [FloorRing α]

/-- C23: on a 1-D table over a strictly increasing list axis `v[0..N-1]` with
`N ≥ 2` and as many values `d`, every `x` has a bracket index `l` in the sense of
the specification (the `k` with `v[k] ≤ x < v[k+1]` when `v[0] ≤ x < v[N-1]`, `0`
when `x < v[0]`, `N - 2` when `x ≥ v[N-1]`); it is the bracket that `at_linear`
selects, the positions `l` and `l + 1` are inside the buffer, and
`at_linear(x) = d[l] + (x - v[l])/(v[l+1] - v[l]) * (d[l+1] - d[l])`, with a
weight that is not clamped. -/
theorem at_linear_bracket_formula (t : array1D_ax α (ax_list α))
    (hs : t._x_axis.base.Pairwise (fun a b => a < b))
    (hN : 2 ≤ t._x_axis.size) (hM : t._x_axis.size < SIZE_T_MOD)
    (hd : t._data.length = t._x_axis.size) (x : α) :
    (∃ l, t._x_axis.spec_bracket x l) ∧
    ∀ l, t._x_axis.spec_bracket x l →
      array1D_ax.low_index ax_list.ops t x = l ∧
      t._data[l]? = some (array1D_ax.call t l) ∧
      t._data[l + 1]? = some (array1D_ax.call t (l + 1)) ∧
      array1D_ax.at_linear ax_list.ops t x
        = array1D_ax.call t l
          + (x - array1D_ax.get_x ax_list.ops t l) /
              (array1D_ax.get_x ax_list.ops t (l + 1) - array1D_ax.get_x ax_list.ops t l) *
            (array1D_ax.call t (l + 1) - array1D_ax.call t l) := by
  refine ⟨ax_list.exists_spec_bracket t._x_axis hs hN hM x, ?_⟩
  intro l hl
  obtain ⟨h1, h2, h3⟩ := ax_list.spec_bracket_bounds t._x_axis hs hl
  have hin : ∀ i, i < t._data.length → t._data[i]? = some (array1D_ax.call t i) := by
    intro i hi
    unfold array1D_ax.call
    rw [vec_at_eq t._data hi]
    simp [hi]
  refine ⟨array1D_ax.low_index_of_low_bracket t hs hN hM h1 h2 h3, hin l (by omega),
    hin (l + 1) (by omega), ?_⟩
  exact array1D_ax.at_linear_of_low_bracket t hs hN hM h1 h2 h3

/-- Witness of C23: the table with axis `1, 2, 4` and data `10, 20, 40`, inside
the range at `x = 3` (bracket `1`), and on the extended last segment at `x = 5`
(bracket `1`). -/
theorem at_linear_bracket_formula_witness :
    array1D_ax.at_linear ax_list.ops example_table 3 = 30 ∧
    array1D_ax.at_linear ax_list.ops example_table 5 = 50 := by
  have e1 : example_axis.index 1 = 2 := rfl
  have e2 : example_axis.index 2 = 4 := rfl
  have e0 : example_axis.index 0 = 1 := rfl
  have b3 : example_table._x_axis.spec_bracket 3 1 := by
    refine ⟨by decide, Or.inl ?_⟩
    show example_axis.index 0 ≤ 3 ∧ 3 < example_axis.index 2 ∧ example_axis.index 1 ≤ 3 ∧
      3 < example_axis.index 2
    rw [e0, e1, e2]
    norm_num
  have b5 : example_table._x_axis.spec_bracket 5 1 := by
    refine ⟨by decide, Or.inr (Or.inr ⟨?_, rfl⟩)⟩
    show example_axis.index 2 ≤ 5
    rw [e2]
    norm_num
  have h3 := ((at_linear_bracket_formula example_table example_axis_sorted (by decide)
    (by decide) (by decide) 3).2 1 b3).2.2.2
  have h5 := ((at_linear_bracket_formula example_table example_axis_sorted (by decide)
    (by decide) (by decide) 5).2 1 b5).2.2.2
  have c1 : array1D_ax.call example_table 1 = 20 := rfl
  have c2 : array1D_ax.call example_table 2 = 40 := rfl
  have g1 : array1D_ax.get_x ax_list.ops example_table 1 = 2 := rfl
  have g2 : array1D_ax.get_x ax_list.ops example_table 2 = 4 := rfl
  rw [c1, c2, g1, g2] at h3 h5
  constructor
  · rw [h3]
    norm_num
  · rw [h5]
    norm_num

end at_linear_formula

section loglog_claims

/-- The logarithms of a strictly increasing list of positive values increase
strictly. -/
theorem pairwise_map_log {v : List ℝ} (hs : v.Pairwise (fun a b => a < b))
    (hpos : ∀ a ∈ v, 0 < a) : (v.map Real.log).Pairwise (fun a b => a < b) := by
  rw [List.pairwise_map]
  exact List.Pairwise.imp_of_mem (fun ha _ hab => Real.log_lt_log (hpos _ ha) hab) hs

/-- The values of the axis of the table of logarithms. -/
theorem spec_log_table_index (t : array1D_ax ℝ (ax_list ℝ)) {i : Nat}
    (hi : i < t._x_axis.size) :
    (array1D_ax.spec_log_table Real.log t)._x_axis.index i = Real.log (t._x_axis.index i) :=
  vec_at_map_log t._x_axis.base hi

theorem ax_list.index_pos (ax : ax_list ℝ) (hpos : ∀ a ∈ ax.base, 0 < a) {i : Nat}
    (hi : i < ax.size) : 0 < ax.index i := by
  have hi2 : i < ax.base.length := hi
  rw [ax_list.index_eq ax hi2]
  exact hpos _ (List.getElem_mem hi2)

/-- Log-log interpolation on a bracket `l` of the specification is the
exponential of the linear interpolation of the logarithms. -/
theorem array1D_ax.at_loglog_of_low_bracket (t : array1D_ax ℝ (ax_list ℝ))
    (hs : t._x_axis.base.Pairwise (fun a b => a < b)) (hpos : ∀ a ∈ t._x_axis.base, 0 < a)
    (hN : 2 ≤ t._x_axis.size) (hM : t._x_axis.size < SIZE_T_MOD)
    (hd : t._data.length = t._x_axis.size) {x : ℝ} (hx : 0 < x) {l : Nat}
    (hl : l + 1 < t._x_axis.size) (hlo : 0 < l → t._x_axis.index l ≤ x)
    (hhi : l + 2 < t._x_axis.size → x < t._x_axis.index (l + 1)) :
    array1D_ax.low_index ax_list.ops (array1D_ax.spec_log_table Real.log t) (Real.log x) = l ∧
    array1D_ax.low_index ax_list.ops t x = l ∧
    array1D_ax.at_loglog ax_list.ops Real.exp Real.log t x
      = Real.exp (array1D_ax.at_linear ax_list.ops (array1D_ax.spec_log_table Real.log t)
          (Real.log x)) := by
  have hsize : (array1D_ax.spec_log_table Real.log t)._x_axis.size = t._x_axis.size := by
    simp [array1D_ax.spec_log_table, ax_list.size]
  have hs' : (array1D_ax.spec_log_table Real.log t)._x_axis.base.Pairwise (fun a b => a < b) :=
    pairwise_map_log hs hpos
  have hvl : 0 < t._x_axis.index l := ax_list.index_pos t._x_axis hpos (by omega)
  have hvl1 : 0 < t._x_axis.index (l + 1) := ax_list.index_pos t._x_axis hpos hl
  have hlo' : 0 < l → (array1D_ax.spec_log_table Real.log t)._x_axis.index l ≤ Real.log x := by
    intro h
    rw [spec_log_table_index t (by omega)]
    exact Real.log_le_log hvl (hlo h)
  have hhi' : l + 2 < (array1D_ax.spec_log_table Real.log t)._x_axis.size →
      Real.log x < (array1D_ax.spec_log_table Real.log t)._x_axis.index (l + 1) := by
    intro h
    rw [spec_log_table_index t hl]
    exact Real.log_lt_log hx (hhi (by omega))
  have hlow := array1D_ax.low_index_of_low_bracket t hs hN hM hl hlo hhi
  have hlow' := array1D_ax.low_index_of_low_bracket (array1D_ax.spec_log_table Real.log t) hs'
    (by omega) (by omega) (by omega) hlo' hhi'
  refine ⟨hlow', hlow, ?_⟩
  rw [array1D_ax.at_linear_of_low_bracket (array1D_ax.spec_log_table Real.log t) hs'
    (by omega) (by omega) (by omega) hlo' hhi']
  rw [spec_log_table_index t (by omega), spec_log_table_index t hl]
  have hdata : ∀ i, i < t._data.length →
      vec_at (array1D_ax.spec_log_table Real.log t)._data i = Real.log (vec_at t._data i) :=
    fun i hi => vec_at_map_log t._data hi
  rw [hdata l (by omega), hdata (l + 1) (by omega)]
  unfold array1D_ax.at_loglog
  simp only [hlow]
  rw [size_add_of_lt (by omega)]
  simp only [ax_list.ops]
  rw [Real.log_div (ne_of_gt hx) (ne_of_gt hvl), Real.log_div (ne_of_gt hvl1) (ne_of_gt hvl)]
  congr 1
  ring

/-- C24: on a 1-D table with positive data `d` over a strictly increasing list
axis of positive values `v[0..N-1]`, `N ≥ 2`, for every `x > 0` the linear
interpolation `L` of the table with axis values `log v[i]` and data `log d[i]`
selects at `log x` the bracket that `at_loglog` and `at_linear` select at `x`,
and `at_loglog(x) = exp(L(log x))`; at every stored axis value,
`at_loglog(v[i]) = d[i]`. -/
theorem at_loglog_is_linear_in_log_space (t : array1D_ax ℝ (ax_list ℝ))
    (hs : t._x_axis.base.Pairwise (fun a b => a < b)) (hpos : ∀ a ∈ t._x_axis.base, 0 < a)
    (hN : 2 ≤ t._x_axis.size) (hM : t._x_axis.size < SIZE_T_MOD)
    (hd : t._data.length = t._x_axis.size) (hdpos : ∀ a ∈ t._data, 0 < a) :
    (∀ x, 0 < x →
      array1D_ax.low_index ax_list.ops (array1D_ax.spec_log_table Real.log t) (Real.log x)
        = array1D_ax.low_index ax_list.ops t x ∧
      array1D_ax.at_loglog ax_list.ops Real.exp Real.log t x
        = Real.exp (array1D_ax.at_linear ax_list.ops (array1D_ax.spec_log_table Real.log t)
            (Real.log x))) ∧
    ∀ i, i < t._x_axis.size →
      array1D_ax.at_loglog ax_list.ops Real.exp Real.log t (array1D_ax.get_x ax_list.ops t i)
        = array1D_ax.call t i := by
  have main : ∀ x, 0 < x →
      array1D_ax.low_index ax_list.ops (array1D_ax.spec_log_table Real.log t) (Real.log x)
        = array1D_ax.low_index ax_list.ops t x ∧
      array1D_ax.at_loglog ax_list.ops Real.exp Real.log t x
        = Real.exp (array1D_ax.at_linear ax_list.ops (array1D_ax.spec_log_table Real.log t)
            (Real.log x)) := by
    intro x hx
    obtain ⟨l, hl⟩ := ax_list.exists_spec_bracket t._x_axis hs hN hM x
    obtain ⟨h1, h2, h3⟩ := ax_list.spec_bracket_bounds t._x_axis hs hl
    obtain ⟨a1, a2, a3⟩ :=
      array1D_ax.at_loglog_of_low_bracket t hs hpos hN hM hd hx h1 h2 h3
    exact ⟨by rw [a1, a2], a3⟩
  refine ⟨main, ?_⟩
  intro i hi
  have hsize : (array1D_ax.spec_log_table Real.log t)._x_axis.size = t._x_axis.size := by
    simp [array1D_ax.spec_log_table, ax_list.size]
  have hs' : (array1D_ax.spec_log_table Real.log t)._x_axis.base.Pairwise (fun a b => a < b) :=
    pairwise_map_log hs hpos
  have hvi : 0 < t._x_axis.index i := ax_list.index_pos t._x_axis hpos hi
  show array1D_ax.at_loglog ax_list.ops Real.exp Real.log t (t._x_axis.index i)
    = vec_at t._data i
  rw [(main _ hvi).2, ← spec_log_table_index t hi]
  have hfind : ax_list.ops.find (array1D_ax.spec_log_table Real.log t)._x_axis
      ((array1D_ax.spec_log_table Real.log t)._x_axis.index i) = (i : ℝ) :=
    ax_list.find_index _ hs' (by omega) (by omega) (by omega)
  rw [array1D_ax.at_linear_of_find ax_list.ops _ _ i hfind
    (by show 2 ≤ (array1D_ax.spec_log_table Real.log t)._x_axis.size; omega)
    (by show (array1D_ax.spec_log_table Real.log t)._x_axis.size < SIZE_T_MOD; omega)
    (by show i < (array1D_ax.spec_log_table Real.log t)._x_axis.size; omega)]
  have hdi : i < t._data.length := by omega
  rw [show vec_at (array1D_ax.spec_log_table Real.log t)._data i = Real.log (vec_at t._data i)
    from vec_at_map_log t._data hdi]
  apply Real.exp_log
  rw [vec_at_eq t._data hdi]
  exact hdpos _ (List.getElem_mem hdi)

/-- Witness of C24: the table with axis `1, 2, 4` and data `10, 20, 40` over the
reals, at the stored value `2` and at the query `3`. -/
theorem at_loglog_is_linear_in_log_space_witness :
    array1D_ax.at_loglog ax_list.ops Real.exp Real.log (example_table_field : array1D_ax ℝ _)
        (array1D_ax.get_x ax_list.ops (example_table_field : array1D_ax ℝ _) 1)
      = array1D_ax.call (example_table_field : array1D_ax ℝ _) 1 ∧
    array1D_ax.at_loglog ax_list.ops Real.exp Real.log (example_table_field : array1D_ax ℝ _) 3
      = Real.exp (array1D_ax.at_linear ax_list.ops
          (array1D_ax.spec_log_table Real.log (example_table_field : array1D_ax ℝ _))
          (Real.log 3)) := by
  have h := at_loglog_is_linear_in_log_space (example_table_field : array1D_ax ℝ _)
    (by simp [example_table_field]; norm_num)
    (by
      intro a ha
      simp [example_table_field] at ha
      rcases ha with h | h | h <;> rw [h] <;> norm_num)
    (by decide) (by decide) rfl
    (by
      intro a ha
      simp [example_table_field] at ha
      rcases ha with h | h | h <;> rw [h] <;> norm_num)
  exact ⟨h.2 1 (by decide), (h.1 3 (by norm_num)).2⟩

end loglog_claims

section elastic_imfp_claim

/-- Log-log interpolation written out on a bracket `l` of the specification:
the exponential of the line through `(log v[l], log d[l])` and
`(log v[l+1], log d[l+1])` at `log x`. -/
theorem array1D_ax.at_loglog_formula (t : array1D_ax ℝ (ax_list ℝ))
    (hs : t._x_axis.base.Pairwise (fun a b => a < b)) (hpos : ∀ a ∈ t._x_axis.base, 0 < a)
    (hN : 2 ≤ t._x_axis.size) (hM : t._x_axis.size < SIZE_T_MOD) {x : ℝ} (hx : 0 < x) {l : Nat}
    (hl : l + 1 < t._x_axis.size) (hlo : 0 < l → t._x_axis.index l ≤ x)
    (hhi : l + 2 < t._x_axis.size → x < t._x_axis.index (l + 1)) :
    array1D_ax.at_loglog ax_list.ops Real.exp Real.log t x
      = Real.exp
          ((1 - (Real.log x - Real.log (t._x_axis.index l))
              / (Real.log (t._x_axis.index (l + 1)) - Real.log (t._x_axis.index l)))
            * Real.log (vec_at t._data l)
          + (Real.log x - Real.log (t._x_axis.index l))
              / (Real.log (t._x_axis.index (l + 1)) - Real.log (t._x_axis.index l))
            * Real.log (vec_at t._data (l + 1))) := by
  have hvl : 0 < t._x_axis.index l := ax_list.index_pos t._x_axis hpos (by omega)
  have hvl1 : 0 < t._x_axis.index (l + 1) := ax_list.index_pos t._x_axis hpos hl
  have hlow := array1D_ax.low_index_of_low_bracket t hs hN hM hl hlo hhi
  unfold array1D_ax.at_loglog
  simp only [hlow]
  rw [size_add_of_lt (by omega)]
  simp only [ax_list.ops]
  rw [Real.log_div (ne_of_gt hx) (ne_of_gt hvl), Real.log_div (ne_of_gt hvl1) (ne_of_gt hvl)]

theorem example_log_axis_five :
    ax_logspace.ctor Real.log 1 100 5 = (⟨0, Real.log 10 / 2, 5⟩ : ax_logspace ℝ) := by
  have h1 : size_sub 5 1 = 4 := by decide
  have h2 : Real.log 100 = 2 * Real.log 10 := by
    rw [show (100 : ℝ) = 10 ^ 2 by norm_num, Real.log_pow]
    norm_num
  simp only [ax_logspace.ctor, h1, div_one, Real.log_one, h2]
  congr 1
  norm_num
  ring

theorem example_node_sqrt :
    ax_logspace.index Real.exp (ax_logspace.ctor Real.log 1 100 5) 1 = Real.sqrt 10 := by
  rw [example_log_axis_five]
  simp only [ax_logspace.index, Nat.cast_one, mul_one, zero_add]
  rw [Real.exp_half, Real.exp_log (by norm_num)]

theorem example_node_ten :
    ax_logspace.index Real.exp (ax_logspace.ctor Real.log 1 100 5) 2 = 10 := by
  rw [example_log_axis_five]
  simp only [ax_logspace.index, Nat.cast_ofNat, zero_add]
  rw [div_mul_cancel₀ _ (by norm_num : (2 : ℝ) ≠ 0), Real.exp_log (by norm_num)]

theorem log_hundred : Real.log 100 = 2 * Real.log 10 := by
  rw [show (100 : ℝ) = 10 ^ 2 by norm_num, Real.log_pow]
  norm_num

theorem example_square_sorted :
    (example_cross_section_square : array1D_ax ℝ (ax_list ℝ))._x_axis.base.Pairwise
      (fun a b => a < b) := by
  simp [example_cross_section_square]
  norm_num

theorem example_square_pos :
    ∀ a ∈ (example_cross_section_square : array1D_ax ℝ (ax_list ℝ))._x_axis.base, 0 < a := by
  intro a ha
  simp [example_cross_section_square] at ha
  rcases ha with h | h | h <;> rw [h] <;> norm_num

/-- Log-log interpolation of the cross sections `1, 100, 10000` over the
energies `1, 10, 100` at `√10`, in the first bracket, is `10`. -/
theorem example_square_at_sqrt :
    array1D_ax.at_loglog ax_list.ops Real.exp Real.log example_cross_section_square
      (Real.sqrt 10) = 10 := by
  have hsq : (0 : ℝ) < Real.sqrt 10 := Real.sqrt_pos.mpr (by norm_num)
  have hlt : Real.sqrt 10 < 10 := by
    rw [Real.sqrt_lt' (by norm_num)]
    norm_num
  rw [array1D_ax.at_loglog_formula example_cross_section_square example_square_sorted
    example_square_pos (by decide) (by decide) hsq (by decide : 0 + 1 < 3)
    (fun h => absurd h (lt_irrefl 0)) (fun _ => hlt)]
  have e0 : (example_cross_section_square : array1D_ax ℝ (ax_list ℝ))._x_axis.index 0 = 1 := rfl
  have e1 : (example_cross_section_square : array1D_ax ℝ (ax_list ℝ))._x_axis.index (0 + 1)
      = 10 := rfl
  have d0 : vec_at (example_cross_section_square : array1D_ax ℝ (ax_list ℝ))._data 0 = 1 := rfl
  have d1 : vec_at (example_cross_section_square : array1D_ax ℝ (ax_list ℝ))._data (0 + 1)
      = 100 := rfl
  rw [e0, e1, d0, d1, Real.log_one, Real.log_sqrt (by norm_num), log_hundred]
  have h10 := log_ten_pos
  have hw : (Real.log 10 / 2 - 0) / (Real.log 10 - 0) = 1 / 2 := by
    field_simp
    ring
  rw [hw]
  have : (1 - 1 / 2 : ℝ) * 0 + 1 / 2 * (2 * Real.log 10) = Real.log 10 := by ring
  rw [this, Real.exp_log (by norm_num)]

/-- Log-log interpolation of the cross sections `1, 100, 10000` over the
energies `1, 10, 100` at the stored energy `10` is the stored `100`. -/
theorem example_square_at_ten :
    array1D_ax.at_loglog ax_list.ops Real.exp Real.log example_cross_section_square 10
      = 100 := by
  rw [array1D_ax.at_loglog_formula example_cross_section_square example_square_sorted
    example_square_pos (by decide) (by decide) (by norm_num : (0 : ℝ) < 10)
    (by decide : 1 + 1 < 3)
    (fun _ => le_of_eq (rfl : (example_cross_section_square :
      array1D_ax ℝ (ax_list ℝ))._x_axis.index 1 = 10))
    (fun h => absurd h (by decide))]
  have e0 : (example_cross_section_square : array1D_ax ℝ (ax_list ℝ))._x_axis.index 1 = 10 := rfl
  have e1 : (example_cross_section_square : array1D_ax ℝ (ax_list ℝ))._x_axis.index (1 + 1)
      = 100 := rfl
  have d0 : vec_at (example_cross_section_square : array1D_ax ℝ (ax_list ℝ))._data 1 = 100 := rfl
  have d1 : vec_at (example_cross_section_square : array1D_ax ℝ (ax_list ℝ))._data (1 + 1)
      = 10000 := rfl
  rw [e0, e1, d0, d1, sub_self, zero_div, sub_zero, one_mul, zero_mul, add_zero,
    Real.exp_log (by norm_num)]

/-- C12: the table returned by `get_elastic_imfp(K_min, K_max, N)` is over the
logarithmic axis `(K_min, K_max, N)` and stores at every node `i` the value
`log(sigma(K_i) * d)`, where `sigma` is the log-log interpolation of the stored
elastic cross sections, `K_i` the `i`-th node and `d` the value of the density:
on a strictly increasing axis of positive energies `E`, at a node `K_i > 0`
whose bracket is `l`, `sigma(K_i)` is the exponential of
`(1 - w) * log(sigma_l) + w * log(sigma_(l+1))` with
`w = (log K_i - log E_l) / (log E_(l+1) - log E_l)`.
For the energies `1, 10, 100` with cross sections `1, 1, 1` and `d > 0`,
`get_elastic_imfp(1, 100, 3)` has the node `K = 10`, stores `log d` there, and
`get(10)` returns `d`.  For the cross sections `1, 100, 10000` at the same
energies, `get_elastic_imfp(1, 100, 5)` has the node `√10`, where it stores
`log(10 * d)`, and the node `10`, where it stores `log(100 * d)`. -/
theorem get_elastic_imfp_spec (density : quantity ℝ)
    (elastic_cross_section : array1D_ax ℝ (ax_list ℝ)) (K_min K_max : ℝ) (N : Nat)
    (hd : 0 < density.value) :
    (∃ t, material.get_elastic_imfp Real.exp Real.log density elastic_cross_section
          K_min K_max N = Except.ok t ∧
        t.base._x_axis = ax_logspace.ctor Real.log K_min K_max N ∧
        (∀ i, i < N → array1D_ax.call t.base i
          = Real.log (array1D_ax.at_loglog ax_list.ops Real.exp Real.log elastic_cross_section
              (array1D_ax.get_x (ax_logspace.ops Real.exp Real.log) t.base i)
              * density.value)) ∧
        (elastic_cross_section._x_axis.base.Pairwise (fun a b => a < b) →
          (∀ a ∈ elastic_cross_section._x_axis.base, 0 < a) →
          2 ≤ elastic_cross_section._x_axis.size →
          elastic_cross_section._x_axis.size < SIZE_T_MOD →
          ∀ i l, i < N →
            0 < array1D_ax.get_x (ax_logspace.ops Real.exp Real.log) t.base i →
            elastic_cross_section._x_axis.spec_bracket
              (array1D_ax.get_x (ax_logspace.ops Real.exp Real.log) t.base i) l →
            array1D_ax.call t.base i
              = Real.log (Real.exp
                  ((1 - (Real.log (array1D_ax.get_x (ax_logspace.ops Real.exp Real.log)
                            t.base i)
                          - Real.log (elastic_cross_section._x_axis.index l))
                      / (Real.log (elastic_cross_section._x_axis.index (l + 1))
                          - Real.log (elastic_cross_section._x_axis.index l)))
                    * Real.log (vec_at elastic_cross_section._data l)
                  + (Real.log (array1D_ax.get_x (ax_logspace.ops Real.exp Real.log)
                            t.base i)
                          - Real.log (elastic_cross_section._x_axis.index l))
                      / (Real.log (elastic_cross_section._x_axis.index (l + 1))
                          - Real.log (elastic_cross_section._x_axis.index l))
                    * Real.log (vec_at elastic_cross_section._data (l + 1)))
                * density.value))) ∧
    (∃ t, material.get_elastic_imfp Real.exp Real.log density example_cross_section 1 100 3
          = Except.ok t ∧
        array1D_ax.get_x (ax_logspace.ops Real.exp Real.log) t.base 1 = 10 ∧
        array1D_ax.call t.base 1 = Real.log density.value ∧
        imfp_table.get Real.exp Real.log t 10 = density.value) ∧
    (∃ t, material.get_elastic_imfp Real.exp Real.log density example_cross_section_square
          1 100 5 = Except.ok t ∧
        array1D_ax.get_x (ax_logspace.ops Real.exp Real.log) t.base 1 = Real.sqrt 10 ∧
        array1D_ax.call t.base 1 = Real.log (10 * density.value) ∧
        array1D_ax.get_x (ax_logspace.ops Real.exp Real.log) t.base 2 = 10 ∧
        array1D_ax.call t.base 2 = Real.log (100 * density.value)) := by
  refine ⟨⟨_, get_elastic_imfp_eq density elastic_cross_section K_min K_max N, rfl, ?_, ?_⟩,
    ⟨_, get_elastic_imfp_eq density example_cross_section 1 100 3, ?_, ?_, ?_⟩,
    ⟨_, get_elastic_imfp_eq density example_cross_section_square 1 100 5,
      example_node_sqrt, ?_, example_node_ten, ?_⟩⟩
  · intro i hi
    unfold array1D_ax.call
    rw [fill_loop_vec_at N _ hi]
    rfl
  · intro hs hpos hN hM i l hi hK hbr
    obtain ⟨h1, h2, h3⟩ := ax_list.spec_bracket_bounds elastic_cross_section._x_axis hs hbr
    rw [← array1D_ax.at_loglog_formula elastic_cross_section hs hpos hN hM hK h1 h2 h3]
    unfold array1D_ax.call
    rw [fill_loop_vec_at N _ hi]
    rfl
  · show Real.exp ((ax_logspace.ctor Real.log 1 100 3)._llow
      + (ax_logspace.ctor Real.log 1 100 3)._lstep * ((1 : Nat) : ℝ)) = 10
    rw [example_log_axis]
    simp only [Nat.cast_one, mul_one, zero_add]
    exact Real.exp_log (by norm_num)
  · unfold array1D_ax.call
    rw [fill_loop_vec_at 3 _ (by decide : 1 < 3), example_cross_section_at_loglog, one_mul]
  · unfold imfp_table.get
    have hfind : (ax_logspace.ops Real.exp Real.log).find
        (ax_logspace.ctor Real.log 1 100 3) 10 = ((1 : Nat) : ℝ) := by
      rw [example_log_axis]
      simp only [ax_logspace.ops, ax_logspace.find, sub_zero, Nat.cast_one]
      exact div_self (ne_of_gt log_ten_pos)
    rw [array1D_ax.at_linear_of_find (ax_logspace.ops Real.exp Real.log) _ 10 1 hfind
      (by show 2 ≤ 3; decide) (by show 3 < SIZE_T_MOD; decide) (by show 1 < 3; decide)]
    rw [fill_loop_vec_at 3 _ (by decide : 1 < 3), example_cross_section_at_loglog, one_mul]
    exact Real.exp_log hd
  · unfold array1D_ax.call
    rw [fill_loop_vec_at 5 _ (by decide : 1 < 5), example_node_sqrt, example_square_at_sqrt]
  · unfold array1D_ax.call
    rw [fill_loop_vec_at 5 _ (by decide : 2 < 5), example_node_ten, example_square_at_ten]

/-- Witness of C12: density `2`.  The cross sections `1, 1, 1` resampled onto the
axis `(1, 100, 3)`; the cross sections `1, 100, 10000` resampled onto the axis
`(1, 100, 5)`, whose node `√10` lies in the bracket `0` of the energies and
stores `log(10 * 2)` by the formula of the log-log interpolation. -/
theorem get_elastic_imfp_spec_witness :
    (∃ t, material.get_elastic_imfp Real.exp Real.log ⟨2, dimensions.dimensionless⟩
          example_cross_section 1 100 3 = Except.ok t ∧
        array1D_ax.get_x (ax_logspace.ops Real.exp Real.log) t.base 1 = 10 ∧
        array1D_ax.call t.base 1 = Real.log 2 ∧
        imfp_table.get Real.exp Real.log t 10 = 2) ∧
    (∃ t, material.get_elastic_imfp Real.exp Real.log ⟨2, dimensions.dimensionless⟩
          example_cross_section_square 1 100 5 = Except.ok t ∧
        array1D_ax.get_x (ax_logspace.ops Real.exp Real.log) t.base 1 = Real.sqrt 10 ∧
        array1D_ax.call t.base 1 = Real.log (10 * 2) ∧
        array1D_ax.get_x (ax_logspace.ops Real.exp Real.log) t.base 2 = 10 ∧
        array1D_ax.call t.base 2 = Real.log (100 * 2)) :=
  have h := get_elastic_imfp_spec ⟨2, dimensions.dimensionless⟩ example_cross_section 1 100 3
    (by norm_num)
  ⟨h.2.1, h.2.2⟩

end elastic_imfp_claim

section ctor_axes_claims
variable {α β A Ax Ay : Type} [Zero β]

/-- Counterexample to C22 as stated: the 2-D table constructed from two axes of
`2 ^ 32` points each has an empty buffer and `size() = 0`, although
`width*height = 2 ^ 64`: the `size_t` product wraps to `0`, and the position
that `table(0, 0)` reads is outside the buffer. -/
theorem array2D_ctor_axes_wraps :
    (array2D_ax.ctor_axes ax_linspace.ops ax_linspace.ops (ax_linspace.ctor (0 : ℚ) 1 (2 ^ 32))
        (ax_linspace.ctor (0 : ℚ) 1 (2 ^ 32)) : array2D_ax ℚ _ _)._data = [] ∧
    array2D_ax.size ax_linspace.ops ax_linspace.ops
      (array2D_ax.ctor_axes ax_linspace.ops ax_linspace.ops (ax_linspace.ctor (0 : ℚ) 1 (2 ^ 32))
        (ax_linspace.ctor (0 : ℚ) 1 (2 ^ 32)) : array2D_ax ℚ _ _) = 0 ∧
    array2D_ax.width ax_linspace.ops
        (array2D_ax.ctor_axes ax_linspace.ops ax_linspace.ops
          (ax_linspace.ctor (0 : ℚ) 1 (2 ^ 32)) (ax_linspace.ctor (0 : ℚ) 1 (2 ^ 32)) :
          array2D_ax ℚ _ _)
      * array2D_ax.height ax_linspace.ops
        (array2D_ax.ctor_axes ax_linspace.ops ax_linspace.ops
          (ax_linspace.ctor (0 : ℚ) 1 (2 ^ 32)) (ax_linspace.ctor (0 : ℚ) 1 (2 ^ 32)) :
          array2D_ax ℚ _ _) = 2 ^ 64 ∧
    (array2D_ax.ctor_axes ax_linspace.ops ax_linspace.ops (ax_linspace.ctor (0 : ℚ) 1 (2 ^ 32))
        (ax_linspace.ctor (0 : ℚ) 1 (2 ^ 32)) : array2D_ax ℚ _ _)._data[
      array2D_ax.position ax_linspace.ops
        (array2D_ax.ctor_axes ax_linspace.ops ax_linspace.ops
          (ax_linspace.ctor (0 : ℚ) 1 (2 ^ 32)) (ax_linspace.ctor (0 : ℚ) 1 (2 ^ 32)) :
          array2D_ax ℚ _ _) 0 0]? = none := by
  have hmul : size_mul 4294967296 4294967296 = 0 := by decide
  have hdata : (array2D_ax.ctor_axes ax_linspace.ops ax_linspace.ops
      (ax_linspace.ctor (0 : ℚ) 1 (2 ^ 32)) (ax_linspace.ctor (0 : ℚ) 1 (2 ^ 32)) :
      array2D_ax ℚ _ _)._data = [] := by
    simp [array2D_ax.ctor_axes, ax_linspace.ops, ax_linspace.ctor, ax_linspace.size, hmul]
  refine ⟨hdata, ?_, ?_, ?_⟩
  · simp [array2D_ax.size, array2D_ax.width, array2D_ax.height, array2D_ax.ctor_axes,
      ax_linspace.ops, ax_linspace.ctor, ax_linspace.size, hmul]
  · simp [array2D_ax.width, array2D_ax.height, array2D_ax.ctor_axes,
      ax_linspace.ops, ax_linspace.ctor, ax_linspace.size]
  · rw [hdata]
    rfl

/-- C22, amended: the 1-D table constructed from an axis has `size() = N` and
stores `0` at every `i < N`; the 2-D table constructed from two axes with
`width*height` below `2 ^ 64` has `size() = width*height`, a buffer of that
length, and stores `0` at every `(x, y)` with `x < width` and `y < height`. -/
theorem ctor_axes_zero_filled (ax : axis_ops Ax α) (ay : axis_ops Ay α) (x_axis : Ax)
    (y_axis : Ay) (hfit : ax.size x_axis * ay.size y_axis < SIZE_T_MOD) :
    (array1D_ax.size ax (array1D_ax.ctor_axis ax x_axis : array1D_ax β Ax) = ax.size x_axis ∧
      ∀ i, i < ax.size x_axis →
        (array1D_ax.ctor_axis ax x_axis : array1D_ax β Ax)._data[i]? = some 0 ∧
        array1D_ax.call (array1D_ax.ctor_axis ax x_axis : array1D_ax β Ax) i = 0) ∧
    (array2D_ax.size ax ay (array2D_ax.ctor_axes ax ay x_axis y_axis : array2D_ax β Ax Ay)
        = ax.size x_axis * ay.size y_axis ∧
      (array2D_ax.ctor_axes ax ay x_axis y_axis : array2D_ax β Ax Ay)._data.length
        = ax.size x_axis * ay.size y_axis ∧
      ∀ x y, x < ax.size x_axis → y < ay.size y_axis →
        (array2D_ax.ctor_axes ax ay x_axis y_axis : array2D_ax β Ax Ay)._data[
          array2D_ax.position ay
            (array2D_ax.ctor_axes ax ay x_axis y_axis : array2D_ax β Ax Ay) x y]? = some 0 ∧
        array2D_ax.position ay
            (array2D_ax.ctor_axes ax ay x_axis y_axis : array2D_ax β Ax Ay) x y
          = x * ay.size y_axis + y ∧
        array2D_ax.call ay (array2D_ax.ctor_axes ax ay x_axis y_axis : array2D_ax β Ax Ay) x y
          = 0) := by
  have hmul := size_mul_of_lt hfit
  refine ⟨⟨rfl, ?_⟩, ?_, ?_, ?_⟩
  · intro i hi
    constructor
    · simp [array1D_ax.ctor_axis, hi]
    · simp [array1D_ax.call, array1D_ax.ctor_axis, vec_at, hi]
  · show size_mul (ax.size x_axis) (ay.size y_axis) = _
    exact hmul
  · simp [array2D_ax.ctor_axes, hmul]
  · intro x y hx hy
    have hp := position_eq ay (array2D_ax.ctor_axes ax ay x_axis y_axis : array2D_ax β Ax Ay)
      hfit hx hy
    have hlt : array2D_ax.position ay
        (array2D_ax.ctor_axes ax ay x_axis y_axis : array2D_ax β Ax Ay) x y
        < ax.size x_axis * ay.size y_axis := by
      rw [hp.1]
      exact hp.2
    refine ⟨?_, hp.1, ?_⟩
    · simp only [array2D_ax.ctor_axes, hmul]
      rw [List.getElem?_replicate]
      simp only [array2D_ax.ctor_axes, hmul] at hlt
      simp [hlt]
    · unfold array2D_ax.call vec_at
      simp only [array2D_ax.ctor_axes, hmul] at hlt ⊢
      rw [List.getD_eq_getElem?_getD, List.getElem?_replicate]
      simp [hlt]

/-- Witness of C22, amended: the axes `(0, 1, 2)` and `(0, 1, 3)`; the buffer
has six zeros and `table(1, 2)` reads position `5`. -/
theorem ctor_axes_zero_filled_witness :
    (array2D_ax.ctor_axes ax_linspace.ops ax_linspace.ops (ax_linspace.ctor (0 : ℚ) 1 2)
        (ax_linspace.ctor (0 : ℚ) 1 3) : array2D_ax ℚ _ _)._data.length = 2 * 3 ∧
    array2D_ax.position ax_linspace.ops
        (array2D_ax.ctor_axes ax_linspace.ops ax_linspace.ops (ax_linspace.ctor (0 : ℚ) 1 2)
          (ax_linspace.ctor (0 : ℚ) 1 3) : array2D_ax ℚ _ _) 1 2 = 1 * 3 + 2 ∧
    array2D_ax.call ax_linspace.ops
        (array2D_ax.ctor_axes ax_linspace.ops ax_linspace.ops (ax_linspace.ctor (0 : ℚ) 1 2)
          (ax_linspace.ctor (0 : ℚ) 1 3) : array2D_ax ℚ _ _) 1 2 = 0 :=
  have h := (ctor_axes_zero_filled ax_linspace.ops ax_linspace.ops (ax_linspace.ctor (0 : ℚ) 1 2)
    (ax_linspace.ctor (0 : ℚ) 1 3) (by decide)).2
  ⟨h.2.1, (h.2.2 1 2 (by decide) (by decide)).2.1, (h.2.2 1 2 (by decide) (by decide)).2.2⟩

end ctor_axes_claims

section bilinear_claims
variable {α Ax Ay : Type} [LinearOrderedField α] [FloorRing α]

/-- The truncated clamped index of `at_linear` at a true index that is a grid
index `i`: `i` itself, or `N - 2` at the last grid index. -/
theorem to_size_t_clamp_at_node (i N : Nat) (hN : 2 ≤ N) (hM : N < SIZE_T_MOD) (hi : i < N) :
    to_size_t (_clamp (i : α) 0 ((size_sub N 2 : Nat) : α)) = if i + 1 < N then i else N - 2 := by
  rw [size_sub_of_le hN hM]
  by_cases hlast : i + 1 < N
  · rw [if_pos hlast]
    exact to_size_t_clamp (by omega) (le_refl _) (fun _ => by linarith)
  · rw [if_neg hlast]
    exact to_size_t_clamp (le_refl _) (by exact_mod_cast (by omega : N - 2 ≤ i))
      (fun h => absurd h (lt_irrefl _))

end bilinear_claims

section ionization_rounddown
variable {α β : Type} [LinearOrderedField α] [FloorRing α] [Zero β] [One β] [Neg β]

end ionization_rounddown

section ionization_rounddown_witness

end ionization_rounddown_witness

section one_point_axis
variable {α β : Type} [LinearOrderedField α] [FloorRing α]

/-- C29: on a list axis with exactly one point, for every query `x`, the
bracket clamp of `find` has its upper bound `size() - 1 = 0` below its lower
bound `1` and yields the index `1`, which is outside the stored sequence that
`find` reads at it; the upper clamp bound `size() - 2` of `at_linear` wraps
around to `2 ^ 64 - 1`; and on a table with one value over that axis one of the
two buffer positions `low_index`, `low_index + 1` that `at_linear` reads is
outside the buffer. -/
theorem one_point_axis_reads_outside (t : array1D_ax β (ax_list α))
    (hsize : t._x_axis.size = 1) (hdata : t._data.length = 1) (x : α) :
    size_sub t._x_axis.size 1 = 0 ∧
    t._x_axis.high_index x = 1 ∧
    t._x_axis.base[t._x_axis.high_index x]? = none ∧
    size_sub t._x_axis.size 2 = 2 ^ 64 - 1 ∧
    (t._data[array1D_ax.low_index ax_list.ops t x]? = none ∨
      t._data[size_add (array1D_ax.low_index ax_list.ops t x) 1]? = none) := by
  have h1 : size_sub t._x_axis.size 1 = 0 := by
    rw [hsize]
    decide
  have hh : t._x_axis.high_index x = 1 := by
    unfold ax_list.high_index _clamp
    rw [h1]
    simp
  refine ⟨h1, hh, ?_, ?_, ?_⟩
  · rw [hh]
    have hlen : t._x_axis.base.length = 1 := hsize
    simp [hlen]
  · rw [hsize]
    decide
  · by_cases h0 : array1D_ax.low_index ax_list.ops t x = 0
    · right
      rw [h0]
      have : size_add 0 1 = 1 := by decide
      rw [this]
      simp [hdata]
    · left
      have : 1 ≤ array1D_ax.low_index ax_list.ops t x := by omega
      simp [hdata, this]

/-- Witness of C29: the table with the one axis value `5` and the one stored
value `10`, queried at `7`. -/
theorem one_point_axis_reads_outside_witness :
    (⟨[5]⟩ : ax_list ℚ).high_index 7 = 1 ∧
    ([5] : List ℚ)[(⟨[5]⟩ : ax_list ℚ).high_index 7]? = none ∧
    size_sub (⟨[5]⟩ : ax_list ℚ).size 2 = 2 ^ 64 - 1 :=
  have h := one_point_axis_reads_outside (⟨[10], ⟨[5]⟩⟩ : array1D_ax ℚ (ax_list ℚ)) rfl rfl 7
  ⟨h.2.1, h.2.2.1, h.2.2.2.1⟩

end one_point_axis

section nonfinite_interpolation
variable {α A : Type} [LinearOrderedField α] [FloorRing α]

omit [FloorRing α] in
theorem fp.add_nan (a : fp α) : a + fp.nan = fp.nan := by
  cases a <;> rfl

omit [FloorRing α] in
theorem fp.nan_add (a : fp α) : fp.nan + a = fp.nan := by
  cases a <;> rfl

omit [FloorRing α] in
/-- A zero weight times an infinite value is not a number. -/
theorem fp.zero_mul_inf (negative : Bool) :
    (fp.finite (0 : α)) * fp.inf negative = fp.nan := by
  show fp.mul (fp.finite 0) (fp.inf negative) = fp.nan
  simp [fp.mul]

omit [FloorRing α] in
theorem vec_at_map_finite (data : List α) (pos : Nat) :
    vec_at (data.map fp.finite) pos = fp.finite (vec_at data pos) := by
  unfold vec_at
  by_cases h : pos < data.length
  · simp [List.getD_eq_getElem?_getD, h]
  · have h2 : data.length ≤ pos := not_lt.mp h
    simp [List.getD_eq_getElem?_getD, List.getElem?_eq_none, h2]
    rfl

/-- On finite stored values the floating-point `at_linear` is `at_linear`. -/
theorem array1D_ax.at_linear_fp_finite (ax : axis_ops A α) (t : array1D_ax α A) (x : α) :
    array1D_ax.at_linear_fp ax ⟨t._data.map fp.finite, t._x_axis⟩ x
      = fp.finite (array1D_ax.at_linear ax t x) := by
  unfold array1D_ax.at_linear_fp array1D_ax.at_linear
  simp only [vec_at_map_finite]
  rfl

/-- C30: on a 1-D table with `N ≥ 2` whose stored values need not be finite,
queried at an `x` whose true index is a grid index `i`: when `i` is not the last
index the weight `frac_index` is exactly `0`, and if the value stored at the
other end `i + 1` of the bracket is infinite then `at_linear` returns NaN,
whatever is stored at `i`; when `i` is the last index the weight is exactly `1`,
and if the value stored at the low end `i - 1` of the bracket is infinite then
`at_linear` returns NaN.  On finite stored values the same query returns the
value stored at `i`. -/
theorem at_linear_zero_times_infinity (ax : axis_ops A α) (t : array1D_ax (fp α) A) (x : α)
    (i : Nat) (hN : 2 ≤ array1D_ax.size ax t) (hM : array1D_ax.size ax t < SIZE_T_MOD)
    (hi : i < array1D_ax.size ax t) (hfind : array1D_ax.find_index ax t x = (i : α)) :
    (i + 1 < array1D_ax.size ax t →
      array1D_ax.find_index ax t x - (array1D_ax.low_index ax t x : α) = 0 ∧
      ∀ negative, t._data[i + 1]? = some (fp.inf negative) →
        array1D_ax.at_linear_fp ax t x = fp.nan) ∧
    (i + 1 = array1D_ax.size ax t →
      array1D_ax.find_index ax t x - (array1D_ax.low_index ax t x : α) = 1 ∧
      ∀ negative, t._data[i - 1]? = some (fp.inf negative) →
        array1D_ax.at_linear_fp ax t x = fp.nan) ∧
    ∀ values : List α, t._data = values.map fp.finite →
      array1D_ax.at_linear_fp ax t x = fp.finite (vec_at values i) := by
  have hfind' : ax.find t._x_axis x = (i : α) := hfind
  have hlow : array1D_ax.low_index ax t x
      = if i + 1 < array1D_ax.size ax t then i else array1D_ax.size ax t - 2 := by
    unfold array1D_ax.low_index
    rw [hfind']
    exact to_size_t_clamp_at_node i _ hN hM hi
  refine ⟨fun hlt => ?_, fun hlast => ?_, fun values hv => ?_⟩
  · rw [if_pos hlt] at hlow
    refine ⟨by rw [hfind, hlow, sub_self], fun negative hinf => ?_⟩
    unfold array1D_ax.at_linear_fp
    simp only
    rw [hlow, hfind', sub_self, size_add_of_lt (by omega)]
    have hv : vec_at t._data (i + 1) = fp.inf negative := by
      unfold vec_at
      rw [List.getD_eq_getElem?_getD, hinf]
      rfl
    rw [hv, fp.zero_mul_inf, fp.add_nan]
  · rw [if_neg (by omega)] at hlow
    have hcast : ((array1D_ax.size ax t - 2 : Nat) : α) = (i : α) - 1 := by
      have e : i = array1D_ax.size ax t - 2 + 1 := by omega
      rw [e]
      push_cast
      simp
    refine ⟨by rw [hfind, hlow, hcast]; ring, fun negative hinf => ?_⟩
    unfold array1D_ax.at_linear_fp
    simp only
    rw [hlow, hfind', hcast]
    have he : array1D_ax.size ax t - 2 = i - 1 := by omega
    have hv : vec_at t._data (array1D_ax.size ax t - 2) = fp.inf negative := by
      unfold vec_at
      rw [he, List.getD_eq_getElem?_getD, hinf]
      rfl
    have h1 : (1 : α) - ((i : α) - ((i : α) - 1)) = 0 := by ring
    rw [hv, h1, fp.zero_mul_inf, fp.nan_add]
  · have ht : t = ⟨(⟨values, t._x_axis⟩ : array1D_ax α A)._data.map fp.finite,
        (⟨values, t._x_axis⟩ : array1D_ax α A)._x_axis⟩ := by
      cases t
      simp only at hv
      rw [hv]
    rw [ht, array1D_ax.at_linear_fp_finite]
    congr 1
    exact array1D_ax.at_linear_of_find ax ⟨values, t._x_axis⟩ x i hfind' hN hM hi

end nonfinite_interpolation

section nonfinite_witness

/-- Witness of C30: the table over the axis `1, 2, 4` that stores `10`, `+∞`,
`40`: at the first axis value the weight is `0` and the other bracket end holds
`+∞`, at the last axis value the weight is `1` and the low bracket end holds
`+∞`; both queries return NaN. -/
theorem at_linear_zero_times_infinity_witness :
    array1D_ax.at_linear_fp ax_list.ops example_table_inf 1 = fp.nan ∧
    array1D_ax.at_linear_fp ax_list.ops example_table_inf 4 = fp.nan := by
  have hsz : array1D_ax.size ax_list.ops example_table_inf = 3 := rfl
  have e0 : example_axis.index 0 = 1 := rfl
  have e2 : example_axis.index 2 = 4 := rfl
  have hf0 : array1D_ax.find_index ax_list.ops example_table_inf 1 = ((0 : Nat) : ℚ) := by
    have h := ax_list.find_index example_axis example_axis_sorted (by decide) (by decide)
      (by decide : 0 < example_axis.size)
    rw [e0] at h
    exact h
  have hf2 : array1D_ax.find_index ax_list.ops example_table_inf 4 = ((2 : Nat) : ℚ) := by
    have h := ax_list.find_index example_axis example_axis_sorted (by decide) (by decide)
      (by decide : 2 < example_axis.size)
    rw [e2] at h
    exact h
  have h0 := at_linear_zero_times_infinity ax_list.ops example_table_inf 1 0
    (by rw [hsz]; decide) (by rw [hsz]; decide) (by rw [hsz]; decide) hf0
  have h2 := at_linear_zero_times_infinity ax_list.ops example_table_inf 4 2
    (by rw [hsz]; decide) (by rw [hsz]; decide) (by rw [hsz]; decide) hf2
  exact ⟨(h0.1 (by rw [hsz]; decide)).2 false rfl, (h2.2.1 (by rw [hsz])).2 false rfl⟩

end nonfinite_witness

section band_gap_claims
variable {α : Type} [DivisionRing α]

omit [DivisionRing α] in
theorem material.property_map_at_some (property_map : List (String × quantity α))
    (key : String) (value : quantity α) (h : property_map.lookup key = some value) :
    material.property_map_at property_map key = Except.ok value := by
  unfold material.property_map_at
  rw [h]

omit [DivisionRing α] in
theorem material.property_map_at_none (property_map : List (String × quantity α))
    (key : String) (h : property_map.lookup key = none) :
    material.property_map_at property_map key
      = Except.error (exception.out_of_range "map::at") := by
  unfold material.property_map_at
  rw [h]

/-- C21: when the property map holds `fermi`, `density`, `phonon_loss`, `barrier`
and `effective_A`: for a metal the properties are set and the band gap is
`-1 eV`, whether or not the map holds `band_gap`; for an insulator or a
semiconductor the band gap is the entry `band_gap` of the map, and when the map
has no such entry the constructor fails, with the `std::out_of_range` of
`std::map::at`. -/
theorem band_gap_spec (conductor_type : conductor_type_t)
    (property_map : List (String × quantity α))
    (fermi density phonon_loss barrier effective_A : quantity α)
    (h1 : property_map.lookup "fermi" = some fermi)
    (h2 : property_map.lookup "density" = some density)
    (h3 : property_map.lookup "phonon_loss" = some phonon_loss)
    (h4 : property_map.lookup "barrier" = some barrier)
    (h5 : property_map.lookup "effective_A" = some effective_A) :
    (conductor_type = conductor_type_t.CND_METAL →
      ∃ m, material.ctor_properties conductor_type property_map = Except.ok m ∧
        material.get_band_gap m = ⟨-1, dimensions.energy⟩) ∧
    (conductor_type ≠ conductor_type_t.CND_METAL →
      ∀ band_gap, property_map.lookup "band_gap" = some band_gap →
        ∃ m, material.ctor_properties conductor_type property_map = Except.ok m ∧
          material.get_band_gap m = band_gap) ∧
    (conductor_type ≠ conductor_type_t.CND_METAL → property_map.lookup "band_gap" = none →
      ∃ what, material.ctor_properties conductor_type property_map
        = Except.error (exception.out_of_range what)) := by
  have e1 := material.property_map_at_some property_map "fermi" fermi h1
  have e2 := material.property_map_at_some property_map "density" density h2
  have e3 := material.property_map_at_some property_map "phonon_loss" phonon_loss h3
  have e4 := material.property_map_at_some property_map "barrier" barrier h4
  have e5 := material.property_map_at_some property_map "effective_A" effective_A h5
  refine ⟨fun hm => ?_, fun hm band_gap hb => ?_, fun hm hb => ?_⟩
  · refine ⟨⟨fermi, density, phonon_loss, barrier, effective_A,
      quantity.scale (-1) units.eV⟩, ?_, ?_⟩
    · unfold material.ctor_properties material.ctor_band_gap
      rw [e1, e2, e3, e4, e5, if_pos hm]
      rfl
    · show quantity.scale (-1) units.eV = (⟨-1, dimensions.energy⟩ : quantity α)
      simp [quantity.scale, units.eV]
  · refine ⟨⟨fermi, density, phonon_loss, barrier, effective_A, band_gap⟩, ?_, rfl⟩
    unfold material.ctor_properties material.ctor_band_gap
    rw [e1, e2, e3, e4, e5, if_neg hm,
      material.property_map_at_some property_map "band_gap" band_gap hb]
    rfl
  · refine ⟨"map::at", ?_⟩
    unfold material.ctor_properties material.ctor_band_gap
    rw [e1, e2, e3, e4, e5, if_neg hm, material.property_map_at_none property_map "band_gap" hb]
    rfl

/-- Witness of C21: a property map with the five entries and no `band_gap`: as
a metal the material has the band gap `-1 eV`, as an insulator the constructor
fails. -/
theorem band_gap_spec_witness :
    (∃ m, material.ctor_properties conductor_type_t.CND_METAL example_property_map
        = Except.ok m ∧ material.get_band_gap m = ⟨-1, dimensions.energy⟩) ∧
    (∃ what, material.ctor_properties conductor_type_t.CND_INSULATOR example_property_map
        = Except.error (exception.out_of_range what)) :=
  ⟨(band_gap_spec conductor_type_t.CND_METAL example_property_map _ _ _ _ _
      rfl rfl rfl rfl rfl).1 rfl,
    (band_gap_spec conductor_type_t.CND_INSULATOR example_property_map _ _ _ _ _
      rfl rfl rfl rfl rfl).2.2 (by decide) rfl⟩

end band_gap_claims

section imfp_loglog

/-- C31: for every logarithmic axis `(low, high, N)` with `0 < low < high` and
`N ≥ 2`, every positive data `w[0..N-1]` and every `K > 0`, `imfp_table::get(K)`
on the table that stores `log(w[i])` equals `at_loglog(K)` on the table over the
same axis that stores `w[i]`; the first table stores at every node the
logarithm of the value of the second, which the exponential gives back. -/
theorem imfp_get_eq_at_loglog (w : List ℝ) (low high : ℝ) (N : Nat) (hlow : 0 < low)
    (hlh : low < high) (hN : 2 ≤ N) (hM : N < SIZE_T_MOD) (hw : w.length = N)
    (hpos : ∀ a ∈ w, 0 < a) (K : ℝ) (hK : 0 < K) :
    imfp_table.get Real.exp Real.log
        ⟨⟨w.map Real.log, ax_logspace.ctor Real.log low high N⟩⟩ K
      = array1D_ax.at_loglog (ax_logspace.ops Real.exp Real.log) Real.exp Real.log
          ⟨w, ax_logspace.ctor Real.log low high N⟩ K ∧
    ∀ i, i < N →
      array1D_ax.call (⟨w.map Real.log, ax_logspace.ctor Real.log low high N⟩ :
          array1D_ax ℝ (ax_logspace ℝ)) i
        = Real.log (array1D_ax.call (⟨w, ax_logspace.ctor Real.log low high N⟩ :
            array1D_ax ℝ (ax_logspace ℝ)) i) ∧
      Real.exp (array1D_ax.call (⟨w.map Real.log, ax_logspace.ctor Real.log low high N⟩ :
          array1D_ax ℝ (ax_logspace ℝ)) i)
        = array1D_ax.call (⟨w, ax_logspace.ctor Real.log low high N⟩ :
            array1D_ax ℝ (ax_logspace ℝ)) i := by
  refine ⟨?_, ?_⟩
  · unfold imfp_table.get
    exact exp_at_linear_log_eq_at_loglog w low high N hlow hlh hN hM hw K hK
  · intro i hi
    have hi2 : i < w.length := by omega
    have hlog : array1D_ax.call (⟨w.map Real.log, ax_logspace.ctor Real.log low high N⟩ :
          array1D_ax ℝ (ax_logspace ℝ)) i
        = Real.log (array1D_ax.call (⟨w, ax_logspace.ctor Real.log low high N⟩ :
            array1D_ax ℝ (ax_logspace ℝ)) i) := vec_at_map_log w hi2
    refine ⟨hlog, ?_⟩
    rw [hlog]
    apply Real.exp_log
    show 0 < vec_at w i
    rw [vec_at_eq w hi2]
    exact hpos _ (List.getElem_mem hi2)

/-- Witness of C31: the values `1, 2, 3` over the logarithmic axis `(1, 100, 3)`,
at `K = 5`. -/
theorem imfp_get_eq_at_loglog_witness :
    imfp_table.get Real.exp Real.log
        ⟨⟨[1, 2, 3].map Real.log, ax_logspace.ctor Real.log 1 100 3⟩⟩ 5
      = array1D_ax.at_loglog (ax_logspace.ops Real.exp Real.log) Real.exp Real.log
          ⟨[1, 2, 3], ax_logspace.ctor Real.log 1 100 3⟩ 5 :=
  (imfp_get_eq_at_loglog [1, 2, 3] 1 100 3 (by norm_num) (by norm_num) (by decide) (by decide)
    rfl (by intro a ha; simp at ha; rcases ha with h | h | h <;> rw [h] <;> norm_num) 5
    (by norm_num)).1

end imfp_loglog

section constant_tables
variable {α Ax Ay : Type} [LinearOrderedField α] [FloorRing α]

end constant_tables

section constant_witness

end constant_witness

section affine_data
variable {α : Type} [LinearOrderedField α] [FloorRing α]

/-- C33: on a 1-D table over a strictly increasing list axis `v[0..N-1]` with
`N ≥ 2` whose stored values are `data[i] = a*v[i] + b` for every `i`,
`at_linear(x) = a*x + b` for every `x`, inside the stored range and in the
extrapolated regions. -/
theorem at_linear_affine (t : array1D_ax α (ax_list α))
    (hs : t._x_axis.base.Pairwise (fun a b => a < b))
    (hN : 2 ≤ t._x_axis.size) (hM : t._x_axis.size < SIZE_T_MOD) (a b : α)
    (hd : ∀ i, i < t._x_axis.size →
      t._data[i]? = some (a * array1D_ax.get_x ax_list.ops t i + b)) (x : α) :
    array1D_ax.at_linear ax_list.ops t x = a * x + b := by
  have hval : ∀ i, i < t._x_axis.size → vec_at t._data i = a * t._x_axis.index i + b := by
    intro i hi
    unfold vec_at
    rw [List.getD_eq_getElem?_getD, hd i hi]
    rfl
  obtain ⟨l, hl⟩ := ax_list.exists_spec_bracket t._x_axis hs hN hM x
  obtain ⟨h1, h2, h3⟩ := ax_list.spec_bracket_bounds t._x_axis hs hl
  rw [array1D_ax.at_linear_of_low_bracket t hs hN hM h1 h2 h3, hval l (by omega),
    hval (l + 1) h1]
  have hlt : t._x_axis.index l < t._x_axis.index (l + 1) :=
    ax_list.index_lt_index t._x_axis hs h1 (by omega)
  have hne : t._x_axis.index (l + 1) - t._x_axis.index l ≠ 0 := ne_of_gt (sub_pos.mpr hlt)
  field_simp
  ring

/-- Witness of C33: the table with axis `1, 2, 4` and data `10, 20, 40`, which is
`10*v + 0`, inside the range at `3` and outside it at `0` and at `100`. -/
theorem at_linear_affine_witness :
    array1D_ax.at_linear ax_list.ops example_table 3 = 10 * 3 + 0 ∧
    array1D_ax.at_linear ax_list.ops example_table 0 = 10 * 0 + 0 ∧
    array1D_ax.at_linear ax_list.ops example_table 100 = 10 * 100 + 0 := by
  have hd : ∀ i, i < example_table._x_axis.size →
      example_table._data[i]? = some (10 * array1D_ax.get_x ax_list.ops example_table i + 0) := by
    intro i hi
    have hsz : example_table._x_axis.size = 3 := rfl
    rw [hsz] at hi
    have g0 : array1D_ax.get_x ax_list.ops example_table 0 = 1 := rfl
    have g1 : array1D_ax.get_x ax_list.ops example_table 1 = 2 := rfl
    have g2 : array1D_ax.get_x ax_list.ops example_table 2 = 4 := rfl
    interval_cases i
    · rw [g0]
      norm_num
      rfl
    · rw [g1]
      norm_num
      rfl
    · rw [g2]
      norm_num
      rfl
  exact ⟨at_linear_affine example_table example_axis_sorted (by decide) (by decide) 10 0 hd 3,
    at_linear_affine example_table example_axis_sorted (by decide) (by decide) 10 0 hd 0,
    at_linear_affine example_table example_axis_sorted (by decide) (by decide) 10 0 hd 100⟩

end affine_data

section list_axis_counterexamples

end list_axis_counterexamples

section linspace_counterexamples

end linspace_counterexamples

section rounded_logarithm

end rounded_logarithm

section rounded_logarithm_claim

end rounded_logarithm_claim

end csread
